import Mathlib

/-!
Actor interfaces: record codecs and call wrappers.

A shallow embedding of `actor-core/go/actorcore.go` and
`http-client/go/httpclient.go`.

* A Go `string` and a Go `[]byte` are sequences of bytes (`List Nat`).
* A Go `map[string]string` is an association list with `m[k] = v` as
  `GoMap.set`; the order of the list is the order in which `range` visits
  the entries.  A map or slice field that may be `nil` is an `Option`.
* A `*msgpack.Decoder` is the part of the buffer that has not been read;
  a `msgpack.Writer` is the sequence of bytes written so far.
* A Go function that returns `(T, error)` and mutates its receiver returns
  the new receiver together with `Except DecodeError Decoder`: the error, or
  the decoder after the read.  A reader that fails hands back the zero value
  of its result type, which an assignment `o.F, err = decoder.Read...()`
  stores in the field before the error is returned.
* Lengths are those of the 32-bit target of the guest: the theorems about
  whole records ask that every string, blob and map has fewer than `2^32`
  elements, that a status code is a `uint32`, and that the keys of a map are
  distinct.

* The package variables `HealthRequestHandler` and `RequestHandler` and the
  registration table are the fields of `Guest`; a `Register` method maps a
  state to the next one.  A wrapper takes the handler it reads from its
  package variable as an argument and reports the handler invocations it
  made; `Host.Request` takes the boundary call `wapc.HostCall` as an argument
  and reports the boundary calls it made.

The field codec (`github.com/wapc/tinygo-msgpack`) is not among the source
files.  It is modelled from the specification, on the MessagePack wire
format.  The registration table of the guest library
(`github.com/wapc/wapc-guest-tinygo`) and its dispatch by operation name are
modelled from the specification as well.
-/

namespace ActorInterfaces

/-! ## Field codec -/

/-- A Go `string` or `[]byte`: a sequence of bytes. -/
abbrev Bytes := List Nat

/-- The remaining input of a `msgpack.Decoder`. -/
abbrev Decoder := List Nat

/-- The bytes a `msgpack.Writer` has received. -/
abbrev Encoder := List Nat

/-- Modelled from the spec: the `DecodeError` of the field codec (the msgpack
library is not in the sources), "short buffer, wrong type tag". -/
inductive DecodeError
  | shortRead
  | typeMismatch
  deriving DecidableEq, Repr

/-- A Go `error` value: a decode error of the codec, or an application error
raised by a handler or by the transport. -/
inductive GoError
  | decode (e : DecodeError)
  | app (code : Nat)
  deriving DecidableEq, Repr

deriving instance DecidableEq for Except

/-- A Go `map[string]string` (non-nil), as the list of its entries. -/
abbrev GoMap := List (Bytes × Bytes)

/-- The Go assignment `m[k] = v`: replaces the value of an existing key, adds
the entry otherwise. -/
def GoMap.set : GoMap → Bytes → Bytes → GoMap
  | [], k, v => [(k, v)]
  | (k0, v0) :: m, k, v => if k0 = k then (k0, v) :: m else (k0, v0) :: GoMap.set m k v

/-- The Go expression `len(m)` on a map that may be nil. -/
def mapLen : Option GoMap → Nat
  | none => 0
  | some m => m.length

/-- Modelled from the spec: the data reader of the field codec (msgpack
library, not in the sources); reads `n` raw bytes, "any short-read ... is a
terminal error". -/
def getBytes (n : Nat) (d : Decoder) : Except DecodeError (Bytes × Decoder) :=
  if n ≤ d.length then .ok (d.take n, d.drop n) else .error .shortRead

/-- Modelled from the spec: the data reader of the field codec (msgpack
library, not in the sources); one byte as an unsigned integer. -/
def getUint8 : Decoder → Except DecodeError (Nat × Decoder)
  | b0 :: d => .ok (b0, d)
  | _ => .error .shortRead

/-- Modelled from the spec: the data reader of the field codec (msgpack
library, not in the sources); two bytes, big-endian. -/
def getUint16 : Decoder → Except DecodeError (Nat × Decoder)
  | b1 :: b0 :: d => .ok (b1 * 256 + b0, d)
  | _ => .error .shortRead

/-- Modelled from the spec: the data reader of the field codec (msgpack
library, not in the sources); four bytes, big-endian. -/
def getUint32 : Decoder → Except DecodeError (Nat × Decoder)
  | b3 :: b2 :: b1 :: b0 :: d => .ok (((b3 * 256 + b2) * 256 + b1) * 256 + b0, d)
  | _ => .error .shortRead

/-- Big-endian bytes of a 16-bit value. -/
def putUint16 (v : Nat) : Bytes := [v / 256 % 256, v % 256]

/-- Big-endian bytes of a 32-bit value. -/
def putUint32 (v : Nat) : Bytes :=
  [v / 16777216 % 256, v / 65536 % 256, v / 256 % 256, v % 256]

/-- Big-endian bytes of a 64-bit value. -/
def putUint64 (v : Nat) : Bytes := putUint32 (v / 4294967296) ++ putUint32 (v % 4294967296)

/-- Modelled from the spec: `Decoder.IsNextNil` of the field codec (msgpack
library, not in the sources): looks at the next byte and consumes it when it
is the nil token `0xc0`. -/
def IsNextNil : Decoder → Except DecodeError (Bool × Decoder)
  | [] => .error .shortRead
  | b :: d => if b = 0xc0 then .ok (true, d) else .ok (false, b :: d)

/-- Modelled from the spec: `Decoder.ReadBool` of the field codec (msgpack
library, not in the sources): `0xc3` is true, `0xc2` is false, any other
byte is a kind mismatch. -/
def ReadBool : Decoder → Except DecodeError (Bool × Decoder)
  | [] => .error .shortRead
  | b :: d =>
    if b = 0xc3 then .ok (true, d)
    else if b = 0xc2 then .ok (false, d)
    else .error .typeMismatch

/-- Modelled from the spec: `Decoder.ReadUint32` of the field codec (msgpack
library, not in the sources): a positive fixint, or `uint8`, `uint16`,
`uint32`; any other byte is a kind mismatch. -/
def ReadUint32 : Decoder → Except DecodeError (Nat × Decoder)
  | [] => .error .shortRead
  | b :: d =>
    if b < 0x80 then .ok (b, d)
    else if b = 0xcc then getUint8 d
    else if b = 0xcd then getUint16 d
    else if b = 0xce then getUint32 d
    else .error .typeMismatch

/-- Modelled from the spec: the string header of the field codec (msgpack
library, not in the sources): `fixstr`, `str8`, `str16` or `str32`. -/
def readStringLength : Decoder → Except DecodeError (Nat × Decoder)
  | [] => .error .shortRead
  | b :: d =>
    if 0xa0 ≤ b ∧ b ≤ 0xbf then .ok (b - 0xa0, d)
    else if b = 0xd9 then getUint8 d
    else if b = 0xda then getUint16 d
    else if b = 0xdb then getUint32 d
    else .error .typeMismatch

/-- Modelled from the spec: `Decoder.ReadString` of the field codec (msgpack
library, not in the sources): a length-prefixed run of bytes. -/
def ReadString (d : Decoder) : Except DecodeError (Bytes × Decoder) :=
  match readStringLength d with
  | .error e => .error e
  | .ok (n, d1) => getBytes n d1

/-- Modelled from the spec: the blob header of the field codec (msgpack
library, not in the sources): `bin8`, `bin16` or `bin32`. -/
def readBinLength : Decoder → Except DecodeError (Nat × Decoder)
  | [] => .error .shortRead
  | b :: d =>
    if b = 0xc4 then getUint8 d
    else if b = 0xc5 then getUint16 d
    else if b = 0xc6 then getUint32 d
    else .error .typeMismatch

/-- Modelled from the spec: `Decoder.ReadByteArray` of the field codec (msgpack
library, not in the sources): "reads a length-prefixed byte run". -/
def ReadByteArray (d : Decoder) : Except DecodeError (Bytes × Decoder) :=
  match readBinLength d with
  | .error e => .error e
  | .ok (n, d1) => getBytes n d1

/-- Modelled from the spec: `Decoder.ReadMapSize` of the field codec (msgpack
library, not in the sources): `fixmap`, `map16` or `map32`; "expecting a map
but finding a string" is a kind mismatch. -/
def ReadMapSize : Decoder → Except DecodeError (Nat × Decoder)
  | [] => .error .shortRead
  | b :: d =>
    if 0x80 ≤ b ∧ b ≤ 0x8f then .ok (b - 0x80, d)
    else if b = 0xde then getUint16 d
    else if b = 0xdf then getUint32 d
    else .error .typeMismatch

/-- The length field that follows a header byte, `width` bytes wide. -/
def getLength (width : Nat) (d : Decoder) : Except DecodeError (Nat × Decoder) :=
  if width = 1 then getUint8 d
  else if width = 2 then getUint16 d
  else getUint32 d

/-- Modelled from the spec: what a header byte announces to `Decoder.Skip`
(msgpack library, not in the sources).  `width` bytes of length field follow
the header byte (none when 0); with `n` the value of that field, the value
has `payload + perByte * n` payload bytes and `nested + perItem * n` values
nested directly inside it. -/
structure HeaderShape where
  width : Nat
  payload : Nat
  perByte : Nat
  nested : Nat
  perItem : Nat
  deriving DecidableEq, Repr

/-- Modelled from the spec: the MessagePack header bytes, as `Decoder.Skip`
(msgpack library, not in the sources) tells them apart; `0xc1` is not a
header byte. -/
def headerShape (b : Nat) : Option HeaderShape :=
  if b < 0x80 then some ⟨0, 0, 0, 0, 0⟩
  else if b ≤ 0x8f then some ⟨0, 0, 0, 2 * (b - 0x80), 0⟩
  else if b ≤ 0x9f then some ⟨0, 0, 0, b - 0x90, 0⟩
  else if b ≤ 0xbf then some ⟨0, b - 0xa0, 0, 0, 0⟩
  else if 0xe0 ≤ b ∧ b ≤ 0xff then some ⟨0, 0, 0, 0, 0⟩
  else if b = 0xc0 ∨ b = 0xc2 ∨ b = 0xc3 then some ⟨0, 0, 0, 0, 0⟩
  else if b = 0xc4 ∨ b = 0xd9 then some ⟨1, 0, 1, 0, 0⟩
  else if b = 0xc5 ∨ b = 0xda then some ⟨2, 0, 1, 0, 0⟩
  else if b = 0xc6 ∨ b = 0xdb then some ⟨4, 0, 1, 0, 0⟩
  else if b = 0xc7 then some ⟨1, 1, 1, 0, 0⟩
  else if b = 0xc8 then some ⟨2, 1, 1, 0, 0⟩
  else if b = 0xc9 then some ⟨4, 1, 1, 0, 0⟩
  else if b = 0xcc ∨ b = 0xd0 then some ⟨0, 1, 0, 0, 0⟩
  else if b = 0xcd ∨ b = 0xd1 ∨ b = 0xd4 then some ⟨0, 2, 0, 0, 0⟩
  else if b = 0xd5 then some ⟨0, 3, 0, 0, 0⟩
  else if b = 0xca ∨ b = 0xce ∨ b = 0xd2 then some ⟨0, 4, 0, 0, 0⟩
  else if b = 0xd6 then some ⟨0, 5, 0, 0, 0⟩
  else if b = 0xcb ∨ b = 0xcf ∨ b = 0xd3 then some ⟨0, 8, 0, 0, 0⟩
  else if b = 0xd7 then some ⟨0, 9, 0, 0, 0⟩
  else if b = 0xd8 then some ⟨0, 17, 0, 0, 0⟩
  else if b = 0xdc then some ⟨2, 0, 0, 0, 1⟩
  else if b = 0xdd then some ⟨4, 0, 0, 0, 1⟩
  else if b = 0xde then some ⟨2, 0, 0, 0, 2⟩
  else if b = 0xdf then some ⟨4, 0, 0, 0, 2⟩
  else none

/-- Modelled from the spec: the header step of `Decoder.Skip` (msgpack
library, not in the sources).  Reads the header of the next value and returns
the number of payload bytes that belong to it, the number of values nested
directly inside it, and the decoder after the header. -/
def skipHeader : Decoder → Except DecodeError (Nat × Nat × Decoder)
  | [] => .error .shortRead
  | b :: d =>
    match headerShape b with
    | none => .error .typeMismatch
    | some sh =>
      if sh.width = 0 then .ok (sh.payload, sh.nested, d)
      else
        match getLength sh.width d with
        | .error e => .error e
        | .ok (n, d1) => .ok (sh.payload + sh.perByte * n, sh.nested + sh.perItem * n, d1)

/-- Modelled from the spec: the loop of `Decoder.Skip` (msgpack library, not
in the sources).  `pending` values remain to be discarded; every step reads
one header, discards its payload and adds the values nested in it.  Each step
consumes at least one byte, so `fuel` steps suffice on a buffer of `fuel`
bytes. -/
def skipLoop : Nat → Nat → Decoder → Except DecodeError Decoder
  | _, 0, d => .ok d
  | 0, _ + 1, _ => .error .shortRead
  | fuel + 1, pending + 1, d =>
    match skipHeader d with
    | .error e => .error e
    | .ok (len, nested, d1) =>
      match getBytes len d1 with
      | .error e => .error e
      | .ok (_, d2) => skipLoop fuel (pending + nested) d2

/-- Modelled from the spec: `Decoder.Skip` of the field codec (msgpack
library, not in the sources): "a generic skip one value operation that must
correctly consume nested structures". -/
def Skip (d : Decoder) : Except DecodeError Decoder :=
  skipLoop d.length 1 d

/-- Header of a string of `n` bytes, as `WriteString` writes it. -/
def stringHeader (n : Nat) : Bytes :=
  if n < 32 then [0xa0 + n]
  else if n < 256 then [0xd9, n]
  else if n < 65536 then 0xda :: putUint16 n
  else 0xdb :: putUint32 n

/-- Header of a blob of `n` bytes, as `WriteByteArray` writes it. -/
def binHeader (n : Nat) : Bytes :=
  if n < 256 then [0xc4, n]
  else if n < 65536 then 0xc5 :: putUint16 n
  else 0xc6 :: putUint32 n

/-- Header of a map of `n` entries, as `WriteMapSize` writes it. -/
def mapHeader (n : Nat) : Bytes :=
  if n < 16 then [0x80 + n]
  else if n < 65536 then 0xde :: putUint16 n
  else 0xdf :: putUint32 n

/-- Header of an array of `n` items. -/
def arrayHeader (n : Nat) : Bytes :=
  if n < 16 then [0x90 + n]
  else if n < 65536 then 0xdc :: putUint16 n
  else 0xdd :: putUint32 n

/-- Bytes of an unsigned integer in its minimal width. -/
def uintBytes (v : Nat) : Bytes :=
  if v < 128 then [v]
  else if v < 256 then [0xcc, v]
  else if v < 65536 then 0xcd :: putUint16 v
  else if v < 4294967296 then 0xce :: putUint32 v
  else 0xcf :: putUint64 v

/-- Modelled from the spec: `Writer.WriteNil` of the field codec (msgpack
library, not in the sources): the "distinguished nil token". -/
def WriteNil (encoder : Encoder) : Encoder := encoder ++ [0xc0]

/-- Modelled from the spec: `Writer.WriteBool` of the field codec (msgpack
library, not in the sources). -/
def WriteBool (value : Bool) (encoder : Encoder) : Encoder :=
  encoder ++ [if value then 0xc3 else 0xc2]

/-- Modelled from the spec: `Writer.WriteUint32` of the field codec (msgpack
library, not in the sources): "canonical minimal-width encoding". -/
def WriteUint32 (value : Nat) (encoder : Encoder) : Encoder :=
  encoder ++ uintBytes (value % 4294967296)

/-- Modelled from the spec: `Writer.WriteString` of the field codec (msgpack
library, not in the sources): a 32-bit length header, then the bytes. -/
def WriteString (value : Bytes) (encoder : Encoder) : Encoder :=
  encoder ++ (stringHeader (value.length % 4294967296) ++ value)

/-- Modelled from the spec: `Writer.WriteByteArray` of the field codec (msgpack
library, not in the sources): "binary blob decode reads a length-prefixed
byte run; encode writes the same".  A nil slice has length zero. -/
def WriteByteArray (value : Option Bytes) (encoder : Encoder) : Encoder :=
  match value with
  | none => encoder ++ binHeader 0
  | some b => encoder ++ (binHeader (b.length % 4294967296) ++ b)

/-- Modelled from the spec: `Writer.WriteMapSize` of the field codec (msgpack
library, not in the sources); the argument is a `uint32`. -/
def WriteMapSize (length : Nat) (encoder : Encoder) : Encoder :=
  encoder ++ mapHeader (length % 4294967296)

/-- Modelled from the spec: `msgpack.NewDecoder` (msgpack library, not in the
sources): a decoder positioned at the first byte of the buffer. -/
def NewDecoder (buffer : Bytes) : Decoder := buffer

/-- Modelled from the spec: `msgpack.ToBytes` (msgpack library, not in the
sources): runs the `Encode` method of a value on an empty writer and returns
the bytes written, with a nil error. -/
def ToBytes (encode : Encoder → Encoder) : Option Bytes × Option GoError :=
  (some (encode []), none)

/-- Bytes of a Go string literal (the literals of the sources are ASCII). -/
def str (s : String) : Bytes := s.toList.map Char.toNat

/-- Outcome of a `Decode` method: the receiver after the call, and the error
or the decoder after the call. -/
abbrev Decoded (α : Type) := α × Except DecodeError Decoder

/-- The loop that fills a `map[string]string` field, at lines 74-85 of
`actorcore.go` and lines 112-123 and 205-216 of `httpclient.go`:
`for mapSize > 0 { mapSize--; key, err := decoder.ReadString(); ...;
value, err := decoder.ReadString(); ...; m[key] = value }`.  The map has been
assigned to the field before the loop, so an error leaves the entries read so
far in it. -/
def readMapEntries : Nat → GoMap → Decoder → Decoded GoMap
  | 0, m, d => (m, .ok d)
  | mapSize + 1, m, d =>
    match ReadString d with
    | .error e => (m, .error e)
    | .ok (key, d1) =>
      match ReadString d1 with
      | .error e => (m, .error e)
      | .ok (value, d2) => readMapEntries mapSize (GoMap.set m key value) d2

/-- The loop `for numFields > 0 { numFields--; field, err :=
decoder.ReadString(); if err != nil { return err }; switch field { ... };
if err != nil { return err } }` of the five `Decode` methods; `switchField`
is the switch statement of the method. -/
def decodeLoop {α : Type} (switchField : α → Bytes → Decoder → Decoded α) :
    Nat → α → Decoder → Decoded α
  | 0, o, d => (o, .ok d)
  | numFields + 1, o, d =>
    match ReadString d with
    | .error e => (o, .error e)
    | .ok (field, d1) =>
      match switchField o field d1 with
      | (o1, .error e) => (o1, .error e)
      | (o1, .ok d2) => decodeLoop switchField numFields o1 d2

/-- The range loop over a map field that may be nil, guarded by
`if m != nil`: writes each key and its value. -/
def writeMapEntries (m : Option GoMap) (encoder : Encoder) : Encoder :=
  match m with
  | none => encoder
  | some entries => entries.foldl (fun e kv => WriteString kv.2 (WriteString kv.1 e)) encoder

/-! ## actorcore.go -/

/-- The struct `CapabilityConfiguration`. -/
structure CapabilityConfiguration where
  Module : Bytes := []
  Values : Option GoMap := none
  deriving DecidableEq, Repr

/-- The switch statement of `CapabilityConfiguration.Decode`. -/
def CapabilityConfiguration.switchField (o : CapabilityConfiguration) (field : Bytes)
    (decoder : Decoder) : Decoded CapabilityConfiguration :=
  if field = str "module" then
    match ReadString decoder with
    | .error e => ({ o with Module := [] }, .error e)
    | .ok (v, d) => ({ o with Module := v }, .ok d)
  else if field = str "values" then
    match ReadMapSize decoder with
    | .error e => (o, .error e)
    | .ok (mapSize, d) =>
      match readMapEntries mapSize [] d with
      | (m, r) => ({ o with Values := some m }, r)
  else
    match Skip decoder with
    | .error e => (o, .error e)
    | .ok d => (o, .ok d)

/-- The method `(o *CapabilityConfiguration) Decode`. -/
def CapabilityConfiguration.Decode (o : CapabilityConfiguration) (decoder : Decoder) :
    Decoded CapabilityConfiguration :=
  match ReadMapSize decoder with
  | .error e => (o, .error e)
  | .ok (numFields, d) => decodeLoop CapabilityConfiguration.switchField numFields o d

/-- The function `DecodeCapabilityConfiguration`. -/
def DecodeCapabilityConfiguration (decoder : Decoder) : Decoded CapabilityConfiguration :=
  CapabilityConfiguration.Decode {} decoder

/-- The function `DecodeCapabilityConfigurationNullable`; the pointer result is
an `Option`. -/
def DecodeCapabilityConfigurationNullable (decoder : Decoder) :
    Decoded (Option CapabilityConfiguration) :=
  match IsNextNil decoder with
  | .error e => (none, .error e)
  | .ok (true, d) => (none, .ok d)
  | .ok (false, d) =>
    match DecodeCapabilityConfiguration d with
    | (decoded, r) => (some decoded, r)

/-- The method `(o *CapabilityConfiguration) Encode`; a nil receiver is `none`.
The Go method always returns a nil error. -/
def CapabilityConfiguration.Encode (o : Option CapabilityConfiguration) (encoder : Encoder) :
    Encoder :=
  match o with
  | none => WriteNil encoder
  | some o =>
    let e1 := WriteMapSize 2 encoder
    let e2 := WriteString (str "module") e1
    let e3 := WriteString o.Module e2
    let e4 := WriteString (str "values") e3
    let e5 := WriteMapSize (mapLen o.Values % 4294967296) e4
    writeMapEntries o.Values e5

/-- The struct `HealthCheckRequest`. -/
structure HealthCheckRequest where
  Placeholder : Bool := false
  deriving DecidableEq, Repr

/-- The switch statement of `HealthCheckRequest.Decode`. -/
def HealthCheckRequest.switchField (o : HealthCheckRequest) (field : Bytes)
    (decoder : Decoder) : Decoded HealthCheckRequest :=
  if field = str "placeholder" then
    match ReadBool decoder with
    | .error e => ({ o with Placeholder := false }, .error e)
    | .ok (v, d) => ({ o with Placeholder := v }, .ok d)
  else
    match Skip decoder with
    | .error e => (o, .error e)
    | .ok d => (o, .ok d)

/-- The method `(o *HealthCheckRequest) Decode`. -/
def HealthCheckRequest.Decode (o : HealthCheckRequest) (decoder : Decoder) :
    Decoded HealthCheckRequest :=
  match ReadMapSize decoder with
  | .error e => (o, .error e)
  | .ok (numFields, d) => decodeLoop HealthCheckRequest.switchField numFields o d

/-- The function `DecodeHealthCheckRequest`. -/
def DecodeHealthCheckRequest (decoder : Decoder) : Decoded HealthCheckRequest :=
  HealthCheckRequest.Decode {} decoder

/-- The function `DecodeHealthCheckRequestNullable`. -/
def DecodeHealthCheckRequestNullable (decoder : Decoder) :
    Decoded (Option HealthCheckRequest) :=
  match IsNextNil decoder with
  | .error e => (none, .error e)
  | .ok (true, d) => (none, .ok d)
  | .ok (false, d) =>
    match DecodeHealthCheckRequest d with
    | (decoded, r) => (some decoded, r)

/-- The method `(o *HealthCheckRequest) Encode`. -/
def HealthCheckRequest.Encode (o : Option HealthCheckRequest) (encoder : Encoder) : Encoder :=
  match o with
  | none => WriteNil encoder
  | some o =>
    let e1 := WriteMapSize 1 encoder
    let e2 := WriteString (str "placeholder") e1
    WriteBool o.Placeholder e2

/-- The struct `HealthCheckResponse`. -/
structure HealthCheckResponse where
  Healthy : Bool := false
  Message : Bytes := []
  deriving DecidableEq, Repr

/-- The switch statement of `HealthCheckResponse.Decode`. -/
def HealthCheckResponse.switchField (o : HealthCheckResponse) (field : Bytes)
    (decoder : Decoder) : Decoded HealthCheckResponse :=
  if field = str "healthy" then
    match ReadBool decoder with
    | .error e => ({ o with Healthy := false }, .error e)
    | .ok (v, d) => ({ o with Healthy := v }, .ok d)
  else if field = str "message" then
    match ReadString decoder with
    | .error e => ({ o with Message := [] }, .error e)
    | .ok (v, d) => ({ o with Message := v }, .ok d)
  else
    match Skip decoder with
    | .error e => (o, .error e)
    | .ok d => (o, .ok d)

/-- The method `(o *HealthCheckResponse) Decode`. -/
def HealthCheckResponse.Decode (o : HealthCheckResponse) (decoder : Decoder) :
    Decoded HealthCheckResponse :=
  match ReadMapSize decoder with
  | .error e => (o, .error e)
  | .ok (numFields, d) => decodeLoop HealthCheckResponse.switchField numFields o d

/-- The function `DecodeHealthCheckResponse`. -/
def DecodeHealthCheckResponse (decoder : Decoder) : Decoded HealthCheckResponse :=
  HealthCheckResponse.Decode {} decoder

/-- The function `DecodeHealthCheckResponseNullable`. -/
def DecodeHealthCheckResponseNullable (decoder : Decoder) :
    Decoded (Option HealthCheckResponse) :=
  match IsNextNil decoder with
  | .error e => (none, .error e)
  | .ok (true, d) => (none, .ok d)
  | .ok (false, d) =>
    match DecodeHealthCheckResponse d with
    | (decoded, r) => (some decoded, r)

/-- The method `(o *HealthCheckResponse) Encode`. -/
def HealthCheckResponse.Encode (o : Option HealthCheckResponse) (encoder : Encoder) : Encoder :=
  match o with
  | none => WriteNil encoder
  | some o =>
    let e1 := WriteMapSize 2 encoder
    let e2 := WriteString (str "healthy") e1
    let e3 := WriteBool o.Healthy e2
    let e4 := WriteString (str "message") e3
    WriteString o.Message e4

/-- What a wrapper hands back to the host: the response bytes (or nil), the
error (or nil), and the arguments of the handler invocations it made. -/
structure WrapperResult (α : Type) where
  bytes : Option Bytes
  err : Option GoError
  calls : List α
  deriving DecidableEq, Repr

/-- The function `HealthRequestWrapper`; `HealthRequestHandler` is the value of
the package variable of that name.  The result of `request.Decode` is not
looked at. -/
def HealthRequestWrapper
    (HealthRequestHandler : HealthCheckRequest → HealthCheckResponse × Option GoError)
    (payload : Bytes) : WrapperResult HealthCheckRequest :=
  let decoder := NewDecoder payload
  let request := (HealthCheckRequest.Decode {} decoder).1
  match HealthRequestHandler request with
  | (_, some err) => { bytes := none, err := some err, calls := [request] }
  | (response, none) =>
    let out := ToBytes (HealthCheckResponse.Encode (some response))
    { bytes := out.1, err := out.2, calls := [request] }

/-! ## httpclient.go -/

/-- The struct `RequestArgs`. -/
structure RequestArgs where
  Method : Bytes := []
  Url : Bytes := []
  Headers : Option GoMap := none
  Body : Option Bytes := none
  deriving DecidableEq, Repr

/-- The switch statement of `RequestArgs.Decode`. -/
def RequestArgs.switchField (o : RequestArgs) (field : Bytes) (decoder : Decoder) :
    Decoded RequestArgs :=
  if field = str "method" then
    match ReadString decoder with
    | .error e => ({ o with Method := [] }, .error e)
    | .ok (v, d) => ({ o with Method := v }, .ok d)
  else if field = str "url" then
    match ReadString decoder with
    | .error e => ({ o with Url := [] }, .error e)
    | .ok (v, d) => ({ o with Url := v }, .ok d)
  else if field = str "headers" then
    match ReadMapSize decoder with
    | .error e => (o, .error e)
    | .ok (mapSize, d) =>
      match readMapEntries mapSize [] d with
      | (m, r) => ({ o with Headers := some m }, r)
  else if field = str "body" then
    match ReadByteArray decoder with
    | .error e => ({ o with Body := none }, .error e)
    | .ok (v, d) => ({ o with Body := some v }, .ok d)
  else
    match Skip decoder with
    | .error e => (o, .error e)
    | .ok d => (o, .ok d)

/-- The method `(o *RequestArgs) Decode`. -/
def RequestArgs.Decode (o : RequestArgs) (decoder : Decoder) : Decoded RequestArgs :=
  match ReadMapSize decoder with
  | .error e => (o, .error e)
  | .ok (numFields, d) => decodeLoop RequestArgs.switchField numFields o d

/-- The function `DecodeRequestArgs`. -/
def DecodeRequestArgs (decoder : Decoder) : Decoded RequestArgs :=
  RequestArgs.Decode {} decoder

/-- The function `DecodeRequestArgsNullable`. -/
def DecodeRequestArgsNullable (decoder : Decoder) : Decoded (Option RequestArgs) :=
  match IsNextNil decoder with
  | .error e => (none, .error e)
  | .ok (true, d) => (none, .ok d)
  | .ok (false, d) =>
    match DecodeRequestArgs d with
    | (decoded, r) => (some decoded, r)

/-- The method `(o *RequestArgs) Encode`. -/
def RequestArgs.Encode (o : Option RequestArgs) (encoder : Encoder) : Encoder :=
  match o with
  | none => WriteNil encoder
  | some o =>
    let e1 := WriteMapSize 4 encoder
    let e2 := WriteString (str "method") e1
    let e3 := WriteString o.Method e2
    let e4 := WriteString (str "url") e3
    let e5 := WriteString o.Url e4
    let e6 := WriteString (str "headers") e5
    let e7 := WriteMapSize (mapLen o.Headers % 4294967296) e6
    let e8 := writeMapEntries o.Headers e7
    let e9 := WriteString (str "body") e8
    WriteByteArray o.Body e9

/-- The struct `Response`. -/
structure Response where
  StatusCode : Nat := 0
  Status : Bytes := []
  Header : Option GoMap := none
  Body : Option Bytes := none
  deriving DecidableEq, Repr

/-- The switch statement of `Response.Decode`. -/
def Response.switchField (o : Response) (field : Bytes) (decoder : Decoder) :
    Decoded Response :=
  if field = str "statusCode" then
    match ReadUint32 decoder with
    | .error e => ({ o with StatusCode := 0 }, .error e)
    | .ok (v, d) => ({ o with StatusCode := v }, .ok d)
  else if field = str "status" then
    match ReadString decoder with
    | .error e => ({ o with Status := [] }, .error e)
    | .ok (v, d) => ({ o with Status := v }, .ok d)
  else if field = str "header" then
    match ReadMapSize decoder with
    | .error e => (o, .error e)
    | .ok (mapSize, d) =>
      match readMapEntries mapSize [] d with
      | (m, r) => ({ o with Header := some m }, r)
  else if field = str "body" then
    match ReadByteArray decoder with
    | .error e => ({ o with Body := none }, .error e)
    | .ok (v, d) => ({ o with Body := some v }, .ok d)
  else
    match Skip decoder with
    | .error e => (o, .error e)
    | .ok d => (o, .ok d)

/-- The method `(o *Response) Decode`. -/
def Response.Decode (o : Response) (decoder : Decoder) : Decoded Response :=
  match ReadMapSize decoder with
  | .error e => (o, .error e)
  | .ok (numFields, d) => decodeLoop Response.switchField numFields o d

/-- The function `DecodeResponse`. -/
def DecodeResponse (decoder : Decoder) : Decoded Response :=
  Response.Decode {} decoder

/-- The function `DecodeResponseNullable`. -/
def DecodeResponseNullable (decoder : Decoder) : Decoded (Option Response) :=
  match IsNextNil decoder with
  | .error e => (none, .error e)
  | .ok (true, d) => (none, .ok d)
  | .ok (false, d) =>
    match DecodeResponse d with
    | (decoded, r) => (some decoded, r)

/-- The method `(o *Response) Encode`. -/
def Response.Encode (o : Option Response) (encoder : Encoder) : Encoder :=
  match o with
  | none => WriteNil encoder
  | some o =>
    let e1 := WriteMapSize 4 encoder
    let e2 := WriteString (str "statusCode") e1
    let e3 := WriteUint32 o.StatusCode e2
    let e4 := WriteString (str "status") e3
    let e5 := WriteString o.Status e4
    let e6 := WriteString (str "header") e5
    let e7 := WriteMapSize (mapLen o.Header % 4294967296) e6
    let e8 := writeMapEntries o.Header e7
    let e9 := WriteString (str "body") e8
    WriteByteArray o.Body e9

/-- The arguments of one call of the `Request` handler. -/
structure RequestCall where
  method : Bytes
  url : Bytes
  headers : Option GoMap
  body : Option Bytes
  deriving DecidableEq, Repr

/-- The function `RequestWrapper`; `RequestHandler` is the value of the package
variable of that name.  The result of `inputArgs.Decode` is not looked at. -/
def RequestWrapper (RequestHandler : RequestCall → Response × Option GoError)
    (payload : Bytes) : WrapperResult RequestCall :=
  let decoder := NewDecoder payload
  let inputArgs := (RequestArgs.Decode {} decoder).1
  let call : RequestCall :=
    { method := inputArgs.Method, url := inputArgs.Url, headers := inputArgs.Headers,
      body := inputArgs.Body }
  match RequestHandler call with
  | (_, some err) => { bytes := none, err := some err, calls := [call] }
  | (response, none) =>
    let out := ToBytes (Response.Encode (some response))
    { bytes := out.1, err := out.2, calls := [call] }

/-! ## MessagePack values

The wire format the codec reads and writes, as a tree of values with its
canonical encoding.  It is used to describe the inputs of `Decode`. -/

/-- A MessagePack value.  `nint n` is the negative integer `-(n+1)`; the two
float kinds carry their IEEE bit pattern. -/
inductive MsgVal
  | nil
  | bool (b : Bool)
  | uint (n : Nat)
  | nint (n : Nat)
  | float32 (bits : Nat)
  | float64 (bits : Nat)
  | str (s : Bytes)
  | bin (b : Bytes)
  | ext (type : Nat) (data : Bytes)
  | arr (items : List MsgVal)
  | map (entries : List (MsgVal × MsgVal))

/-- Bytes of the negative integer `-(n+1)` in its minimal width. -/
def nintBytes (n : Nat) : Bytes :=
  if n < 32 then [0xff - n]
  else if n < 128 then [0xd0, 0xff - n]
  else if n < 32768 then 0xd1 :: putUint16 (0xffff - n)
  else if n < 2147483648 then 0xd2 :: putUint32 (0xffffffff - n)
  else 0xd3 :: putUint64 (0xffffffffffffffff - n)

/-- Header of an extension value with `n` bytes of data. -/
def extHeader (n : Nat) : Bytes :=
  if n = 1 then [0xd4]
  else if n = 2 then [0xd5]
  else if n = 4 then [0xd6]
  else if n = 8 then [0xd7]
  else if n = 16 then [0xd8]
  else if n < 256 then [0xc7, n]
  else if n < 65536 then 0xc8 :: putUint16 n
  else 0xc9 :: putUint32 n

mutual
/-- Canonical MessagePack encoding of a value. -/
def MsgVal.encode : MsgVal → Bytes
  | .nil => [0xc0]
  | .bool b => [if b then 0xc3 else 0xc2]
  | .uint n => uintBytes n
  | .nint n => nintBytes n
  | .float32 bits => 0xca :: putUint32 bits
  | .float64 bits => 0xcb :: putUint64 bits
  | .str s => stringHeader s.length ++ s
  | .bin b => binHeader b.length ++ b
  | .ext type data => extHeader data.length ++ (type :: data)
  | .arr items => arrayHeader items.length ++ MsgVal.encodeList items
  | .map entries => mapHeader entries.length ++ MsgVal.encodePairs entries
/-- Encodings of a sequence of values, one after the other. -/
def MsgVal.encodeList : List MsgVal → Bytes
  | [] => []
  | v :: vs => MsgVal.encode v ++ MsgVal.encodeList vs
/-- Encodings of a sequence of (key, value) entries, one after the other. -/
def MsgVal.encodePairs : List (MsgVal × MsgVal) → Bytes
  | [] => []
  | (k, v) :: es => MsgVal.encode k ++ (MsgVal.encode v ++ MsgVal.encodePairs es)
end

mutual
/-- Well-formed value: every number fits its widest format and every length
fits 32 bits, at every depth. -/
def MsgVal.wf : MsgVal → Bool
  | .nil => true
  | .bool _ => true
  | .uint n => decide (n < 18446744073709551616)
  | .nint n => decide (n < 9223372036854775808)
  | .float32 bits => decide (bits < 4294967296)
  | .float64 bits => decide (bits < 18446744073709551616)
  | .str s => decide (s.length < 4294967296)
  | .bin b => decide (b.length < 4294967296)
  | .ext type data => decide (type < 256) && decide (data.length < 4294967296)
  | .arr items => decide (items.length < 4294967296) && MsgVal.wfList items
  | .map entries => decide (entries.length < 4294967296) && MsgVal.wfPairs entries
/-- Every value of the sequence is well formed. -/
def MsgVal.wfList : List MsgVal → Bool
  | [] => true
  | v :: vs => MsgVal.wf v && MsgVal.wfList vs
/-- Every key and value of the entries is well formed. -/
def MsgVal.wfPairs : List (MsgVal × MsgVal) → Bool
  | [] => true
  | (k, v) :: es => MsgVal.wf k && (MsgVal.wf v && MsgVal.wfPairs es)
end

/-- The keys and values of a map, in wire order. -/
def MsgVal.flatten : List (MsgVal × MsgVal) → List MsgVal
  | [] => []
  | (k, v) :: es => k :: v :: MsgVal.flatten es

/-- A wire map with string keys: the entries of a record encoding. -/
abbrev WireEntries := List (Bytes × MsgVal)

/-- Bytes of the entries, one after the other, without the map header. -/
def WireEntries.body : WireEntries → Bytes
  | [] => []
  | (k, v) :: es => (stringHeader k.length ++ k) ++ (MsgVal.encode v ++ WireEntries.body es)

/-- Bytes of a wire map: header, then the entries. -/
def WireEntries.encode (es : WireEntries) : Bytes :=
  mapHeader es.length ++ WireEntries.body es

/-- Every key fits a 32-bit length and every value is well formed. -/
def WireEntries.wf : WireEntries → Bool
  | [] => true
  | (k, v) :: es => decide (k.length < 4294967296) && (MsgVal.wf v && WireEntries.wf es)

/-- A `map[string]string` as a MessagePack map. -/
def GoMap.toMsg (m : GoMap) : MsgVal :=
  .map (m.map (fun kv => (MsgVal.str kv.1, MsgVal.str kv.2)))

/-- A Go map value as the codec can carry it: distinct keys, and every length
(number of entries, each key, each value) fits 32 bits. -/
def GoMap.wf (m : GoMap) : Prop :=
  m.length < 4294967296 ∧
    (∀ kv ∈ m, kv.1.length < 4294967296 ∧ kv.2.length < 4294967296) ∧
    (m.map Prod.fst).Nodup

/-- The entries of a map field that may be nil. -/
def entriesOf (m : Option GoMap) : GoMap := m.getD []

/-- The bytes of a blob field that may be nil. -/
def bytesOf (b : Option Bytes) : Bytes := b.getD []

/-- The effect of a sequence of wire entries on a record, entry by entry;
`put` is the effect of one entry, `none` when its value does not have the
kind declared for its key. -/
def foldPut {α : Type} (put : α → Bytes → MsgVal → Option α) : α → WireEntries → Option α
  | o, [] => some o
  | o, (k, v) :: es =>
    match put o k v with
    | some o1 => foldPut put o1 es
    | none => none

/-- The wire kinds of MessagePack. -/
inductive Kind
  | nil | bool | uint | nint | float | str | bin | ext | arr | map
  deriving DecidableEq, Repr

/-- The wire kind of a value. -/
def MsgVal.kind : MsgVal → Kind
  | .nil => .nil
  | .bool _ => .bool
  | .uint _ => .uint
  | .nint _ => .nint
  | .float32 _ => .float
  | .float64 _ => .float
  | .str _ => .str
  | .bin _ => .bin
  | .ext _ _ => .ext
  | .arr _ => .arr
  | .map _ => .map

/-- The wire kind a header byte announces (`0xc1` and anything that is not a
byte announce none). -/
def byteKind (b : Nat) : Option Kind :=
  if b < 0x80 then some .uint
  else if b ≤ 0x8f then some .map
  else if b ≤ 0x9f then some .arr
  else if b ≤ 0xbf then some .str
  else if b = 0xc0 then some .nil
  else if b = 0xc1 then none
  else if b ≤ 0xc3 then some .bool
  else if b ≤ 0xc6 then some .bin
  else if b ≤ 0xc9 then some .ext
  else if b ≤ 0xcb then some .float
  else if b ≤ 0xcf then some .uint
  else if b ≤ 0xd3 then some .nint
  else if b ≤ 0xd8 then some .ext
  else if b ≤ 0xdb then some .str
  else if b ≤ 0xdd then some .arr
  else if b ≤ 0xdf then some .map
  else if b ≤ 0xff then some .nint
  else none

/-- The string a value carries, when it is a string. -/
def MsgVal.asStr : MsgVal → Option Bytes
  | .str s => some s
  | _ => none

/-- The boolean a value carries, when it is a boolean. -/
def MsgVal.asBool : MsgVal → Option Bool
  | .bool b => some b
  | _ => none

/-- The number a value carries, when it is an unsigned integer of 32 bits. -/
def MsgVal.asUint32 : MsgVal → Option Nat
  | .uint n => if n < 4294967296 then some n else none
  | _ => none

/-- The blob a value carries, when it is a blob. -/
def MsgVal.asBin : MsgVal → Option Bytes
  | .bin b => some b
  | _ => none

/-- The (key, value) strings of map entries, when all of them are strings. -/
def MsgVal.strPairs : List (MsgVal × MsgVal) → Option (List (Bytes × Bytes))
  | [] => some []
  | (k, v) :: es =>
    match MsgVal.asStr k, MsgVal.asStr v, MsgVal.strPairs es with
    | some ks, some vs, some m => some ((ks, vs) :: m)
    | _, _, _ => none

/-- The Go map built from wire entries, inserted in wire order into `m`. -/
def GoMap.insertAll (m : GoMap) (entries : List (Bytes × Bytes)) : GoMap :=
  entries.foldl (fun acc kv => GoMap.set acc kv.1 kv.2) m

/-- The Go map a value carries, when it is a map from strings to strings. -/
def MsgVal.asStrMap : MsgVal → Option GoMap
  | .map entries => (MsgVal.strPairs entries).map (GoMap.insertAll [])
  | _ => none

/-- The outcome `res` of a decode agrees with the effect of the wire entries:
the expected record and the decoder at `d`; or, when the entries have no
effect because of a value of the wrong kind, a kind mismatch. -/
def Agrees {α : Type} (expected : Option α) (res : Decoded α) (d : Decoder) : Prop :=
  match expected with
  | some o1 => res = (o1, .ok d)
  | none => res.2 = .error .typeMismatch

/-- The effect of one wire entry on a `CapabilityConfiguration`, by the schema
(module: string, values: map of strings); an undeclared key has no effect. -/
def CapabilityConfiguration.put (o : CapabilityConfiguration) (key : Bytes) (v : MsgVal) :
    Option CapabilityConfiguration :=
  if key = str "module" then (MsgVal.asStr v).map (fun s => { o with Module := s })
  else if key = str "values" then (MsgVal.asStrMap v).map (fun m => { o with Values := some m })
  else some o

/-- The wire entries of a `CapabilityConfiguration`, in schema order. -/
def CapabilityConfiguration.entries (r : CapabilityConfiguration) : WireEntries :=
  [(str "module", .str r.Module), (str "values", GoMap.toMsg (entriesOf r.Values))]

/-- A record the codec can carry: every length fits 32 bits and the map has
distinct keys. -/
def CapabilityConfiguration.wf (r : CapabilityConfiguration) : Prop :=
  r.Module.length < 4294967296 ∧ GoMap.wf (entriesOf r.Values)

/-- The record with a nil map counted as the empty map. -/
def CapabilityConfiguration.norm (r : CapabilityConfiguration) : CapabilityConfiguration :=
  { r with Values := some (entriesOf r.Values) }

/-- The effect of one wire entry on a `HealthCheckRequest`, by the schema
(placeholder: boolean). -/
def HealthCheckRequest.put (o : HealthCheckRequest) (key : Bytes) (v : MsgVal) :
    Option HealthCheckRequest :=
  if key = str "placeholder" then (MsgVal.asBool v).map (fun b => { o with Placeholder := b })
  else some o

/-- The wire entries of a `HealthCheckRequest`, in schema order. -/
def HealthCheckRequest.entries (r : HealthCheckRequest) : WireEntries :=
  [(str "placeholder", .bool r.Placeholder)]

/-- The effect of one wire entry on a `HealthCheckResponse`, by the schema
(healthy: boolean, message: string). -/
def HealthCheckResponse.put (o : HealthCheckResponse) (key : Bytes) (v : MsgVal) :
    Option HealthCheckResponse :=
  if key = str "healthy" then (MsgVal.asBool v).map (fun b => { o with Healthy := b })
  else if key = str "message" then (MsgVal.asStr v).map (fun s => { o with Message := s })
  else some o

/-- The wire entries of a `HealthCheckResponse`, in schema order. -/
def HealthCheckResponse.entries (r : HealthCheckResponse) : WireEntries :=
  [(str "healthy", .bool r.Healthy), (str "message", .str r.Message)]

/-- A record the codec can carry: the length of the string fits 32 bits. -/
def HealthCheckResponse.wf (r : HealthCheckResponse) : Prop :=
  r.Message.length < 4294967296

/-- The effect of one wire entry on a `RequestArgs`, by the schema (method:
string, url: string, headers: map of strings, body: blob). -/
def RequestArgs.put (o : RequestArgs) (key : Bytes) (v : MsgVal) : Option RequestArgs :=
  if key = str "method" then (MsgVal.asStr v).map (fun s => { o with Method := s })
  else if key = str "url" then (MsgVal.asStr v).map (fun s => { o with Url := s })
  else if key = str "headers" then (MsgVal.asStrMap v).map (fun m => { o with Headers := some m })
  else if key = str "body" then (MsgVal.asBin v).map (fun b => { o with Body := some b })
  else some o

/-- The wire entries of a `RequestArgs`, in schema order. -/
def RequestArgs.entries (r : RequestArgs) : WireEntries :=
  [(str "method", .str r.Method), (str "url", .str r.Url),
   (str "headers", GoMap.toMsg (entriesOf r.Headers)), (str "body", .bin (bytesOf r.Body))]

/-- A record the codec can carry: every length fits 32 bits and the map has
distinct keys. -/
def RequestArgs.wf (r : RequestArgs) : Prop :=
  r.Method.length < 4294967296 ∧ r.Url.length < 4294967296 ∧ GoMap.wf (entriesOf r.Headers) ∧
    (bytesOf r.Body).length < 4294967296

/-- The record with a nil map counted as the empty map and a nil blob as the
empty blob. -/
def RequestArgs.norm (r : RequestArgs) : RequestArgs :=
  { r with Headers := some (entriesOf r.Headers), Body := some (bytesOf r.Body) }

/-- The effect of one wire entry on a `Response`, by the schema (statusCode:
uint32, status: string, header: map of strings, body: blob). -/
def Response.put (o : Response) (key : Bytes) (v : MsgVal) : Option Response :=
  if key = str "statusCode" then (MsgVal.asUint32 v).map (fun n => { o with StatusCode := n })
  else if key = str "status" then (MsgVal.asStr v).map (fun s => { o with Status := s })
  else if key = str "header" then (MsgVal.asStrMap v).map (fun m => { o with Header := some m })
  else if key = str "body" then (MsgVal.asBin v).map (fun b => { o with Body := some b })
  else some o

/-- The wire entries of a `Response`, in schema order. -/
def Response.entries (r : Response) : WireEntries :=
  [(str "statusCode", .uint r.StatusCode), (str "status", .str r.Status),
   (str "header", GoMap.toMsg (entriesOf r.Header)), (str "body", .bin (bytesOf r.Body))]

/-- A record the codec can carry: the status code is a `uint32`, every length
fits 32 bits and the map has distinct keys. -/
def Response.wf (r : Response) : Prop :=
  r.StatusCode < 4294967296 ∧ r.Status.length < 4294967296 ∧ GoMap.wf (entriesOf r.Header) ∧
    (bytesOf r.Body).length < 4294967296

/-- The record with a nil map counted as the empty map and a nil blob as the
empty blob. -/
def Response.norm (r : Response) : Response :=
  { r with Header := some (entriesOf r.Header), Body := some (bytesOf r.Body) }

instance GoMap.decidableWf (m : GoMap) : Decidable (GoMap.wf m) :=
  inferInstanceAs (Decidable (m.length < 4294967296 ∧
    (∀ kv ∈ m, kv.1.length < 4294967296 ∧ kv.2.length < 4294967296) ∧
    (m.map Prod.fst).Nodup))

instance CapabilityConfiguration.decidableWf (r : CapabilityConfiguration) :
    Decidable (CapabilityConfiguration.wf r) :=
  inferInstanceAs (Decidable (r.Module.length < 4294967296 ∧ GoMap.wf (entriesOf r.Values)))

instance HealthCheckResponse.decidableWf (r : HealthCheckResponse) :
    Decidable (HealthCheckResponse.wf r) :=
  inferInstanceAs (Decidable (r.Message.length < 4294967296))

instance RequestArgs.decidableWf (r : RequestArgs) : Decidable (RequestArgs.wf r) :=
  inferInstanceAs (Decidable (r.Method.length < 4294967296 ∧ r.Url.length < 4294967296 ∧
    GoMap.wf (entriesOf r.Headers) ∧ (bytesOf r.Body).length < 4294967296))

instance Response.decidableWf (r : Response) : Decidable (Response.wf r) :=
  inferInstanceAs (Decidable (r.StatusCode < 4294967296 ∧ r.Status.length < 4294967296 ∧
    GoMap.wf (entriesOf r.Header) ∧ (bytesOf r.Body).length < 4294967296))

/-- The field names that `CapabilityConfiguration.Decode` recognises. -/
def CapabilityConfiguration.names : List Bytes := [str "module", str "values"]

/-- The field names that `HealthCheckRequest.Decode` recognises. -/
def HealthCheckRequest.names : List Bytes := [str "placeholder"]

/-- The field names that `HealthCheckResponse.Decode` recognises. -/
def HealthCheckResponse.names : List Bytes := [str "healthy", str "message"]

/-- The field names that `RequestArgs.Decode` recognises. -/
def RequestArgs.names : List Bytes := [str "method", str "url", str "headers", str "body"]

/-- The field names that `Response.Decode` recognises. -/
def Response.names : List Bytes := [str "statusCode", str "status", str "header", str "body"]

/-- The entries whose key is one of `names`, in wire order: the encoding
without its extra entries. -/
def WireEntries.known (names : List Bytes) (es : WireEntries) : WireEntries :=
  es.filter (fun e => decide (e.1 ∈ names))

/-- The value is not a map from strings to strings: it is not a map, or it
is a map one of whose keys or values is not a string. -/
def MsgVal.notStrMap (v : MsgVal) : Prop :=
  MsgVal.kind v ≠ Kind.map ∨
    ∃ entries, v = MsgVal.map entries ∧
      ∃ kv ∈ entries, MsgVal.kind kv.1 ≠ Kind.str ∨ MsgVal.kind kv.2 ≠ Kind.str

/-- A wire entry of a `CapabilityConfiguration` map with a declared key and a
value that is not of the declared kind. -/
def CapabilityConfiguration.mismatch (e : Bytes × MsgVal) : Prop :=
  (e.1 = str "module" ∧ MsgVal.kind e.2 ≠ Kind.str) ∨
    (e.1 = str "values" ∧ MsgVal.notStrMap e.2)

/-- A wire entry of a `HealthCheckRequest` map with a declared key and a value
that is not of the declared kind. -/
def HealthCheckRequest.mismatch (e : Bytes × MsgVal) : Prop :=
  e.1 = str "placeholder" ∧ MsgVal.kind e.2 ≠ Kind.bool

/-- A wire entry of a `HealthCheckResponse` map with a declared key and a value
that is not of the declared kind. -/
def HealthCheckResponse.mismatch (e : Bytes × MsgVal) : Prop :=
  (e.1 = str "healthy" ∧ MsgVal.kind e.2 ≠ Kind.bool) ∨
    (e.1 = str "message" ∧ MsgVal.kind e.2 ≠ Kind.str)

/-- A wire entry of a `RequestArgs` map with a declared key and a value that is
not of the declared kind. -/
def RequestArgs.mismatch (e : Bytes × MsgVal) : Prop :=
  (e.1 = str "method" ∧ MsgVal.kind e.2 ≠ Kind.str) ∨
    (e.1 = str "url" ∧ MsgVal.kind e.2 ≠ Kind.str) ∨
    (e.1 = str "headers" ∧ MsgVal.notStrMap e.2) ∨
    (e.1 = str "body" ∧ MsgVal.kind e.2 ≠ Kind.bin)

/-- A wire entry of a `Response` map with a declared key and a value that is
not of the declared kind. -/
def Response.mismatch (e : Bytes × MsgVal) : Prop :=
  (e.1 = str "statusCode" ∧ MsgVal.kind e.2 ≠ Kind.uint) ∨
    (e.1 = str "status" ∧ MsgVal.kind e.2 ≠ Kind.str) ∨
    (e.1 = str "header" ∧ MsgVal.notStrMap e.2) ∨
    (e.1 = str "body" ∧ MsgVal.kind e.2 ≠ Kind.bin)

/-! ## Invoker and registration -/

/-- The error result of a `Decode` function as a Go `error`: nil after a
successful decode. -/
def errorOf : Except DecodeError Decoder → Option GoError
  | .ok _ => none
  | .error e => some (.decode e)

/-- The struct `Host` of `httpclient.go`. -/
structure Host where
  binding : Bytes
  deriving DecidableEq, Repr

/-- The function `NewHost`. -/
def NewHost (binding : Bytes) : Host :=
  { binding := binding }

/-- The arguments of one call of `wapc.HostCall`: the three parts of the
address and the payload. -/
structure HostCallArgs where
  binding : Bytes
  nspace : Bytes
  operation : Bytes
  payload : Bytes
  deriving DecidableEq, Repr

/-- What `Host.Request` hands back: the response, the error (or nil), and the
boundary calls it made, in order. -/
structure RequestResult where
  response : Response
  err : Option GoError
  hostCalls : List HostCallArgs
  deriving DecidableEq, Repr

/-- The method `(h *Host) Request`.  `HostCall` is the boundary call
`wapc.HostCall` of the transport, which returns a payload and an error. -/
def Host.Request (h : Host) (HostCall : HostCallArgs → Bytes × Option GoError)
    (method url : Bytes) (headers : Option GoMap) (body : Option Bytes) : RequestResult :=
  let inputArgs : RequestArgs :=
    { Method := method, Url := url, Headers := headers, Body := body }
  match ToBytes (RequestArgs.Encode (some inputArgs)) with
  | (_, some err) => { response := {}, err := some err, hostCalls := [] }
  | (inputBytes, none) =>
    let call : HostCallArgs :=
      { binding := h.binding, nspace := str "wasmcloud:httpclient", operation := str "Request",
        payload := bytesOf inputBytes }
    match HostCall call with
    | (_, some err) => { response := {}, err := some err, hostCalls := [call] }
    | (payload, none) =>
      let decoder := NewDecoder payload
      match DecodeResponse decoder with
      | (o, r) => { response := o, err := errorOf r, hostCalls := [call] }

/-- The wrapper functions of the two packages, as the values that
`wapc.RegisterFunction` receives. -/
inductive WrapperFn
  | HealthRequestWrapper
  | RequestWrapper
  deriving DecidableEq, Repr

/-- Modelled from the spec: the registration table of the wapc guest library
(not in the sources), "a process-wide table" from operation name to wrapper. -/
abbrev FunctionTable := List (Bytes × WrapperFn)

/-- Modelled from the spec: `wapc.RegisterFunction` (wapc guest library, not in
the sources): "stores a handler under a name in a process-wide table;
re-registration overwrites the prior entry". -/
def RegisterFunction (name : Bytes) (fn : WrapperFn) : FunctionTable → FunctionTable
  | [] => [(name, fn)]
  | (n0, f0) :: table =>
    if n0 = name then (n0, fn) :: table else (n0, f0) :: RegisterFunction name fn table

/-- Modelled from the spec: the lookup of an operation name in the
registration table of the wapc guest library (not in the sources). -/
def lookupFunction (name : Bytes) : FunctionTable → Option WrapperFn
  | [] => none
  | (n0, f0) :: table => if n0 = name then some f0 else lookupFunction name table

/-- The process-wide state of a guest: the package variable
`HealthRequestHandler` of `actorcore.go`, the package variable `RequestHandler`
of `httpclient.go` (nil is `none`), and the registration table. -/
structure Guest where
  HealthRequestHandler : Option (HealthCheckRequest → HealthCheckResponse × Option GoError)
  RequestHandler : Option (RequestCall → Response × Option GoError)
  functions : FunctionTable

/-- The state of a guest before any registration: both package variables are
nil and the table is empty. -/
def Guest.initial : Guest :=
  { HealthRequestHandler := none, RequestHandler := none, functions := [] }

/-- The struct `Handlers` of `actorcore.go`. -/
structure actorcore.Handlers where
  HealthRequest : Option (HealthCheckRequest → HealthCheckResponse × Option GoError)

/-- The method `(h Handlers) Register` of `actorcore.go`. -/
def actorcore.Handlers.Register (h : actorcore.Handlers) (g : Guest) : Guest :=
  match h.HealthRequest with
  | some handler =>
    { g with
      HealthRequestHandler := some handler
      functions := RegisterFunction (str "HealthRequest") .HealthRequestWrapper g.functions }
  | none => g

/-- The struct `Handlers` of `httpclient.go`. -/
structure httpclient.Handlers where
  Request : Option (RequestCall → Response × Option GoError)

/-- The method `(h Handlers) Register` of `httpclient.go`. -/
def httpclient.Handlers.Register (h : httpclient.Handlers) (g : Guest) : Guest :=
  match h.Request with
  | some handler =>
    { g with
      RequestHandler := some handler
      functions := RegisterFunction (str "Request") .RequestWrapper g.functions }
  | none => g

/-- One call of a `Register` method, of either package. -/
inductive RegisterCall
  | actorcore (h : actorcore.Handlers)
  | httpclient (h : httpclient.Handlers)

/-- The state after one call of a `Register` method. -/
def RegisterCall.run (c : RegisterCall) (g : Guest) : Guest :=
  match c with
  | .actorcore h => h.Register g
  | .httpclient h => h.Register g

/-- The state reached from the initial one by a sequence of `Register`
calls. -/
def Guest.after (calls : List RegisterCall) : Guest :=
  calls.foldl (fun g c => c.run g) Guest.initial

/-- The outcome of a call dispatched by operation name. -/
inductive CallOutcome
  | unknownOperation
  | nilHandler
  | healthRequest (result : WrapperResult HealthCheckRequest)
  | request (result : WrapperResult RequestCall)
  deriving DecidableEq, Repr

/-- Modelled from the spec: the dispatch of the wapc guest library (not in the
sources), `handle(operationName, payload)`: "look up the operation" and run
the wrapper registered under the name.  The wrapper reads its package
variable at the time of the call; calling a nil function value is the outcome
`nilHandler`. -/
def Guest.handle (g : Guest) (operation payload : Bytes) : CallOutcome :=
  match lookupFunction operation g.functions with
  | none => .unknownOperation
  | some .HealthRequestWrapper =>
    match g.HealthRequestHandler with
    | none => .nilHandler
    | some handler => .healthRequest (HealthRequestWrapper handler payload)
  | some .RequestWrapper =>
    match g.RequestHandler with
    | none => .nilHandler
    | some handler => .request (RequestWrapper handler payload)

/-- The Go expression `m[k]` with its presence flag: the value stored under
the key, if any. -/
def GoMap.get (m : GoMap) (k : Bytes) : Option Bytes :=
  (m.find? (fun kv => decide (kv.1 = k))).map Prod.snd

/-- The value of the last entry of a wire map with the key `name`. -/
def WireEntries.lastValue (name : Bytes) (es : WireEntries) : Option MsgVal :=
  ((es.filter (fun e => decide (e.1 = name))).getLast?).map Prod.snd

/-- The value of the last entry of a sequence of string pairs with the key
`k`. -/
def lastOf (k : Bytes) (entries : List (Bytes × Bytes)) : Option Bytes :=
  ((entries.filter (fun kv => decide (kv.1 = k))).getLast?).map Prod.snd

/-- A wire entry of a `CapabilityConfiguration` map is well kinded: a declared
key carries a value of the declared kind. -/
def CapabilityConfiguration.wellKinded (e : Bytes × MsgVal) : Prop :=
  (e.1 = str "module" → (MsgVal.asStr e.2).isSome) ∧
    (e.1 = str "values" → (MsgVal.asStrMap e.2).isSome)

/-- A wire entry of a `HealthCheckRequest` map is well kinded. -/
def HealthCheckRequest.wellKinded (e : Bytes × MsgVal) : Prop :=
  e.1 = str "placeholder" → (MsgVal.asBool e.2).isSome

/-- A wire entry of a `HealthCheckResponse` map is well kinded. -/
def HealthCheckResponse.wellKinded (e : Bytes × MsgVal) : Prop :=
  (e.1 = str "healthy" → (MsgVal.asBool e.2).isSome) ∧
    (e.1 = str "message" → (MsgVal.asStr e.2).isSome)

/-- A wire entry of a `RequestArgs` map is well kinded. -/
def RequestArgs.wellKinded (e : Bytes × MsgVal) : Prop :=
  (e.1 = str "method" → (MsgVal.asStr e.2).isSome) ∧
    (e.1 = str "url" → (MsgVal.asStr e.2).isSome) ∧
    (e.1 = str "headers" → (MsgVal.asStrMap e.2).isSome) ∧
    (e.1 = str "body" → (MsgVal.asBin e.2).isSome)

/-- A wire entry of a `Response` map is well kinded. -/
def Response.wellKinded (e : Bytes × MsgVal) : Prop :=
  (e.1 = str "statusCode" → (MsgVal.asUint32 e.2).isSome) ∧
    (e.1 = str "status" → (MsgVal.asStr e.2).isSome) ∧
    (e.1 = str "header" → (MsgVal.asStrMap e.2).isSome) ∧
    (e.1 = str "body" → (MsgVal.asBin e.2).isSome)

instance CapabilityConfiguration.decidableWellKinded (e : Bytes × MsgVal) :
    Decidable (CapabilityConfiguration.wellKinded e) :=
  inferInstanceAs (Decidable ((e.1 = str "module" → (MsgVal.asStr e.2).isSome) ∧
    (e.1 = str "values" → (MsgVal.asStrMap e.2).isSome)))

instance HealthCheckRequest.decidableWellKinded (e : Bytes × MsgVal) :
    Decidable (HealthCheckRequest.wellKinded e) :=
  inferInstanceAs (Decidable (e.1 = str "placeholder" → (MsgVal.asBool e.2).isSome))

instance HealthCheckResponse.decidableWellKinded (e : Bytes × MsgVal) :
    Decidable (HealthCheckResponse.wellKinded e) :=
  inferInstanceAs (Decidable ((e.1 = str "healthy" → (MsgVal.asBool e.2).isSome) ∧
    (e.1 = str "message" → (MsgVal.asStr e.2).isSome)))

instance RequestArgs.decidableWellKinded (e : Bytes × MsgVal) :
    Decidable (RequestArgs.wellKinded e) :=
  inferInstanceAs (Decidable ((e.1 = str "method" → (MsgVal.asStr e.2).isSome) ∧
    (e.1 = str "url" → (MsgVal.asStr e.2).isSome) ∧
    (e.1 = str "headers" → (MsgVal.asStrMap e.2).isSome) ∧
    (e.1 = str "body" → (MsgVal.asBin e.2).isSome)))

instance Response.decidableWellKinded (e : Bytes × MsgVal) :
    Decidable (Response.wellKinded e) :=
  inferInstanceAs (Decidable ((e.1 = str "statusCode" → (MsgVal.asUint32 e.2).isSome) ∧
    (e.1 = str "status" → (MsgVal.asStr e.2).isSome) ∧
    (e.1 = str "header" → (MsgVal.asStrMap e.2).isSome) ∧
    (e.1 = str "body" → (MsgVal.asBin e.2).isSome)))

/-! ## Codec lemmas -/

theorem getUint16_putUint16 (n : Nat) (d : Decoder) (h : n < 65536) :
    getUint16 (putUint16 n ++ d) = .ok (n, d) := by
  simp only [putUint16, List.cons_append, List.nil_append, getUint16]
  congr 2
  omega

theorem getUint32_putUint32 (n : Nat) (d : Decoder) (h : n < 4294967296) :
    getUint32 (putUint32 n ++ d) = .ok (n, d) := by
  simp only [putUint32, List.cons_append, List.nil_append, getUint32]
  congr 2
  omega

theorem getBytes_append (p d : Decoder) : getBytes p.length (p ++ d) = .ok (p, d) := by
  simp [getBytes]

theorem ReadMapSize_mapHeader (n : Nat) (d : Decoder) (h : n < 4294967296) :
    ReadMapSize (mapHeader n ++ d) = .ok (n, d) := by
  unfold mapHeader
  split_ifs with h1 h2
  · simp [ReadMapSize]; omega
  · simp [ReadMapSize, getUint16_putUint16 n d h2]
  · simp [ReadMapSize, getUint32_putUint32 n d h]

theorem readStringLength_stringHeader (n : Nat) (d : Decoder) (h : n < 4294967296) :
    readStringLength (stringHeader n ++ d) = .ok (n, d) := by
  unfold stringHeader
  split_ifs with h1 h2 h3
  · simp [readStringLength]; omega
  · simp [readStringLength, getUint8]
  · simp [readStringLength, getUint16_putUint16 n d h3]
  · simp [readStringLength, getUint32_putUint32 n d h]

theorem ReadString_string (s : Bytes) (d : Decoder) (h : s.length < 4294967296) :
    ReadString (stringHeader s.length ++ s ++ d) = .ok (s, d) := by
  simp [ReadString, List.append_assoc, readStringLength_stringHeader _ _ h, getBytes_append]

theorem readBinLength_binHeader (n : Nat) (d : Decoder) (h : n < 4294967296) :
    readBinLength (binHeader n ++ d) = .ok (n, d) := by
  unfold binHeader
  split_ifs with h1 h2
  · simp [readBinLength, getUint8]
  · simp [readBinLength, getUint16_putUint16 n d h2]
  · simp [readBinLength, getUint32_putUint32 n d h]

theorem ReadByteArray_bin (b : Bytes) (d : Decoder) (h : b.length < 4294967296) :
    ReadByteArray (binHeader b.length ++ b ++ d) = .ok (b, d) := by
  simp [ReadByteArray, List.append_assoc, readBinLength_binHeader _ _ h, getBytes_append]

theorem ReadUint32_uintBytes (n : Nat) (d : Decoder) (h : n < 4294967296) :
    ReadUint32 (uintBytes n ++ d) = .ok (n, d) := by
  unfold uintBytes
  split_ifs with h1 h2 h3
  · simp [ReadUint32, h1]
  · simp [ReadUint32, getUint8]
  · simp [ReadUint32, getUint16_putUint16 n d h3]
  · simp [ReadUint32, getUint32_putUint32 n d h]

theorem ReadBool_bool (b : Bool) (d : Decoder) :
    ReadBool ((if b then 0xc3 else 0xc2) :: d) = .ok (b, d) := by
  cases b <;> simp [ReadBool]


theorem getLength_two (n : Nat) (d : Decoder) (h : n < 65536) :
    getLength 2 (putUint16 n ++ d) = .ok (n, d) := by
  simp [getLength, getUint16_putUint16 n d h]

theorem getLength_four (n : Nat) (d : Decoder) (h : n < 4294967296) :
    getLength 4 (putUint32 n ++ d) = .ok (n, d) := by
  simp [getLength, getUint32_putUint32 n d h]

theorem headerShape_fixmap (b : Nat) (h1 : 128 ≤ b) (h2 : b ≤ 143) :
    headerShape b = some ⟨0, 0, 0, 2 * (b - 128), 0⟩ := by
  unfold headerShape
  rw [if_neg (by omega), if_pos (by omega)]

theorem headerShape_fixarray (b : Nat) (h1 : 144 ≤ b) (h2 : b ≤ 159) :
    headerShape b = some ⟨0, 0, 0, b - 144, 0⟩ := by
  unfold headerShape
  rw [if_neg (by omega), if_neg (by omega), if_pos (by omega)]

theorem headerShape_fixstr (b : Nat) (h1 : 160 ≤ b) (h2 : b ≤ 191) :
    headerShape b = some ⟨0, b - 160, 0, 0, 0⟩ := by
  unfold headerShape
  rw [if_neg (by omega), if_neg (by omega), if_neg (by omega), if_pos (by omega)]

theorem headerShape_negfix (b : Nat) (h1 : 224 ≤ b) (h2 : b ≤ 255) :
    headerShape b = some ⟨0, 0, 0, 0, 0⟩ := by
  unfold headerShape
  rw [if_neg (by omega), if_neg (by omega), if_neg (by omega), if_neg (by omega),
    if_pos (by omega)]

theorem skipHeader_stringHeader (n : Nat) (d : Decoder) (h : n < 4294967296) :
    skipHeader (stringHeader n ++ d) = .ok (n, 0, d) := by
  unfold stringHeader
  split_ifs with h1 h2 h3
  · simp [skipHeader, headerShape_fixstr (160 + n) (by omega) (by omega)]
  · simp [skipHeader, headerShape, getLength, getUint8]
  · simp [skipHeader, headerShape, getLength_two n d h3]
  · simp [skipHeader, headerShape, getLength_four n d h]

theorem skipHeader_binHeader (n : Nat) (d : Decoder) (h : n < 4294967296) :
    skipHeader (binHeader n ++ d) = .ok (n, 0, d) := by
  unfold binHeader
  split_ifs with h1 h2
  · simp [skipHeader, headerShape, getLength, getUint8]
  · simp [skipHeader, headerShape, getLength_two n d h2]
  · simp [skipHeader, headerShape, getLength_four n d h]

theorem skipHeader_extHeader (n : Nat) (d : Decoder) (h : n < 4294967296) :
    skipHeader (extHeader n ++ d) = .ok (n + 1, 0, d) := by
  unfold extHeader
  split_ifs with h1 h2 h3 h4 h5 h6 h7
  · simp [skipHeader, headerShape, h1]
  · simp [skipHeader, headerShape, h2]
  · simp [skipHeader, headerShape, h3]
  · simp [skipHeader, headerShape, h4]
  · simp [skipHeader, headerShape, h5]
  · simp [skipHeader, headerShape, getLength, getUint8, Nat.add_comm]
  · simp [skipHeader, headerShape, getLength_two n d h7, Nat.add_comm]
  · simp [skipHeader, headerShape, getLength_four n d h, Nat.add_comm]

theorem skipHeader_arrayHeader (n : Nat) (d : Decoder) (h : n < 4294967296) :
    skipHeader (arrayHeader n ++ d) = .ok (0, n, d) := by
  unfold arrayHeader
  split_ifs with h1 h2
  · simp [skipHeader, headerShape_fixarray (144 + n) (by omega) (by omega)]
  · simp [skipHeader, headerShape, getLength_two n d h2]
  · simp [skipHeader, headerShape, getLength_four n d h]

theorem skipHeader_mapHeader (n : Nat) (d : Decoder) (h : n < 4294967296) :
    skipHeader (mapHeader n ++ d) = .ok (0, 2 * n, d) := by
  unfold mapHeader
  split_ifs with h1 h2
  · simp [skipHeader, headerShape_fixmap (128 + n) (by omega) (by omega)]
  · simp [skipHeader, headerShape, getLength_two n d h2]
  · simp [skipHeader, headerShape, getLength_four n d h]

theorem skipLoop_step (fuel pending len nested : Nat) (d d1 : Decoder) (p : Bytes)
    (h : skipHeader (d) = .ok (len, nested, p ++ d1)) (hp : p.length = len) :
    skipLoop (fuel + 1) (pending + 1) d = skipLoop fuel (pending + nested) d1 := by
  subst hp
  simp [skipLoop, h, getBytes_append]

theorem skipHeader_uintBytes (n : Nat) (d : Decoder) :
    ∃ p, skipHeader (uintBytes n ++ d) = .ok (p.length, 0, p ++ d) := by
  unfold uintBytes
  split_ifs with h1 h2 h3 h4
  · exact ⟨[], by simp [skipHeader, headerShape, h1]⟩
  · exact ⟨[n], by simp [skipHeader, headerShape]⟩
  · exact ⟨putUint16 n, by simp [skipHeader, headerShape, putUint16]⟩
  · exact ⟨putUint32 n, by simp [skipHeader, headerShape, putUint32]⟩
  · exact ⟨putUint64 n, by simp [skipHeader, headerShape, putUint32, putUint64]⟩

theorem skipHeader_nintBytes (n : Nat) (d : Decoder) :
    ∃ p, skipHeader (nintBytes n ++ d) = .ok (p.length, 0, p ++ d) := by
  unfold nintBytes
  split_ifs with h1 h2 h3 h4
  · exact ⟨[], by simp [skipHeader, headerShape_negfix (255 - n) (by omega) (by omega)]⟩
  · exact ⟨[255 - n], by simp [skipHeader, headerShape]⟩
  · exact ⟨putUint16 (65535 - n), by simp [skipHeader, headerShape, putUint16]⟩
  · exact ⟨putUint32 (4294967295 - n), by simp [skipHeader, headerShape, putUint32]⟩
  · exact ⟨putUint64 (18446744073709551615 - n),
      by simp [skipHeader, headerShape, putUint32, putUint64]⟩

theorem encodeList_append (a b : List MsgVal) :
    MsgVal.encodeList (a ++ b) = MsgVal.encodeList a ++ MsgVal.encodeList b := by
  induction a with
  | nil => simp [MsgVal.encodeList]
  | cons v vs ih => simp [MsgVal.encodeList, ih]

theorem wfList_append (a b : List MsgVal) :
    MsgVal.wfList (a ++ b) = (MsgVal.wfList a && MsgVal.wfList b) := by
  induction a with
  | nil => simp [MsgVal.wfList]
  | cons v vs ih => simp [MsgVal.wfList, ih, Bool.and_assoc]

theorem encodeList_flatten (es : List (MsgVal × MsgVal)) :
    MsgVal.encodeList (MsgVal.flatten es) = MsgVal.encodePairs es := by
  induction es with
  | nil => simp [MsgVal.flatten, MsgVal.encodeList, MsgVal.encodePairs]
  | cons e es ih =>
    obtain ⟨k, v⟩ := e
    simp [MsgVal.flatten, MsgVal.encodeList, MsgVal.encodePairs, ih]

theorem wfList_flatten (es : List (MsgVal × MsgVal)) :
    MsgVal.wfList (MsgVal.flatten es) = MsgVal.wfPairs es := by
  induction es with
  | nil => simp [MsgVal.flatten, MsgVal.wfList, MsgVal.wfPairs]
  | cons e es ih =>
    obtain ⟨k, v⟩ := e
    simp [MsgVal.flatten, MsgVal.wfList, MsgVal.wfPairs, ih]

theorem length_flatten (es : List (MsgVal × MsgVal)) :
    (MsgVal.flatten es).length = 2 * es.length := by
  induction es with
  | nil => simp [MsgVal.flatten]
  | cons e es ih =>
    obtain ⟨k, v⟩ := e
    simp [MsgVal.flatten, ih]
    omega

theorem stringHeader_length_pos (n : Nat) : 0 < (stringHeader n).length := by
  unfold stringHeader; split_ifs <;> simp [putUint16, putUint32]

theorem binHeader_length_pos (n : Nat) : 0 < (binHeader n).length := by
  unfold binHeader; split_ifs <;> simp [putUint16, putUint32]

theorem mapHeader_length_pos (n : Nat) : 0 < (mapHeader n).length := by
  unfold mapHeader; split_ifs <;> simp [putUint16, putUint32]

theorem arrayHeader_length_pos (n : Nat) : 0 < (arrayHeader n).length := by
  unfold arrayHeader; split_ifs <;> simp [putUint16, putUint32]

theorem uintBytes_length_pos (n : Nat) : 0 < (uintBytes n).length := by
  unfold uintBytes; split_ifs <;> simp [putUint16, putUint32, putUint64]

theorem nintBytes_length_pos (n : Nat) : 0 < (nintBytes n).length := by
  unfold nintBytes; split_ifs <;> simp [putUint16, putUint32, putUint64]

theorem encode_length_pos (v : MsgVal) : 0 < (MsgVal.encode v).length := by
  cases v with
  | nil => simp [MsgVal.encode]
  | bool b => simp [MsgVal.encode]
  | uint n => simpa [MsgVal.encode] using uintBytes_length_pos n
  | nint n => simpa [MsgVal.encode] using nintBytes_length_pos n
  | float32 bits => simp [MsgVal.encode]
  | float64 bits => simp [MsgVal.encode]
  | str s =>
    have := stringHeader_length_pos s.length
    simp [MsgVal.encode]; omega
  | bin b =>
    have := binHeader_length_pos b.length
    simp [MsgVal.encode]; omega
  | ext t data =>
    simp [MsgVal.encode]
  | arr items =>
    have := arrayHeader_length_pos items.length
    simp [MsgVal.encode]; omega
  | map es =>
    have := mapHeader_length_pos es.length
    simp [MsgVal.encode]; omega

/-- Skipping a sequence of well-formed values consumes exactly their bytes. -/
theorem skipLoop_encodeList (fuel : Nat) :
    ∀ (F : List MsgVal) (d : Decoder), MsgVal.wfList F = true →
      (MsgVal.encodeList F).length ≤ fuel →
      skipLoop fuel F.length (MsgVal.encodeList F ++ d) = .ok d := by
  induction fuel with
  | zero =>
    intro F d _ hlen
    cases F with
    | nil => simp [skipLoop, MsgVal.encodeList]
    | cons v vs =>
      have := encode_length_pos v
      simp only [MsgVal.encodeList, List.length_append] at hlen
      omega
  | succ fuel ih =>
    intro F d hwf hlen
    cases F with
    | nil => simp [skipLoop, MsgVal.encodeList]
    | cons v vs =>
      simp only [MsgVal.wfList, Bool.and_eq_true] at hwf
      obtain ⟨hv, hvs⟩ := hwf
      simp only [MsgVal.encodeList, List.length_append] at hlen
      have hpos := encode_length_pos v
      have hrest : skipLoop fuel vs.length (MsgVal.encodeList vs ++ d) = .ok d :=
        ih vs d hvs (by omega)
      simp only [MsgVal.encodeList, List.length_cons, List.append_assoc]
      cases v with
      | nil =>
        rw [skipLoop_step fuel vs.length 0 0 _ (MsgVal.encodeList vs ++ d) []
          (by simp [MsgVal.encode, skipHeader, headerShape]) rfl]
        exact hrest
      | bool b =>
        rw [skipLoop_step fuel vs.length 0 0 _ (MsgVal.encodeList vs ++ d) []
          (by cases b <;> simp [MsgVal.encode, skipHeader, headerShape]) rfl]
        exact hrest
      | uint n =>
        obtain ⟨p, hp⟩ := skipHeader_uintBytes n (MsgVal.encodeList vs ++ d)
        rw [MsgVal.encode, skipLoop_step fuel vs.length p.length 0 _ _ p hp rfl]
        exact hrest
      | nint n =>
        obtain ⟨p, hp⟩ := skipHeader_nintBytes n (MsgVal.encodeList vs ++ d)
        rw [MsgVal.encode, skipLoop_step fuel vs.length p.length 0 _ _ p hp rfl]
        exact hrest
      | float32 bits =>
        rw [skipLoop_step fuel vs.length 4 0 _ (MsgVal.encodeList vs ++ d) (putUint32 bits)
          (by simp [MsgVal.encode, skipHeader, headerShape]) (by simp [putUint32])]
        exact hrest
      | float64 bits =>
        rw [skipLoop_step fuel vs.length 8 0 _ (MsgVal.encodeList vs ++ d) (putUint64 bits)
          (by simp [MsgVal.encode, skipHeader, headerShape]) (by simp [putUint32, putUint64])]
        exact hrest
      | str s =>
        simp only [MsgVal.wf, decide_eq_true_eq] at hv
        rw [MsgVal.encode, List.append_assoc,
          skipLoop_step fuel vs.length s.length 0 _ (MsgVal.encodeList vs ++ d) s
            (skipHeader_stringHeader _ _ hv) rfl]
        exact hrest
      | bin b =>
        simp only [MsgVal.wf, decide_eq_true_eq] at hv
        rw [MsgVal.encode, List.append_assoc,
          skipLoop_step fuel vs.length b.length 0 _ (MsgVal.encodeList vs ++ d) b
            (skipHeader_binHeader _ _ hv) rfl]
        exact hrest
      | ext t data =>
        simp only [MsgVal.wf, Bool.and_eq_true, decide_eq_true_eq] at hv
        rw [MsgVal.encode, List.append_assoc,
          skipLoop_step fuel vs.length (data.length + 1) 0 _ (MsgVal.encodeList vs ++ d)
            (t :: data) (by simpa using skipHeader_extHeader _ _ hv.2) (by simp)]
        exact hrest
      | arr items =>
        simp only [MsgVal.wf, Bool.and_eq_true, decide_eq_true_eq] at hv
        have hh := arrayHeader_length_pos items.length
        simp only [MsgVal.encode, List.length_append] at hlen
        rw [MsgVal.encode, List.append_assoc,
          skipLoop_step fuel vs.length 0 items.length _
            (MsgVal.encodeList items ++ (MsgVal.encodeList vs ++ d)) []
            (by simpa using skipHeader_arrayHeader _ _ hv.1) rfl]
        have := ih (items ++ vs) d (by simp [wfList_append, hv.2, hvs])
          (by simp [encodeList_append]; omega)
        simpa [encodeList_append, Nat.add_comm] using this
      | map es =>
        simp only [MsgVal.wf, Bool.and_eq_true, decide_eq_true_eq] at hv
        have hh := mapHeader_length_pos es.length
        simp only [MsgVal.encode, List.length_append] at hlen
        rw [MsgVal.encode, List.append_assoc,
          skipLoop_step fuel vs.length 0 (2 * es.length) _
            (MsgVal.encodePairs es ++ (MsgVal.encodeList vs ++ d)) []
            (by simpa using skipHeader_mapHeader _ _ hv.1) rfl]
        have := ih (MsgVal.flatten es ++ vs) d
          (by simp [wfList_append, wfList_flatten, hv.2, hvs])
          (by simp [encodeList_append, encodeList_flatten]; omega)
        simpa [encodeList_append, encodeList_flatten, length_flatten, Nat.add_comm] using this

/-- `Skip` consumes exactly one well-formed value, whatever its nesting. -/
theorem Skip_encode (v : MsgVal) (d : Decoder) (h : MsgVal.wf v = true) :
    Skip (MsgVal.encode v ++ d) = .ok d := by
  have := skipLoop_encodeList (MsgVal.encode v ++ d).length [v] d
    (by simp [MsgVal.wfList, h]) (by simp [MsgVal.encodeList])
  simpa [Skip, MsgVal.encodeList] using this

theorem byteKind_posfix (b : Nat) (h : b < 128) : byteKind b = some Kind.uint := by
  unfold byteKind
  rw [if_pos h]

theorem byteKind_fixmap (b : Nat) (h1 : 128 ≤ b) (h2 : b ≤ 143) :
    byteKind b = some Kind.map := by
  unfold byteKind
  rw [if_neg (by omega), if_pos (by omega)]

theorem byteKind_fixarray (b : Nat) (h1 : 144 ≤ b) (h2 : b ≤ 159) :
    byteKind b = some Kind.arr := by
  unfold byteKind
  rw [if_neg (by omega), if_neg (by omega), if_pos (by omega)]

theorem byteKind_fixstr (b : Nat) (h1 : 160 ≤ b) (h2 : b ≤ 191) :
    byteKind b = some Kind.str := by
  unfold byteKind
  rw [if_neg (by omega), if_neg (by omega), if_neg (by omega), if_pos (by omega)]

theorem byteKind_negfix (b : Nat) (h1 : 224 ≤ b) (h2 : b ≤ 255) :
    byteKind b = some Kind.nint := by
  unfold byteKind
  repeat (first | rw [if_pos (by omega)] | rw [if_neg (by omega)])

theorem byteKind_uintBytes (n : Nat) (d : Decoder) :
    ∃ b tl, uintBytes n ++ d = b :: tl ∧ byteKind b = some Kind.uint := by
  unfold uintBytes
  split_ifs with h1 h2 h3 h4
  · exact ⟨n, d, rfl, byteKind_posfix n h1⟩
  · exact ⟨_, _, rfl, rfl⟩
  · exact ⟨_, _, rfl, rfl⟩
  · exact ⟨_, _, rfl, rfl⟩
  · exact ⟨_, _, rfl, rfl⟩

theorem byteKind_nintBytes (n : Nat) (d : Decoder) :
    ∃ b tl, nintBytes n ++ d = b :: tl ∧ byteKind b = some Kind.nint := by
  unfold nintBytes
  split_ifs with h1 h2 h3 h4
  · exact ⟨255 - n, d, rfl, byteKind_negfix _ (by omega) (by omega)⟩
  · exact ⟨_, _, rfl, rfl⟩
  · exact ⟨_, _, rfl, rfl⟩
  · exact ⟨_, _, rfl, rfl⟩
  · exact ⟨_, _, rfl, rfl⟩

theorem byteKind_stringHeader (n : Nat) (d : Decoder) :
    ∃ b tl, stringHeader n ++ d = b :: tl ∧ byteKind b = some Kind.str := by
  unfold stringHeader
  split_ifs with h1 h2 h3
  · exact ⟨160 + n, d, rfl, byteKind_fixstr _ (by omega) (by omega)⟩
  · exact ⟨_, _, rfl, rfl⟩
  · exact ⟨_, _, rfl, rfl⟩
  · exact ⟨_, _, rfl, rfl⟩

theorem byteKind_binHeader (n : Nat) (d : Decoder) :
    ∃ b tl, binHeader n ++ d = b :: tl ∧ byteKind b = some Kind.bin := by
  unfold binHeader
  split_ifs with h1 h2
  · exact ⟨_, _, rfl, rfl⟩
  · exact ⟨_, _, rfl, rfl⟩
  · exact ⟨_, _, rfl, rfl⟩

theorem byteKind_extHeader (n : Nat) (d : Decoder) :
    ∃ b tl, extHeader n ++ d = b :: tl ∧ byteKind b = some Kind.ext := by
  unfold extHeader
  split_ifs <;> exact ⟨_, _, rfl, rfl⟩

theorem byteKind_arrayHeader (n : Nat) (d : Decoder) :
    ∃ b tl, arrayHeader n ++ d = b :: tl ∧ byteKind b = some Kind.arr := by
  unfold arrayHeader
  split_ifs with h1 h2
  · exact ⟨144 + n, d, rfl, byteKind_fixarray _ (by omega) (by omega)⟩
  · exact ⟨_, _, rfl, rfl⟩
  · exact ⟨_, _, rfl, rfl⟩

theorem byteKind_mapHeader (n : Nat) (d : Decoder) :
    ∃ b tl, mapHeader n ++ d = b :: tl ∧ byteKind b = some Kind.map := by
  unfold mapHeader
  split_ifs with h1 h2
  · exact ⟨128 + n, d, rfl, byteKind_fixmap _ (by omega) (by omega)⟩
  · exact ⟨_, _, rfl, rfl⟩
  · exact ⟨_, _, rfl, rfl⟩

/-- The first byte of an encoding announces the kind of the value. -/
theorem byteKind_encode (v : MsgVal) (d : Decoder) :
    ∃ b tl, MsgVal.encode v ++ d = b :: tl ∧ byteKind b = some (MsgVal.kind v) := by
  cases v with
  | nil => exact ⟨_, _, rfl, rfl⟩
  | bool b => cases b <;> exact ⟨_, _, rfl, rfl⟩
  | uint n => exact byteKind_uintBytes n d
  | nint n => exact byteKind_nintBytes n d
  | float32 bits => exact ⟨_, _, rfl, rfl⟩
  | float64 bits => exact ⟨_, _, rfl, rfl⟩
  | str s =>
    obtain ⟨b, tl, h1, h2⟩ := byteKind_stringHeader s.length (s ++ d)
    exact ⟨b, tl, by simpa [MsgVal.encode] using h1, h2⟩
  | bin s =>
    obtain ⟨b, tl, h1, h2⟩ := byteKind_binHeader s.length (s ++ d)
    exact ⟨b, tl, by simpa [MsgVal.encode] using h1, h2⟩
  | ext t s =>
    obtain ⟨b, tl, h1, h2⟩ := byteKind_extHeader s.length (t :: s ++ d)
    exact ⟨b, tl, by simpa [MsgVal.encode] using h1, h2⟩
  | arr items =>
    obtain ⟨b, tl, h1, h2⟩ := byteKind_arrayHeader items.length (MsgVal.encodeList items ++ d)
    exact ⟨b, tl, by simpa [MsgVal.encode] using h1, h2⟩
  | map es =>
    obtain ⟨b, tl, h1, h2⟩ := byteKind_mapHeader es.length (MsgVal.encodePairs es ++ d)
    exact ⟨b, tl, by simpa [MsgVal.encode] using h1, h2⟩

theorem ReadBool_mismatch (b : Nat) (d : Decoder) (h : byteKind b ≠ some Kind.bool) :
    ReadBool (b :: d) = .error .typeMismatch := by
  have h1 : b ≠ 0xc3 := by intro e; subst e; exact h rfl
  have h2 : b ≠ 0xc2 := by intro e; subst e; exact h rfl
  simp [ReadBool, h1, h2]

theorem ReadString_mismatch (b : Nat) (d : Decoder) (h : byteKind b ≠ some Kind.str) :
    ReadString (b :: d) = .error .typeMismatch := by
  have h0 : ¬ (160 ≤ b ∧ b ≤ 191) := fun h1 => h (byteKind_fixstr b h1.1 h1.2)
  have h1 : b ≠ 0xd9 := by intro e; subst e; exact h rfl
  have h2 : b ≠ 0xda := by intro e; subst e; exact h rfl
  have h3 : b ≠ 0xdb := by intro e; subst e; exact h rfl
  simp only [ReadString, readStringLength]
  rw [if_neg h0, if_neg h1, if_neg h2, if_neg h3]

theorem ReadByteArray_mismatch (b : Nat) (d : Decoder) (h : byteKind b ≠ some Kind.bin) :
    ReadByteArray (b :: d) = .error .typeMismatch := by
  have h1 : b ≠ 0xc4 := by intro e; subst e; exact h rfl
  have h2 : b ≠ 0xc5 := by intro e; subst e; exact h rfl
  have h3 : b ≠ 0xc6 := by intro e; subst e; exact h rfl
  simp only [ReadByteArray, readBinLength]
  rw [if_neg h1, if_neg h2, if_neg h3]

theorem ReadMapSize_mismatch (b : Nat) (d : Decoder) (h : byteKind b ≠ some Kind.map) :
    ReadMapSize (b :: d) = .error .typeMismatch := by
  have h0 : ¬ (128 ≤ b ∧ b ≤ 143) := fun h1 => h (byteKind_fixmap b h1.1 h1.2)
  have h1 : b ≠ 0xde := by intro e; subst e; exact h rfl
  have h2 : b ≠ 0xdf := by intro e; subst e; exact h rfl
  simp only [ReadMapSize]
  rw [if_neg h0, if_neg h1, if_neg h2]

theorem ReadUint32_mismatch (b : Nat) (d : Decoder) (h : byteKind b ≠ some Kind.uint) :
    ReadUint32 (b :: d) = .error .typeMismatch := by
  have h0 : ¬ (b < 128) := fun h1 => h (byteKind_posfix b h1)
  have h1 : b ≠ 0xcc := by intro e; subst e; exact h rfl
  have h2 : b ≠ 0xcd := by intro e; subst e; exact h rfl
  have h3 : b ≠ 0xce := by intro e; subst e; exact h rfl
  simp only [ReadUint32]
  rw [if_neg h0, if_neg h1, if_neg h2, if_neg h3]

theorem ReadString_kind (v : MsgVal) (d : Decoder) (h : MsgVal.kind v ≠ Kind.str) :
    ReadString (MsgVal.encode v ++ d) = .error .typeMismatch := by
  obtain ⟨b, tl, h1, h2⟩ := byteKind_encode v d
  rw [h1]
  exact ReadString_mismatch b tl (by rw [h2]; simpa using h)

theorem ReadBool_kind (v : MsgVal) (d : Decoder) (h : MsgVal.kind v ≠ Kind.bool) :
    ReadBool (MsgVal.encode v ++ d) = .error .typeMismatch := by
  obtain ⟨b, tl, h1, h2⟩ := byteKind_encode v d
  rw [h1]
  exact ReadBool_mismatch b tl (by rw [h2]; simpa using h)

theorem ReadByteArray_kind (v : MsgVal) (d : Decoder) (h : MsgVal.kind v ≠ Kind.bin) :
    ReadByteArray (MsgVal.encode v ++ d) = .error .typeMismatch := by
  obtain ⟨b, tl, h1, h2⟩ := byteKind_encode v d
  rw [h1]
  exact ReadByteArray_mismatch b tl (by rw [h2]; simpa using h)

theorem ReadMapSize_kind (v : MsgVal) (d : Decoder) (h : MsgVal.kind v ≠ Kind.map) :
    ReadMapSize (MsgVal.encode v ++ d) = .error .typeMismatch := by
  obtain ⟨b, tl, h1, h2⟩ := byteKind_encode v d
  rw [h1]
  exact ReadMapSize_mismatch b tl (by rw [h2]; simpa using h)

theorem ReadUint32_kind (v : MsgVal) (d : Decoder) (h : MsgVal.kind v ≠ Kind.uint) :
    ReadUint32 (MsgVal.encode v ++ d) = .error .typeMismatch := by
  obtain ⟨b, tl, h1, h2⟩ := byteKind_encode v d
  rw [h1]
  exact ReadUint32_mismatch b tl (by rw [h2]; simpa using h)

theorem ReadUint32_wide (n : Nat) (d : Decoder) (h : ¬ n < 4294967296) :
    ReadUint32 (uintBytes n ++ d) = .error .typeMismatch := by
  have h1 : ¬ n < 128 := by omega
  have h2 : ¬ n < 256 := by omega
  have h3 : ¬ n < 65536 := by omega
  simp [uintBytes, h1, h2, h3, h, ReadUint32]

theorem asStr_eq_none (v : MsgVal) : MsgVal.asStr v = none ↔ MsgVal.kind v ≠ Kind.str := by
  cases v <;> simp [MsgVal.asStr, MsgVal.kind]

theorem asBool_eq_none (v : MsgVal) : MsgVal.asBool v = none ↔ MsgVal.kind v ≠ Kind.bool := by
  cases v <;> simp [MsgVal.asBool, MsgVal.kind]

theorem asBin_eq_none (v : MsgVal) : MsgVal.asBin v = none ↔ MsgVal.kind v ≠ Kind.bin := by
  cases v <;> simp [MsgVal.asBin, MsgVal.kind]

theorem asUint32_of_kind (v : MsgVal) (h : MsgVal.kind v ≠ Kind.uint) :
    MsgVal.asUint32 v = none := by
  cases v <;> simp [MsgVal.asUint32, MsgVal.kind] at h ⊢

theorem asStrMap_of_kind (v : MsgVal) (h : MsgVal.kind v ≠ Kind.map) :
    MsgVal.asStrMap v = none := by
  cases v <;> simp [MsgVal.asStrMap, MsgVal.kind] at h ⊢

theorem ReadString_asStr (v : MsgVal) (d : Decoder) (hw : MsgVal.wf v = true) :
    ReadString (MsgVal.encode v ++ d) =
      match MsgVal.asStr v with
      | some s => .ok (s, d)
      | none => .error .typeMismatch := by
  cases h : MsgVal.asStr v with
  | none => exact ReadString_kind v d ((asStr_eq_none v).1 h)
  | some s =>
    cases v <;> simp [MsgVal.asStr] at h
    subst h
    simp only [MsgVal.wf, decide_eq_true_eq] at hw
    simp only [MsgVal.encode]
    exact ReadString_string _ d hw

theorem ReadBool_asBool (v : MsgVal) (d : Decoder) :
    ReadBool (MsgVal.encode v ++ d) =
      match MsgVal.asBool v with
      | some b => .ok (b, d)
      | none => .error .typeMismatch := by
  cases h : MsgVal.asBool v with
  | none => exact ReadBool_kind v d ((asBool_eq_none v).1 h)
  | some s =>
    cases v <;> simp [MsgVal.asBool] at h
    subst h
    simp only [MsgVal.encode]
    exact ReadBool_bool _ d

theorem ReadByteArray_asBin (v : MsgVal) (d : Decoder) (hw : MsgVal.wf v = true) :
    ReadByteArray (MsgVal.encode v ++ d) =
      match MsgVal.asBin v with
      | some s => .ok (s, d)
      | none => .error .typeMismatch := by
  cases h : MsgVal.asBin v with
  | none => exact ReadByteArray_kind v d ((asBin_eq_none v).1 h)
  | some s =>
    cases v <;> simp [MsgVal.asBin] at h
    subst h
    simp only [MsgVal.wf, decide_eq_true_eq] at hw
    simp only [MsgVal.encode]
    exact ReadByteArray_bin _ d hw

theorem ReadUint32_asUint32 (v : MsgVal) (d : Decoder) :
    ReadUint32 (MsgVal.encode v ++ d) =
      match MsgVal.asUint32 v with
      | some n => .ok (n, d)
      | none => .error .typeMismatch := by
  by_cases hk : MsgVal.kind v = Kind.uint
  · cases v <;> simp [MsgVal.kind] at hk
    rename_i n
    by_cases hn : n < 4294967296
    · simp [MsgVal.asUint32, hn, MsgVal.encode, ReadUint32_uintBytes n d hn]
    · simp [MsgVal.asUint32, hn, MsgVal.encode, ReadUint32_wide n d hn]
  · rw [asUint32_of_kind v hk]
    exact ReadUint32_kind v d hk

theorem readMapEntries_strPairs (kvs : List (MsgVal × MsgVal)) :
    ∀ (m : GoMap) (d : Decoder), MsgVal.wfPairs kvs = true →
      match MsgVal.strPairs kvs with
      | some ps => readMapEntries kvs.length m (MsgVal.encodePairs kvs ++ d)
          = (GoMap.insertAll m ps, .ok d)
      | none => (readMapEntries kvs.length m (MsgVal.encodePairs kvs ++ d)).2
          = .error .typeMismatch := by
  induction kvs with
  | nil => intro m d _; simp [MsgVal.strPairs, readMapEntries, MsgVal.encodePairs, GoMap.insertAll]
  | cons e es ih =>
    intro m d hw
    obtain ⟨k, v⟩ := e
    simp only [MsgVal.wfPairs, Bool.and_eq_true] at hw
    obtain ⟨hk, hv, hes⟩ := hw
    simp only [MsgVal.strPairs, List.length_cons, readMapEntries, MsgVal.encodePairs,
      List.append_assoc]
    rw [ReadString_asStr k _ hk]
    cases hks : MsgVal.asStr k with
    | none => simp
    | some ks =>
      simp only []
      rw [ReadString_asStr v _ hv]
      cases hvs : MsgVal.asStr v with
      | none => simp
      | some vs =>
        simp only []
        have := ih (GoMap.set m ks vs) d hes
        cases hps : MsgVal.strPairs es with
        | none => simpa [hps] using this
        | some ps => simpa [hps, GoMap.insertAll] using this

theorem readMap_asStrMap (v : MsgVal) (d : Decoder) (hw : MsgVal.wf v = true) :
    match MsgVal.asStrMap v with
    | some m => ∃ n d1, ReadMapSize (MsgVal.encode v ++ d) = .ok (n, d1) ∧
        readMapEntries n [] d1 = (m, .ok d)
    | none => ReadMapSize (MsgVal.encode v ++ d) = .error .typeMismatch ∨
        ∃ n d1, ReadMapSize (MsgVal.encode v ++ d) = .ok (n, d1) ∧
          (readMapEntries n [] d1).2 = .error .typeMismatch := by
  by_cases hk : MsgVal.kind v = Kind.map
  · cases v <;> simp [MsgVal.kind] at hk
    rename_i kvs
    simp only [MsgVal.wf, Bool.and_eq_true, decide_eq_true_eq] at hw
    have h1 : ReadMapSize (MsgVal.encode (MsgVal.map kvs) ++ d)
        = .ok (kvs.length, MsgVal.encodePairs kvs ++ d) := by
      simp only [MsgVal.encode, List.append_assoc]
      exact ReadMapSize_mapHeader _ _ hw.1
    have h2 := readMapEntries_strPairs kvs [] d hw.2
    cases hps : MsgVal.strPairs kvs with
    | none =>
      simp only [hps] at h2
      simp only [MsgVal.asStrMap, hps, Option.map_none']
      exact Or.inr ⟨_, _, h1, h2⟩
    | some ps =>
      simp only [hps] at h2
      simp only [MsgVal.asStrMap, hps, Option.map_some']
      exact ⟨_, _, h1, h2⟩
  · rw [asStrMap_of_kind v hk]
    exact Or.inl (ReadMapSize_kind v d hk)

theorem Skip_put {α : Type} (o : α) (v : MsgVal) (d : Decoder) (hw : MsgVal.wf v = true) :
    (match Skip (MsgVal.encode v ++ d) with
      | .error e => (o, Except.error e)
      | .ok d1 => (o, Except.ok d1)) = (o, Except.ok d) := by
  rw [Skip_encode v d hw]

theorem Agrees_some {α : Type} (o1 : α) (res : Decoded α) (d : Decoder) :
    Agrees (some o1) res d ↔ res = (o1, .ok d) := Iff.rfl

theorem Agrees_none {α : Type} (res : Decoded α) (d : Decoder) :
    Agrees none res d ↔ res.2 = .error .typeMismatch := Iff.rfl

/-- The field loop follows the effect of the wire entries, one by one. -/
theorem decodeLoop_foldPut {α : Type} (sw : α → Bytes → Decoder → Decoded α)
    (put : α → Bytes → MsgVal → Option α)
    (hsw : ∀ o k v d, MsgVal.wf v = true →
      Agrees (put o k v) (sw o k (MsgVal.encode v ++ d)) d) :
    ∀ (es : WireEntries) (o : α) (d : Decoder), WireEntries.wf es = true →
      Agrees (foldPut put o es) (decodeLoop sw es.length o (WireEntries.body es ++ d)) d := by
  intro es
  induction es with
  | nil => intro o d _; simp [foldPut, decodeLoop, WireEntries.body, Agrees]
  | cons e es ih =>
    intro o d hw
    obtain ⟨k, v⟩ := e
    simp only [WireEntries.wf, Bool.and_eq_true, decide_eq_true_eq] at hw
    obtain ⟨hk, hv, hes⟩ := hw
    have h1 := hsw o k v (WireEntries.body es ++ d) hv
    simp only [foldPut, List.length_cons, decodeLoop, WireEntries.body, List.append_assoc]
    have hr : ReadString (stringHeader k.length ++ (k ++ (MsgVal.encode v ++
        (WireEntries.body es ++ d)))) = .ok (k, MsgVal.encode v ++ (WireEntries.body es ++ d)) := by
      have := ReadString_string k (MsgVal.encode v ++ (WireEntries.body es ++ d)) hk
      simpa [List.append_assoc] using this
    rw [hr]
    simp only []
    cases hp : put o k v with
    | none =>
      rw [hp, Agrees_none] at h1
      revert h1
      generalize sw o k (MsgVal.encode v ++ (WireEntries.body es ++ d)) = res
      intro h1
      obtain ⟨o1, r⟩ := res
      simp only at h1
      subst h1
      simp [Agrees]
    | some o1 =>
      rw [hp, Agrees_some] at h1
      rw [h1]
      exact ih o1 d hes

theorem switchField_put_CapabilityConfiguration (o : CapabilityConfiguration) (k : Bytes)
    (v : MsgVal) (d : Decoder) (hw : MsgVal.wf v = true) :
    Agrees (CapabilityConfiguration.put o k v)
      (CapabilityConfiguration.switchField o k (MsgVal.encode v ++ d)) d := by
  unfold CapabilityConfiguration.put CapabilityConfiguration.switchField
  by_cases h1 : k = str "module"
  · subst h1
    simp only [if_true]
    rw [ReadString_asStr v d hw]
    cases MsgVal.asStr v <;> simp [Agrees]
  by_cases h2 : k = str "values"
  · subst h2
    simp only [if_neg h1, if_true]
    have := readMap_asStrMap v d hw
    cases hm : MsgVal.asStrMap v with
    | none =>
      simp only [hm] at this
      rcases this with h | ⟨n, d1, h, h3⟩
      · simp [h, Agrees]
      · simp [h, h3, Agrees]
    | some m =>
      simp only [hm] at this
      obtain ⟨n, d1, h, h3⟩ := this
      simp [h, h3, Agrees]
  simp only [if_neg h1, if_neg h2]
  rw [Skip_put o v d hw]
  exact (Agrees_some _ _ _).2 rfl

theorem Decode_foldPut_CapabilityConfiguration (es : WireEntries) (o : CapabilityConfiguration)
    (d : Decoder) (hw : WireEntries.wf es = true) (hl : es.length < 4294967296) :
    Agrees (foldPut CapabilityConfiguration.put o es)
      (CapabilityConfiguration.Decode o (WireEntries.encode es ++ d)) d := by
  have := decodeLoop_foldPut CapabilityConfiguration.switchField CapabilityConfiguration.put
    switchField_put_CapabilityConfiguration es o d hw
  simp only [CapabilityConfiguration.Decode, WireEntries.encode, List.append_assoc,
    ReadMapSize_mapHeader _ _ hl]
  exact this

theorem switchField_put_HealthCheckRequest (o : HealthCheckRequest) (k : Bytes)
    (v : MsgVal) (d : Decoder) (hw : MsgVal.wf v = true) :
    Agrees (HealthCheckRequest.put o k v)
      (HealthCheckRequest.switchField o k (MsgVal.encode v ++ d)) d := by
  unfold HealthCheckRequest.put HealthCheckRequest.switchField
  by_cases h1 : k = str "placeholder"
  · subst h1
    simp only [if_true]
    rw [ReadBool_asBool v d]
    cases MsgVal.asBool v <;> simp [Agrees]
  simp only [if_neg h1]
  rw [Skip_put o v d hw]
  exact (Agrees_some _ _ _).2 rfl

theorem Decode_foldPut_HealthCheckRequest (es : WireEntries) (o : HealthCheckRequest)
    (d : Decoder) (hw : WireEntries.wf es = true) (hl : es.length < 4294967296) :
    Agrees (foldPut HealthCheckRequest.put o es)
      (HealthCheckRequest.Decode o (WireEntries.encode es ++ d)) d := by
  have := decodeLoop_foldPut HealthCheckRequest.switchField HealthCheckRequest.put
    switchField_put_HealthCheckRequest es o d hw
  simp only [HealthCheckRequest.Decode, WireEntries.encode, List.append_assoc,
    ReadMapSize_mapHeader _ _ hl]
  exact this

theorem switchField_put_HealthCheckResponse (o : HealthCheckResponse) (k : Bytes)
    (v : MsgVal) (d : Decoder) (hw : MsgVal.wf v = true) :
    Agrees (HealthCheckResponse.put o k v)
      (HealthCheckResponse.switchField o k (MsgVal.encode v ++ d)) d := by
  unfold HealthCheckResponse.put HealthCheckResponse.switchField
  by_cases h1 : k = str "healthy"
  · subst h1
    simp only [if_true]
    rw [ReadBool_asBool v d]
    cases MsgVal.asBool v <;> simp [Agrees]
  by_cases h2 : k = str "message"
  · subst h2
    simp only [if_neg h1, if_true]
    rw [ReadString_asStr v d hw]
    cases MsgVal.asStr v <;> simp [Agrees]
  simp only [if_neg h1, if_neg h2]
  rw [Skip_put o v d hw]
  exact (Agrees_some _ _ _).2 rfl

theorem Decode_foldPut_HealthCheckResponse (es : WireEntries) (o : HealthCheckResponse)
    (d : Decoder) (hw : WireEntries.wf es = true) (hl : es.length < 4294967296) :
    Agrees (foldPut HealthCheckResponse.put o es)
      (HealthCheckResponse.Decode o (WireEntries.encode es ++ d)) d := by
  have := decodeLoop_foldPut HealthCheckResponse.switchField HealthCheckResponse.put
    switchField_put_HealthCheckResponse es o d hw
  simp only [HealthCheckResponse.Decode, WireEntries.encode, List.append_assoc,
    ReadMapSize_mapHeader _ _ hl]
  exact this

theorem switchField_put_RequestArgs (o : RequestArgs) (k : Bytes)
    (v : MsgVal) (d : Decoder) (hw : MsgVal.wf v = true) :
    Agrees (RequestArgs.put o k v)
      (RequestArgs.switchField o k (MsgVal.encode v ++ d)) d := by
  unfold RequestArgs.put RequestArgs.switchField
  by_cases h1 : k = str "method"
  · subst h1
    simp only [if_true]
    rw [ReadString_asStr v d hw]
    cases MsgVal.asStr v <;> simp [Agrees]
  by_cases h2 : k = str "url"
  · subst h2
    simp only [if_neg h1, if_true]
    rw [ReadString_asStr v d hw]
    cases MsgVal.asStr v <;> simp [Agrees]
  by_cases h3 : k = str "headers"
  · subst h3
    simp only [if_neg h1, if_neg h2, if_true]
    have := readMap_asStrMap v d hw
    cases hm : MsgVal.asStrMap v with
    | none =>
      simp only [hm] at this
      rcases this with h | ⟨n, d1, h, h3⟩
      · simp [h, Agrees]
      · simp [h, h3, Agrees]
    | some m =>
      simp only [hm] at this
      obtain ⟨n, d1, h, h3⟩ := this
      simp [h, h3, Agrees]
  by_cases h4 : k = str "body"
  · subst h4
    simp only [if_neg h1, if_neg h2, if_neg h3, if_true]
    rw [ReadByteArray_asBin v d hw]
    cases MsgVal.asBin v <;> simp [Agrees]
  simp only [if_neg h1, if_neg h2, if_neg h3, if_neg h4]
  rw [Skip_put o v d hw]
  exact (Agrees_some _ _ _).2 rfl

theorem Decode_foldPut_RequestArgs (es : WireEntries) (o : RequestArgs)
    (d : Decoder) (hw : WireEntries.wf es = true) (hl : es.length < 4294967296) :
    Agrees (foldPut RequestArgs.put o es)
      (RequestArgs.Decode o (WireEntries.encode es ++ d)) d := by
  have := decodeLoop_foldPut RequestArgs.switchField RequestArgs.put
    switchField_put_RequestArgs es o d hw
  simp only [RequestArgs.Decode, WireEntries.encode, List.append_assoc,
    ReadMapSize_mapHeader _ _ hl]
  exact this

theorem switchField_put_Response (o : Response) (k : Bytes)
    (v : MsgVal) (d : Decoder) (hw : MsgVal.wf v = true) :
    Agrees (Response.put o k v)
      (Response.switchField o k (MsgVal.encode v ++ d)) d := by
  unfold Response.put Response.switchField
  by_cases h1 : k = str "statusCode"
  · subst h1
    simp only [if_true]
    rw [ReadUint32_asUint32 v d]
    cases MsgVal.asUint32 v <;> simp [Agrees]
  by_cases h2 : k = str "status"
  · subst h2
    simp only [if_neg h1, if_true]
    rw [ReadString_asStr v d hw]
    cases MsgVal.asStr v <;> simp [Agrees]
  by_cases h3 : k = str "header"
  · subst h3
    simp only [if_neg h1, if_neg h2, if_true]
    have := readMap_asStrMap v d hw
    cases hm : MsgVal.asStrMap v with
    | none =>
      simp only [hm] at this
      rcases this with h | ⟨n, d1, h, h3⟩
      · simp [h, Agrees]
      · simp [h, h3, Agrees]
    | some m =>
      simp only [hm] at this
      obtain ⟨n, d1, h, h3⟩ := this
      simp [h, h3, Agrees]
  by_cases h4 : k = str "body"
  · subst h4
    simp only [if_neg h1, if_neg h2, if_neg h3, if_true]
    rw [ReadByteArray_asBin v d hw]
    cases MsgVal.asBin v <;> simp [Agrees]
  simp only [if_neg h1, if_neg h2, if_neg h3, if_neg h4]
  rw [Skip_put o v d hw]
  exact (Agrees_some _ _ _).2 rfl

theorem Decode_foldPut_Response (es : WireEntries) (o : Response)
    (d : Decoder) (hw : WireEntries.wf es = true) (hl : es.length < 4294967296) :
    Agrees (foldPut Response.put o es)
      (Response.Decode o (WireEntries.encode es ++ d)) d := by
  have := decodeLoop_foldPut Response.switchField Response.put
    switchField_put_Response es o d hw
  simp only [Response.Decode, WireEntries.encode, List.append_assoc, ReadMapSize_mapHeader _ _ hl]
  exact this

/-! ## Encode writes the entries of the record -/

theorem WriteString_eq (s : Bytes) (enc : Encoder) (h : s.length < 4294967296) :
    WriteString s enc = enc ++ (stringHeader s.length ++ s) := by
  simp [WriteString, Nat.mod_eq_of_lt h]

theorem writeMapEntries_eq (mo : Option GoMap) (enc : Encoder)
    (h : ∀ kv ∈ entriesOf mo, kv.1.length < 4294967296 ∧ kv.2.length < 4294967296) :
    writeMapEntries mo enc = enc ++
      MsgVal.encodePairs ((entriesOf mo).map (fun kv => (MsgVal.str kv.1, MsgVal.str kv.2))) := by
  cases mo with
  | none => simp [writeMapEntries, entriesOf, MsgVal.encodePairs]
  | some m =>
    simp only [writeMapEntries, entriesOf, Option.getD_some] at h ⊢
    induction m generalizing enc with
    | nil => simp [MsgVal.encodePairs]
    | cons kv m ih =>
      have hkv := h kv (List.mem_cons_self _ _)
      simp only [List.foldl_cons, List.map_cons, MsgVal.encodePairs, MsgVal.encode]
      rw [ih _ (fun x hx => h x (List.mem_cons_of_mem _ hx)),
        WriteString_eq _ _ hkv.1, WriteString_eq _ _ hkv.2]
      simp [List.append_assoc]

theorem mapLen_eq (mo : Option GoMap) : mapLen mo = (entriesOf mo).length := by
  cases mo <;> simp [mapLen, entriesOf]

theorem WriteByteArray_eq (b : Option Bytes) (enc : Encoder)
    (h : (bytesOf b).length < 4294967296) :
    WriteByteArray b enc = enc ++ (binHeader (bytesOf b).length ++ bytesOf b) := by
  cases b with
  | none => simp [WriteByteArray, bytesOf]
  | some b =>
    simp only [bytesOf, Option.getD_some] at h
    simp [WriteByteArray, bytesOf, Nat.mod_eq_of_lt h]

theorem Encode_entries_CapabilityConfiguration (r : CapabilityConfiguration) (enc : Encoder)
    (h : CapabilityConfiguration.wf r) :
    CapabilityConfiguration.Encode (some r) enc
      = enc ++ WireEntries.encode (CapabilityConfiguration.entries r) := by
  obtain ⟨h1, h2, h3, _⟩ := h
  have m1 := Nat.mod_eq_of_lt h1
  have e1 : (str "module").length = 6 := rfl
  have e2 : (str "values").length = 6 := rfl
  simp only [CapabilityConfiguration.Encode, CapabilityConfiguration.entries, WireEntries.encode,
    WireEntries.body, WriteMapSize, mapLen_eq, Nat.mod_mod, Nat.mod_eq_of_lt h2,
    writeMapEntries_eq _ _ h3, WriteString_eq _ _ h1, WriteString, e1, e2, GoMap.toMsg,
    MsgVal.encode, List.length_map, List.length_cons, List.length_nil, List.append_assoc,
    List.append_nil, Nat.reduceMod, Nat.reduceAdd, Nat.mod_eq_of_lt, *]

theorem Encode_entries_HealthCheckRequest (r : HealthCheckRequest) (enc : Encoder) :
    HealthCheckRequest.Encode (some r) enc
      = enc ++ WireEntries.encode (HealthCheckRequest.entries r) := by
  have e1 : (str "placeholder").length = 11 := rfl
  simp only [HealthCheckRequest.Encode, HealthCheckRequest.entries, WireEntries.encode,
    WireEntries.body, WriteMapSize, WriteString, WriteBool, e1,
    MsgVal.encode, List.length_cons, List.length_nil, List.append_assoc,
    List.append_nil, Nat.reduceMod, Nat.reduceAdd, Nat.mod_eq_of_lt, *]

theorem Encode_entries_HealthCheckResponse (r : HealthCheckResponse) (enc : Encoder)
    (h : HealthCheckResponse.wf r) :
    HealthCheckResponse.Encode (some r) enc
      = enc ++ WireEntries.encode (HealthCheckResponse.entries r) := by
  have m1 := Nat.mod_eq_of_lt h
  have e1 : (str "healthy").length = 7 := rfl
  have e2 : (str "message").length = 7 := rfl
  simp only [HealthCheckResponse.Encode, HealthCheckResponse.entries, WireEntries.encode,
    WireEntries.body, WriteMapSize, WriteString_eq _ _ h, WriteString, WriteBool, e1, e2,
    MsgVal.encode, List.length_cons, List.length_nil, List.append_assoc,
    List.append_nil, Nat.reduceMod, Nat.reduceAdd, Nat.mod_eq_of_lt, *]

theorem Encode_entries_RequestArgs (r : RequestArgs) (enc : Encoder) (h : RequestArgs.wf r) :
    RequestArgs.Encode (some r) enc = enc ++ WireEntries.encode (RequestArgs.entries r) := by
  obtain ⟨h1, h2, ⟨h3, h4, _⟩, h5⟩ := h
  have m1 := Nat.mod_eq_of_lt h1
  have m2 := Nat.mod_eq_of_lt h2
  have e1 : (str "method").length = 6 := rfl
  have e2 : (str "url").length = 3 := rfl
  have e3 : (str "headers").length = 7 := rfl
  have e4 : (str "body").length = 4 := rfl
  simp only [RequestArgs.Encode, RequestArgs.entries, WireEntries.encode,
    WireEntries.body, WriteMapSize, mapLen_eq, Nat.mod_mod, Nat.mod_eq_of_lt h3,
    writeMapEntries_eq _ _ h4, WriteString_eq _ _ h1, WriteString_eq _ _ h2,
    WriteByteArray_eq _ _ h5, WriteString, e1, e2, e3, e4, GoMap.toMsg,
    MsgVal.encode, List.length_map, List.length_cons, List.length_nil, List.append_assoc,
    List.append_nil, Nat.reduceMod, Nat.reduceAdd, Nat.mod_eq_of_lt, *]

theorem Encode_entries_Response (r : Response) (enc : Encoder) (h : Response.wf r) :
    Response.Encode (some r) enc = enc ++ WireEntries.encode (Response.entries r) := by
  obtain ⟨h1, h2, ⟨h3, h4, _⟩, h5⟩ := h
  have m1 := Nat.mod_eq_of_lt h1
  have m2 := Nat.mod_eq_of_lt h2
  have e1 : (str "statusCode").length = 10 := rfl
  have e2 : (str "status").length = 6 := rfl
  have e3 : (str "header").length = 6 := rfl
  have e4 : (str "body").length = 4 := rfl
  simp only [Response.Encode, Response.entries, WireEntries.encode,
    WireEntries.body, WriteMapSize, mapLen_eq, Nat.mod_mod, Nat.mod_eq_of_lt h3,
    Nat.mod_eq_of_lt h1, WriteUint32,
    writeMapEntries_eq _ _ h4, WriteString_eq _ _ h2,
    WriteByteArray_eq _ _ h5, WriteString, e1, e2, e3, e4, GoMap.toMsg,
    MsgVal.encode, List.length_map, List.length_cons, List.length_nil, List.append_assoc,
    List.append_nil, Nat.reduceMod, Nat.reduceAdd, Nat.mod_eq_of_lt, *]

/-! ## A successful read stays successful when bytes are appended -/

theorem getBytes_stable (n : Nat) (p t rest : Decoder) (x : Bytes)
    (h : getBytes n p = .ok (x, rest)) : getBytes n (p ++ t) = .ok (x, rest ++ t) := by
  unfold getBytes at h ⊢
  split_ifs at h with h1
  simp only [Except.ok.injEq, Prod.mk.injEq] at h
  obtain ⟨hx, hr⟩ := h
  subst hx hr
  have h2 : n ≤ (p ++ t).length := by simp; omega
  rw [if_pos h2, List.take_append_of_le_length h1, List.drop_append_of_le_length h1]

theorem getUint8_stable (p t rest : Decoder) (x : Nat)
    (h : getUint8 p = .ok (x, rest)) : getUint8 (p ++ t) = .ok (x, rest ++ t) := by
  match p, h with
  | b0 :: p, h => simpa [getUint8] using h

theorem getUint16_stable (p t rest : Decoder) (x : Nat)
    (h : getUint16 p = .ok (x, rest)) : getUint16 (p ++ t) = .ok (x, rest ++ t) := by
  match p, h with
  | b1 :: b0 :: p, h => simpa [getUint16] using h
  | [_], h => simp [getUint16] at h
  | [], h => simp [getUint16] at h

theorem getUint32_stable (p t rest : Decoder) (x : Nat)
    (h : getUint32 p = .ok (x, rest)) : getUint32 (p ++ t) = .ok (x, rest ++ t) := by
  match p, h with
  | b3 :: b2 :: b1 :: b0 :: p, h => simpa [getUint32] using h
  | [_, _, _], h => simp [getUint32] at h
  | [_, _], h => simp [getUint32] at h
  | [_], h => simp [getUint32] at h
  | [], h => simp [getUint32] at h

theorem getLength_stable (w : Nat) (p t rest : Decoder) (x : Nat)
    (h : getLength w p = .ok (x, rest)) : getLength w (p ++ t) = .ok (x, rest ++ t) := by
  unfold getLength at h ⊢
  split_ifs at h ⊢
  · exact getUint8_stable p t rest x h
  · exact getUint16_stable p t rest x h
  · exact getUint32_stable p t rest x h

theorem ReadBool_stable (p t rest : Decoder) (x : Bool)
    (h : ReadBool p = .ok (x, rest)) : ReadBool (p ++ t) = .ok (x, rest ++ t) := by
  cases p with
  | nil => simp [ReadBool] at h
  | cons b p =>
    simp only [ReadBool, List.cons_append] at h ⊢
    split_ifs at h ⊢ <;> simp_all

theorem ReadUint32_stable (p t rest : Decoder) (x : Nat)
    (h : ReadUint32 p = .ok (x, rest)) : ReadUint32 (p ++ t) = .ok (x, rest ++ t) := by
  cases p with
  | nil => simp [ReadUint32] at h
  | cons b p =>
    simp only [ReadUint32, List.cons_append] at h ⊢
    split_ifs at h ⊢
    · simp_all
    · exact getUint8_stable p t rest x h
    · exact getUint16_stable p t rest x h
    · exact getUint32_stable p t rest x h

theorem readStringLength_stable (p t rest : Decoder) (x : Nat)
    (h : readStringLength p = .ok (x, rest)) :
    readStringLength (p ++ t) = .ok (x, rest ++ t) := by
  cases p with
  | nil => simp [readStringLength] at h
  | cons b p =>
    simp only [readStringLength, List.cons_append] at h ⊢
    split_ifs at h ⊢
    · simp_all
    · exact getUint8_stable p t rest x h
    · exact getUint16_stable p t rest x h
    · exact getUint32_stable p t rest x h

theorem ReadString_stable (p t rest : Decoder) (x : Bytes)
    (h : ReadString p = .ok (x, rest)) : ReadString (p ++ t) = .ok (x, rest ++ t) := by
  unfold ReadString at h ⊢
  cases h1 : readStringLength p with
  | error e => simp [h1] at h
  | ok res =>
    obtain ⟨n, d1⟩ := res
    simp only [h1] at h
    rw [readStringLength_stable p t d1 n h1]
    exact getBytes_stable n d1 t rest x h

theorem readBinLength_stable (p t rest : Decoder) (x : Nat)
    (h : readBinLength p = .ok (x, rest)) : readBinLength (p ++ t) = .ok (x, rest ++ t) := by
  cases p with
  | nil => simp [readBinLength] at h
  | cons b p =>
    simp only [readBinLength, List.cons_append] at h ⊢
    split_ifs at h ⊢
    · exact getUint8_stable p t rest x h
    · exact getUint16_stable p t rest x h
    · exact getUint32_stable p t rest x h

theorem ReadByteArray_stable (p t rest : Decoder) (x : Bytes)
    (h : ReadByteArray p = .ok (x, rest)) : ReadByteArray (p ++ t) = .ok (x, rest ++ t) := by
  unfold ReadByteArray at h ⊢
  cases h1 : readBinLength p with
  | error e => simp [h1] at h
  | ok res =>
    obtain ⟨n, d1⟩ := res
    simp only [h1] at h
    rw [readBinLength_stable p t d1 n h1]
    exact getBytes_stable n d1 t rest x h

theorem ReadMapSize_stable (p t rest : Decoder) (x : Nat)
    (h : ReadMapSize p = .ok (x, rest)) : ReadMapSize (p ++ t) = .ok (x, rest ++ t) := by
  cases p with
  | nil => simp [ReadMapSize] at h
  | cons b p =>
    simp only [ReadMapSize, List.cons_append] at h ⊢
    split_ifs at h ⊢
    · simp_all
    · exact getUint16_stable p t rest x h
    · exact getUint32_stable p t rest x h

theorem skipHeader_stable (p t rest : Decoder) (x y : Nat)
    (h : skipHeader p = .ok (x, y, rest)) : skipHeader (p ++ t) = .ok (x, y, rest ++ t) := by
  cases p with
  | nil => simp [skipHeader] at h
  | cons b p =>
    simp only [skipHeader, List.cons_append] at h ⊢
    cases hs : headerShape b with
    | none => simp [hs] at h
    | some sh =>
      simp only [hs] at h ⊢
      by_cases hw : sh.width = 0
      · simp only [hw, if_true, Except.ok.injEq, Prod.mk.injEq] at h ⊢
        exact ⟨h.1, h.2.1, by rw [h.2.2]⟩
      · simp only [if_neg hw] at h ⊢
        cases h1 : getLength sh.width p with
        | error e => simp [h1] at h
        | ok res =>
          obtain ⟨n, d1⟩ := res
          simp only [h1, Except.ok.injEq, Prod.mk.injEq] at h
          rw [getLength_stable sh.width p t d1 n h1]
          simp [h.1, h.2.1, h.2.2]

theorem skipLoop_zero (fuel : Nat) (d : Decoder) : skipLoop fuel 0 d = .ok d := by
  cases fuel <;> simp [skipLoop]

theorem skipLoop_stable (fuel : Nat) :
    ∀ (pending more : Nat) (p t rest : Decoder), skipLoop fuel pending p = .ok rest →
      skipLoop (fuel + more) pending (p ++ t) = .ok (rest ++ t) := by
  induction fuel with
  | zero =>
    intro pending more p t rest h
    cases pending with
    | zero =>
      rw [skipLoop_zero] at h ⊢
      simp only [Except.ok.injEq] at h
      rw [h]
    | succ n => simp [skipLoop] at h
  | succ fuel ih =>
    intro pending more p t rest h
    cases pending with
    | zero =>
      rw [skipLoop_zero] at h ⊢
      simp only [Except.ok.injEq] at h
      rw [h]
    | succ n =>
      have e : fuel + 1 + more = (fuel + more) + 1 := by omega
      rw [e]
      simp only [skipLoop] at h ⊢
      cases h1 : skipHeader p with
      | error e => simp [h1] at h
      | ok res =>
        obtain ⟨len, nested, d1⟩ := res
        simp only [h1] at h
        rw [skipHeader_stable p t d1 len nested h1]
        simp only []
        cases h2 : getBytes len d1 with
        | error e => simp [h2] at h
        | ok res2 =>
          obtain ⟨x, d2⟩ := res2
          simp only [h2] at h
          rw [getBytes_stable len d1 t d2 x h2]
          exact ih _ more d2 t rest h

theorem Skip_stable (p t rest : Decoder) (h : Skip p = .ok rest) :
    Skip (p ++ t) = .ok (rest ++ t) := by
  unfold Skip at h ⊢
  have := skipLoop_stable p.length 1 t.length p t rest h
  simpa using this

theorem readMapEntries_stable (n : Nat) :
    ∀ (m m1 : GoMap) (p t rest : Decoder), readMapEntries n m p = (m1, .ok rest) →
      readMapEntries n m (p ++ t) = (m1, .ok (rest ++ t)) := by
  induction n with
  | zero =>
    intro m m1 p t rest h
    simp only [readMapEntries, Prod.mk.injEq, Except.ok.injEq] at h ⊢
    exact ⟨h.1, by rw [h.2]⟩
  | succ n ih =>
    intro m m1 p t rest h
    simp only [readMapEntries] at h ⊢
    cases h1 : ReadString p with
    | error e => simp [h1] at h
    | ok res =>
      obtain ⟨key, d1⟩ := res
      simp only [h1] at h
      rw [ReadString_stable p t d1 key h1]
      simp only []
      cases h2 : ReadString d1 with
      | error e => simp [h2] at h
      | ok res2 =>
        obtain ⟨value, d2⟩ := res2
        simp only [h2] at h
        rw [ReadString_stable d1 t d2 value h2]
        exact ih _ m1 d2 t rest h

theorem decodeLoop_stable {α : Type} (sw : α → Bytes → Decoder → Decoded α)
    (hsw : ∀ o k p t o1 rest, sw o k p = (o1, .ok rest) → sw o k (p ++ t) = (o1, .ok (rest ++ t)))
    (n : Nat) :
    ∀ (o o1 : α) (p t rest : Decoder), decodeLoop sw n o p = (o1, .ok rest) →
      decodeLoop sw n o (p ++ t) = (o1, .ok (rest ++ t)) := by
  induction n with
  | zero =>
    intro o o1 p t rest h
    simp only [decodeLoop, Prod.mk.injEq, Except.ok.injEq] at h ⊢
    exact ⟨h.1, by rw [h.2]⟩
  | succ n ih =>
    intro o o1 p t rest h
    simp only [decodeLoop] at h ⊢
    cases h1 : ReadString p with
    | error e => simp [h1] at h
    | ok res =>
      obtain ⟨key, d1⟩ := res
      simp only [h1] at h
      rw [ReadString_stable p t d1 key h1]
      simp only []
      cases h2 : sw o key d1 with
      | mk o2 r =>
        cases r with
        | error e => simp [h2] at h
        | ok d2 =>
          simp only [h2] at h
          rw [hsw o key d1 t o2 d2 h2]
          exact ih o2 o1 d2 t rest h

theorem switchField_stable_CapabilityConfiguration (o : CapabilityConfiguration) (k : Bytes)
    (p t : Decoder) (o1 : CapabilityConfiguration)
    (rest : Decoder) (h : CapabilityConfiguration.switchField o k p = (o1, .ok rest)) :
    CapabilityConfiguration.switchField o k (p ++ t) = (o1, .ok (rest ++ t)) := by
  unfold CapabilityConfiguration.switchField at h ⊢
  by_cases c1 : k = str "module"
  · simp only [if_pos c1] at h ⊢
    cases h1 : ReadString p with
    | error e => simp [h1] at h
    | ok res =>
      obtain ⟨v, d⟩ := res
      simp only [h1, Prod.mk.injEq, Except.ok.injEq] at h
      rw [ReadString_stable p t d v h1]
      simp only [Prod.mk.injEq, Except.ok.injEq]
      exact ⟨h.1, by rw [h.2]⟩
  by_cases c2 : k = str "values"
  · simp only [if_neg c1, if_pos c2] at h ⊢
    cases h1 : ReadMapSize p with
    | error e => simp [h1] at h
    | ok res =>
      obtain ⟨n, d⟩ := res
      simp only [h1] at h
      rw [ReadMapSize_stable p t d n h1]
      simp only []
      cases h2 : readMapEntries n [] d with
      | mk m r =>
        cases r with
        | error e => simp [h2] at h
        | ok d2 =>
          simp only [h2, Prod.mk.injEq, Except.ok.injEq] at h
          rw [readMapEntries_stable n [] m d t d2 h2]
          simp only [Prod.mk.injEq, Except.ok.injEq]
          exact ⟨h.1, by rw [h.2]⟩
  simp only [if_neg c1, if_neg c2] at h ⊢
  cases h1 : Skip p with
  | error e => simp [h1] at h
  | ok d =>
    simp only [h1, Prod.mk.injEq, Except.ok.injEq] at h
    rw [Skip_stable p t d h1]
    simp only [Prod.mk.injEq, Except.ok.injEq]
    exact ⟨h.1, by rw [h.2]⟩

theorem Decode_stable_CapabilityConfiguration (o o1 : CapabilityConfiguration) (p t rest : Decoder)
    (h : CapabilityConfiguration.Decode o p = (o1, .ok rest)) :
    CapabilityConfiguration.Decode o (p ++ t) = (o1, .ok (rest ++ t)) := by
  unfold CapabilityConfiguration.Decode at h ⊢
  cases h1 : ReadMapSize p with
  | error e => simp [h1] at h
  | ok res =>
    obtain ⟨n, d⟩ := res
    simp only [h1] at h
    rw [ReadMapSize_stable p t d n h1]
    exact decodeLoop_stable _ switchField_stable_CapabilityConfiguration n o o1 d t rest h

theorem switchField_stable_HealthCheckRequest (o : HealthCheckRequest) (k : Bytes) (p t : Decoder)
    (o1 : HealthCheckRequest)
    (rest : Decoder) (h : HealthCheckRequest.switchField o k p = (o1, .ok rest)) :
    HealthCheckRequest.switchField o k (p ++ t) = (o1, .ok (rest ++ t)) := by
  unfold HealthCheckRequest.switchField at h ⊢
  by_cases c1 : k = str "placeholder"
  · simp only [if_pos c1] at h ⊢
    cases h1 : ReadBool p with
    | error e => simp [h1] at h
    | ok res =>
      obtain ⟨v, d⟩ := res
      simp only [h1, Prod.mk.injEq, Except.ok.injEq] at h
      rw [ReadBool_stable p t d v h1]
      simp only [Prod.mk.injEq, Except.ok.injEq]
      exact ⟨h.1, by rw [h.2]⟩
  simp only [if_neg c1] at h ⊢
  cases h1 : Skip p with
  | error e => simp [h1] at h
  | ok d =>
    simp only [h1, Prod.mk.injEq, Except.ok.injEq] at h
    rw [Skip_stable p t d h1]
    simp only [Prod.mk.injEq, Except.ok.injEq]
    exact ⟨h.1, by rw [h.2]⟩

theorem Decode_stable_HealthCheckRequest (o o1 : HealthCheckRequest) (p t rest : Decoder)
    (h : HealthCheckRequest.Decode o p = (o1, .ok rest)) :
    HealthCheckRequest.Decode o (p ++ t) = (o1, .ok (rest ++ t)) := by
  unfold HealthCheckRequest.Decode at h ⊢
  cases h1 : ReadMapSize p with
  | error e => simp [h1] at h
  | ok res =>
    obtain ⟨n, d⟩ := res
    simp only [h1] at h
    rw [ReadMapSize_stable p t d n h1]
    exact decodeLoop_stable _ switchField_stable_HealthCheckRequest n o o1 d t rest h

theorem switchField_stable_HealthCheckResponse (o : HealthCheckResponse) (k : Bytes)
    (p t : Decoder) (o1 : HealthCheckResponse)
    (rest : Decoder) (h : HealthCheckResponse.switchField o k p = (o1, .ok rest)) :
    HealthCheckResponse.switchField o k (p ++ t) = (o1, .ok (rest ++ t)) := by
  unfold HealthCheckResponse.switchField at h ⊢
  by_cases c1 : k = str "healthy"
  · simp only [if_pos c1] at h ⊢
    cases h1 : ReadBool p with
    | error e => simp [h1] at h
    | ok res =>
      obtain ⟨v, d⟩ := res
      simp only [h1, Prod.mk.injEq, Except.ok.injEq] at h
      rw [ReadBool_stable p t d v h1]
      simp only [Prod.mk.injEq, Except.ok.injEq]
      exact ⟨h.1, by rw [h.2]⟩
  by_cases c2 : k = str "message"
  · simp only [if_neg c1, if_pos c2] at h ⊢
    cases h1 : ReadString p with
    | error e => simp [h1] at h
    | ok res =>
      obtain ⟨v, d⟩ := res
      simp only [h1, Prod.mk.injEq, Except.ok.injEq] at h
      rw [ReadString_stable p t d v h1]
      simp only [Prod.mk.injEq, Except.ok.injEq]
      exact ⟨h.1, by rw [h.2]⟩
  simp only [if_neg c1, if_neg c2] at h ⊢
  cases h1 : Skip p with
  | error e => simp [h1] at h
  | ok d =>
    simp only [h1, Prod.mk.injEq, Except.ok.injEq] at h
    rw [Skip_stable p t d h1]
    simp only [Prod.mk.injEq, Except.ok.injEq]
    exact ⟨h.1, by rw [h.2]⟩

theorem Decode_stable_HealthCheckResponse (o o1 : HealthCheckResponse) (p t rest : Decoder)
    (h : HealthCheckResponse.Decode o p = (o1, .ok rest)) :
    HealthCheckResponse.Decode o (p ++ t) = (o1, .ok (rest ++ t)) := by
  unfold HealthCheckResponse.Decode at h ⊢
  cases h1 : ReadMapSize p with
  | error e => simp [h1] at h
  | ok res =>
    obtain ⟨n, d⟩ := res
    simp only [h1] at h
    rw [ReadMapSize_stable p t d n h1]
    exact decodeLoop_stable _ switchField_stable_HealthCheckResponse n o o1 d t rest h

theorem switchField_stable_RequestArgs (o : RequestArgs) (k : Bytes) (p t : Decoder)
    (o1 : RequestArgs)
    (rest : Decoder) (h : RequestArgs.switchField o k p = (o1, .ok rest)) :
    RequestArgs.switchField o k (p ++ t) = (o1, .ok (rest ++ t)) := by
  unfold RequestArgs.switchField at h ⊢
  by_cases c1 : k = str "method"
  · simp only [if_pos c1] at h ⊢
    cases h1 : ReadString p with
    | error e => simp [h1] at h
    | ok res =>
      obtain ⟨v, d⟩ := res
      simp only [h1, Prod.mk.injEq, Except.ok.injEq] at h
      rw [ReadString_stable p t d v h1]
      simp only [Prod.mk.injEq, Except.ok.injEq]
      exact ⟨h.1, by rw [h.2]⟩
  by_cases c2 : k = str "url"
  · simp only [if_neg c1, if_pos c2] at h ⊢
    cases h1 : ReadString p with
    | error e => simp [h1] at h
    | ok res =>
      obtain ⟨v, d⟩ := res
      simp only [h1, Prod.mk.injEq, Except.ok.injEq] at h
      rw [ReadString_stable p t d v h1]
      simp only [Prod.mk.injEq, Except.ok.injEq]
      exact ⟨h.1, by rw [h.2]⟩
  by_cases c3 : k = str "headers"
  · simp only [if_neg c1, if_neg c2, if_pos c3] at h ⊢
    cases h1 : ReadMapSize p with
    | error e => simp [h1] at h
    | ok res =>
      obtain ⟨n, d⟩ := res
      simp only [h1] at h
      rw [ReadMapSize_stable p t d n h1]
      simp only []
      cases h2 : readMapEntries n [] d with
      | mk m r =>
        cases r with
        | error e => simp [h2] at h
        | ok d2 =>
          simp only [h2, Prod.mk.injEq, Except.ok.injEq] at h
          rw [readMapEntries_stable n [] m d t d2 h2]
          simp only [Prod.mk.injEq, Except.ok.injEq]
          exact ⟨h.1, by rw [h.2]⟩
  by_cases c4 : k = str "body"
  · simp only [if_neg c1, if_neg c2, if_neg c3, if_pos c4] at h ⊢
    cases h1 : ReadByteArray p with
    | error e => simp [h1] at h
    | ok res =>
      obtain ⟨v, d⟩ := res
      simp only [h1, Prod.mk.injEq, Except.ok.injEq] at h
      rw [ReadByteArray_stable p t d v h1]
      simp only [Prod.mk.injEq, Except.ok.injEq]
      exact ⟨h.1, by rw [h.2]⟩
  simp only [if_neg c1, if_neg c2, if_neg c3, if_neg c4] at h ⊢
  cases h1 : Skip p with
  | error e => simp [h1] at h
  | ok d =>
    simp only [h1, Prod.mk.injEq, Except.ok.injEq] at h
    rw [Skip_stable p t d h1]
    simp only [Prod.mk.injEq, Except.ok.injEq]
    exact ⟨h.1, by rw [h.2]⟩

theorem Decode_stable_RequestArgs (o o1 : RequestArgs) (p t rest : Decoder)
    (h : RequestArgs.Decode o p = (o1, .ok rest)) :
    RequestArgs.Decode o (p ++ t) = (o1, .ok (rest ++ t)) := by
  unfold RequestArgs.Decode at h ⊢
  cases h1 : ReadMapSize p with
  | error e => simp [h1] at h
  | ok res =>
    obtain ⟨n, d⟩ := res
    simp only [h1] at h
    rw [ReadMapSize_stable p t d n h1]
    exact decodeLoop_stable _ switchField_stable_RequestArgs n o o1 d t rest h

theorem switchField_stable_Response (o : Response) (k : Bytes) (p t : Decoder) (o1 : Response)
    (rest : Decoder) (h : Response.switchField o k p = (o1, .ok rest)) :
    Response.switchField o k (p ++ t) = (o1, .ok (rest ++ t)) := by
  unfold Response.switchField at h ⊢
  by_cases c1 : k = str "statusCode"
  · simp only [if_pos c1] at h ⊢
    cases h1 : ReadUint32 p with
    | error e => simp [h1] at h
    | ok res =>
      obtain ⟨v, d⟩ := res
      simp only [h1, Prod.mk.injEq, Except.ok.injEq] at h
      rw [ReadUint32_stable p t d v h1]
      simp only [Prod.mk.injEq, Except.ok.injEq]
      exact ⟨h.1, by rw [h.2]⟩
  by_cases c2 : k = str "status"
  · simp only [if_neg c1, if_pos c2] at h ⊢
    cases h1 : ReadString p with
    | error e => simp [h1] at h
    | ok res =>
      obtain ⟨v, d⟩ := res
      simp only [h1, Prod.mk.injEq, Except.ok.injEq] at h
      rw [ReadString_stable p t d v h1]
      simp only [Prod.mk.injEq, Except.ok.injEq]
      exact ⟨h.1, by rw [h.2]⟩
  by_cases c3 : k = str "header"
  · simp only [if_neg c1, if_neg c2, if_pos c3] at h ⊢
    cases h1 : ReadMapSize p with
    | error e => simp [h1] at h
    | ok res =>
      obtain ⟨n, d⟩ := res
      simp only [h1] at h
      rw [ReadMapSize_stable p t d n h1]
      simp only []
      cases h2 : readMapEntries n [] d with
      | mk m r =>
        cases r with
        | error e => simp [h2] at h
        | ok d2 =>
          simp only [h2, Prod.mk.injEq, Except.ok.injEq] at h
          rw [readMapEntries_stable n [] m d t d2 h2]
          simp only [Prod.mk.injEq, Except.ok.injEq]
          exact ⟨h.1, by rw [h.2]⟩
  by_cases c4 : k = str "body"
  · simp only [if_neg c1, if_neg c2, if_neg c3, if_pos c4] at h ⊢
    cases h1 : ReadByteArray p with
    | error e => simp [h1] at h
    | ok res =>
      obtain ⟨v, d⟩ := res
      simp only [h1, Prod.mk.injEq, Except.ok.injEq] at h
      rw [ReadByteArray_stable p t d v h1]
      simp only [Prod.mk.injEq, Except.ok.injEq]
      exact ⟨h.1, by rw [h.2]⟩
  simp only [if_neg c1, if_neg c2, if_neg c3, if_neg c4] at h ⊢
  cases h1 : Skip p with
  | error e => simp [h1] at h
  | ok d =>
    simp only [h1, Prod.mk.injEq, Except.ok.injEq] at h
    rw [Skip_stable p t d h1]
    simp only [Prod.mk.injEq, Except.ok.injEq]
    exact ⟨h.1, by rw [h.2]⟩

theorem Decode_stable_Response (o o1 : Response) (p t rest : Decoder)
    (h : Response.Decode o p = (o1, .ok rest)) :
    Response.Decode o (p ++ t) = (o1, .ok (rest ++ t)) := by
  unfold Response.Decode at h ⊢
  cases h1 : ReadMapSize p with
  | error e => simp [h1] at h
  | ok res =>
    obtain ⟨n, d⟩ := res
    simp only [h1] at h
    rw [ReadMapSize_stable p t d n h1]
    exact decodeLoop_stable _ switchField_stable_Response n o o1 d t rest h

/-- A decode that ends exactly at the end of a buffer fails on every strict
prefix of the buffer. -/
theorem prefix_fails {α : Type} (dec : Decoder → Decoded α)
    (hst : ∀ p t o1 rest, dec p = (o1, .ok rest) → dec (p ++ t) = (o1, .ok (rest ++ t)))
    (full : Bytes) (o : α) (hfull : dec full = (o, .ok []))
    (p t : Bytes) (hp : full = p ++ t) (ht : t ≠ []) :
    ∃ e, (dec p).2 = .error e := by
  cases h : dec p with
  | mk o1 r =>
    cases r with
    | error e => exact ⟨e, rfl⟩
    | ok rest =>
      have h2 := hst p t o1 rest h
      rw [← hp, hfull] at h2
      simp only [Prod.mk.injEq, Except.ok.injEq] at h2
      have : rest ++ t = [] := h2.2.symm
      simp at this
      exact absurd this.2 ht

/-! ## The effect of the entries of a record -/

theorem strPairs_map (m : GoMap) :
    MsgVal.strPairs (m.map (fun kv => (MsgVal.str kv.1, MsgVal.str kv.2))) = some m := by
  induction m with
  | nil => rfl
  | cons kv m ih => simp [MsgVal.strPairs, MsgVal.asStr, ih]

theorem GoMap.set_new (acc : GoMap) (k v : Bytes) (h : k ∉ acc.map Prod.fst) :
    GoMap.set acc k v = acc ++ [(k, v)] := by
  induction acc with
  | nil => rfl
  | cons kv acc ih =>
    obtain ⟨k0, v0⟩ := kv
    simp only [List.map_cons, List.mem_cons, not_or] at h
    have hne : ¬ k0 = k := fun e => h.1 e.symm
    simp [GoMap.set, hne, ih h.2]

theorem GoMap.insertAll_nodup (m : GoMap) :
    ∀ acc : GoMap, ((acc ++ m).map Prod.fst).Nodup → GoMap.insertAll acc m = acc ++ m := by
  induction m with
  | nil => intro acc _; simp [GoMap.insertAll]
  | cons kv m ih =>
    intro acc h
    have hk : kv.1 ∉ acc.map Prod.fst := by
      simp only [List.map_append, List.map_cons] at h
      have := List.nodup_append.1 h
      intro hmem
      exact this.2.2 hmem (List.mem_cons_self _ _) 
    have h2 : (((acc ++ [kv]) ++ m).map Prod.fst).Nodup := by simpa using h
    have := ih (acc ++ [kv]) h2
    simp only [GoMap.insertAll, List.foldl_cons] at this ⊢
    rw [GoMap.set_new acc kv.1 kv.2 hk]
    simpa using this

theorem asStrMap_toMsg (m : GoMap) (h : GoMap.wf m) :
    MsgVal.asStrMap (GoMap.toMsg m) = some m := by
  simp [MsgVal.asStrMap, GoMap.toMsg, strPairs_map,
    GoMap.insertAll_nodup m [] (by simpa using h.2.2)]

theorem wfPairs_map (m : GoMap)
    (h : ∀ kv ∈ m, kv.1.length < 4294967296 ∧ kv.2.length < 4294967296) :
    MsgVal.wfPairs (m.map (fun kv => (MsgVal.str kv.1, MsgVal.str kv.2))) = true := by
  induction m with
  | nil => rfl
  | cons kv m ih =>
    have hkv := h kv (List.mem_cons_self _ _)
    simp [MsgVal.wfPairs, MsgVal.wf, hkv.1, hkv.2, ih (fun x hx => h x (List.mem_cons_of_mem _ hx))]

theorem wf_toMsg (m : GoMap) (h : GoMap.wf m) : MsgVal.wf (GoMap.toMsg m) = true := by
  simp [GoMap.toMsg, MsgVal.wf, h.1, wfPairs_map m h.2.1]

theorem WireEntries.wf_of_forall (es : WireEntries)
    (h : ∀ e ∈ es, e.1.length < 4294967296 ∧ MsgVal.wf e.2 = true) :
    WireEntries.wf es = true := by
  induction es with
  | nil => rfl
  | cons e es ih =>
    obtain ⟨k, v⟩ := e
    have he := h (k, v) (List.mem_cons_self _ _)
    simp [WireEntries.wf, he.1, he.2, ih (fun x hx => h x (List.mem_cons_of_mem _ hx))]

theorem entries_wf_CapabilityConfiguration (r : CapabilityConfiguration)
    (hr : CapabilityConfiguration.wf r) :
    ∀ e ∈ CapabilityConfiguration.entries r, e.1.length < 4294967296 ∧ MsgVal.wf e.2 = true := by
  obtain ⟨hm, hv⟩ := hr
  intro e he
  simp only [CapabilityConfiguration.entries, List.mem_cons, List.mem_singleton, List.not_mem_nil,
    or_false] at he
  rcases he with rfl | rfl
  · refine ⟨?_, ?_⟩
    · show List.length (str "module") < 4294967296
      decide
    · simpa [MsgVal.wf] using hm
  · refine ⟨?_, ?_⟩
    · show List.length (str "values") < 4294967296
      decide
    · exact wf_toMsg _ hv

theorem foldPut_entries_CapabilityConfiguration (r : CapabilityConfiguration)
    (hr : CapabilityConfiguration.wf r) :
    ∀ (es : WireEntries) (o : CapabilityConfiguration), (∀ e ∈ es, e ∈ CapabilityConfiguration.entries r) →
      foldPut CapabilityConfiguration.put o es = some
        { Module := if str "module" ∈ es.map Prod.fst then r.Module else o.Module,
          Values := if str "values" ∈ es.map Prod.fst then some (entriesOf r.Values) else o.Values } := by
  obtain ⟨hm, hv⟩ := hr
  have n_module_values : ¬ str "module" = str "values" := by decide
  have n_values_module : ¬ str "values" = str "module" := by decide
  intro es
  induction es with
  | nil => intro o _; simp [foldPut]
  | cons e es ih =>
    intro o h
    have he := h e (List.mem_cons_self _ _)
    have ih2 := fun o1 => ih o1 (fun x hx => h x (List.mem_cons_of_mem _ hx))
    simp only [CapabilityConfiguration.entries, List.mem_cons, List.mem_singleton,
      List.not_mem_nil, or_false] at he
    rcases he with rfl | rfl
    · simp only [foldPut, CapabilityConfiguration.put, if_true, if_false, Option.map_some', ih2,
        List.map_cons, List.mem_cons, true_or, false_or, ite_self, n_module_values,
        n_values_module, MsgVal.asStr]
    · simp only [foldPut, CapabilityConfiguration.put, if_true, if_false, Option.map_some', ih2,
        List.map_cons, List.mem_cons, true_or, false_or, ite_self, n_module_values,
        n_values_module, asStrMap_toMsg _ hv]

theorem entries_wf_HealthCheckRequest (r : HealthCheckRequest) :
    ∀ e ∈ HealthCheckRequest.entries r, e.1.length < 4294967296 ∧ MsgVal.wf e.2 = true := by
  intro e he
  simp only [HealthCheckRequest.entries, List.mem_cons, List.mem_singleton, List.not_mem_nil,
    or_false] at he
  subst he
  refine ⟨?_, ?_⟩
  · show List.length (str "placeholder") < 4294967296
    decide
  · exact rfl

theorem foldPut_entries_HealthCheckRequest (r : HealthCheckRequest) :
    ∀ (es : WireEntries) (o : HealthCheckRequest), (∀ e ∈ es, e ∈ HealthCheckRequest.entries r) →
      foldPut HealthCheckRequest.put o es = some
        { Placeholder := if str "placeholder" ∈ es.map Prod.fst then r.Placeholder else o.Placeholder } := by
  intro es
  induction es with
  | nil => intro o _; simp [foldPut]
  | cons e es ih =>
    intro o h
    have he := h e (List.mem_cons_self _ _)
    have ih2 := fun o1 => ih o1 (fun x hx => h x (List.mem_cons_of_mem _ hx))
    simp only [HealthCheckRequest.entries, List.mem_cons, List.mem_singleton, List.not_mem_nil,
      or_false] at he
    subst he
    simp only [foldPut, HealthCheckRequest.put, if_true, if_false, Option.map_some', ih2,
      List.map_cons, List.mem_cons, true_or, false_or, ite_self, MsgVal.asBool]

theorem entries_wf_HealthCheckResponse (r : HealthCheckResponse) (hr : HealthCheckResponse.wf r) :
    ∀ e ∈ HealthCheckResponse.entries r, e.1.length < 4294967296 ∧ MsgVal.wf e.2 = true := by
  have hm : r.Message.length < 4294967296 := hr
  intro e he
  simp only [HealthCheckResponse.entries, List.mem_cons, List.mem_singleton, List.not_mem_nil,
    or_false] at he
  rcases he with rfl | rfl
  · refine ⟨?_, ?_⟩
    · show List.length (str "healthy") < 4294967296
      decide
    · exact rfl
  · refine ⟨?_, ?_⟩
    · show List.length (str "message") < 4294967296
      decide
    · simpa [MsgVal.wf] using hm

theorem foldPut_entries_HealthCheckResponse (r : HealthCheckResponse) :
    ∀ (es : WireEntries) (o : HealthCheckResponse), (∀ e ∈ es, e ∈ HealthCheckResponse.entries r) →
      foldPut HealthCheckResponse.put o es = some
        { Healthy := if str "healthy" ∈ es.map Prod.fst then r.Healthy else o.Healthy,
          Message := if str "message" ∈ es.map Prod.fst then r.Message else o.Message } := by
  have n_healthy_message : ¬ str "healthy" = str "message" := by decide
  have n_message_healthy : ¬ str "message" = str "healthy" := by decide
  intro es
  induction es with
  | nil => intro o _; simp [foldPut]
  | cons e es ih =>
    intro o h
    have he := h e (List.mem_cons_self _ _)
    have ih2 := fun o1 => ih o1 (fun x hx => h x (List.mem_cons_of_mem _ hx))
    simp only [HealthCheckResponse.entries, List.mem_cons, List.mem_singleton, List.not_mem_nil,
      or_false] at he
    rcases he with rfl | rfl
    · simp only [foldPut, HealthCheckResponse.put, if_true, if_false, Option.map_some', ih2,
        List.map_cons, List.mem_cons, true_or, false_or, ite_self, n_healthy_message,
        n_message_healthy, MsgVal.asBool]
    · simp only [foldPut, HealthCheckResponse.put, if_true, if_false, Option.map_some', ih2,
        List.map_cons, List.mem_cons, true_or, false_or, ite_self, n_healthy_message,
        n_message_healthy, MsgVal.asStr]

theorem entries_wf_RequestArgs (r : RequestArgs) (hr : RequestArgs.wf r) :
    ∀ e ∈ RequestArgs.entries r, e.1.length < 4294967296 ∧ MsgVal.wf e.2 = true := by
  obtain ⟨hm, hu, hh, hb⟩ := hr
  intro e he
  simp only [RequestArgs.entries, List.mem_cons, List.mem_singleton, List.not_mem_nil,
    or_false] at he
  rcases he with rfl | rfl | rfl | rfl
  · refine ⟨?_, ?_⟩
    · show List.length (str "method") < 4294967296
      decide
    · simpa [MsgVal.wf] using hm
  · refine ⟨?_, ?_⟩
    · show List.length (str "url") < 4294967296
      decide
    · simpa [MsgVal.wf] using hu
  · refine ⟨?_, ?_⟩
    · show List.length (str "headers") < 4294967296
      decide
    · exact wf_toMsg _ hh
  · refine ⟨?_, ?_⟩
    · show List.length (str "body") < 4294967296
      decide
    · simpa [MsgVal.wf] using hb

theorem foldPut_entries_RequestArgs (r : RequestArgs) (hr : RequestArgs.wf r) :
    ∀ (es : WireEntries) (o : RequestArgs), (∀ e ∈ es, e ∈ RequestArgs.entries r) →
      foldPut RequestArgs.put o es = some
        { Method := if str "method" ∈ es.map Prod.fst then r.Method else o.Method,
          Url := if str "url" ∈ es.map Prod.fst then r.Url else o.Url,
          Headers := if str "headers" ∈ es.map Prod.fst then some (entriesOf r.Headers) else o.Headers,
          Body := if str "body" ∈ es.map Prod.fst then some (bytesOf r.Body) else o.Body } := by
  obtain ⟨hm, hu, hh, hb⟩ := hr
  have n_method_url : ¬ str "method" = str "url" := by decide
  have n_method_headers : ¬ str "method" = str "headers" := by decide
  have n_method_body : ¬ str "method" = str "body" := by decide
  have n_url_method : ¬ str "url" = str "method" := by decide
  have n_url_headers : ¬ str "url" = str "headers" := by decide
  have n_url_body : ¬ str "url" = str "body" := by decide
  have n_headers_method : ¬ str "headers" = str "method" := by decide
  have n_headers_url : ¬ str "headers" = str "url" := by decide
  have n_headers_body : ¬ str "headers" = str "body" := by decide
  have n_body_method : ¬ str "body" = str "method" := by decide
  have n_body_url : ¬ str "body" = str "url" := by decide
  have n_body_headers : ¬ str "body" = str "headers" := by decide
  intro es
  induction es with
  | nil => intro o _; simp [foldPut]
  | cons e es ih =>
    intro o h
    have he := h e (List.mem_cons_self _ _)
    have ih2 := fun o1 => ih o1 (fun x hx => h x (List.mem_cons_of_mem _ hx))
    simp only [RequestArgs.entries, List.mem_cons, List.mem_singleton, List.not_mem_nil,
      or_false] at he
    rcases he with rfl | rfl | rfl | rfl
    · simp only [foldPut, RequestArgs.put, if_true, if_false, Option.map_some', ih2, List.map_cons,
        List.mem_cons, true_or, false_or, ite_self, n_method_url, n_method_headers, n_method_body,
        n_url_method, n_url_headers, n_url_body, n_headers_method, n_headers_url, n_headers_body,
        n_body_method, n_body_url, n_body_headers, MsgVal.asStr]
    · simp only [foldPut, RequestArgs.put, if_true, if_false, Option.map_some', ih2, List.map_cons,
        List.mem_cons, true_or, false_or, ite_self, n_method_url, n_method_headers, n_method_body,
        n_url_method, n_url_headers, n_url_body, n_headers_method, n_headers_url, n_headers_body,
        n_body_method, n_body_url, n_body_headers, MsgVal.asStr]
    · simp only [foldPut, RequestArgs.put, if_true, if_false, Option.map_some', ih2, List.map_cons,
        List.mem_cons, true_or, false_or, ite_self, n_method_url, n_method_headers, n_method_body,
        n_url_method, n_url_headers, n_url_body, n_headers_method, n_headers_url, n_headers_body,
        n_body_method, n_body_url, n_body_headers, asStrMap_toMsg _ hh]
    · simp only [foldPut, RequestArgs.put, if_true, if_false, Option.map_some', ih2, List.map_cons,
        List.mem_cons, true_or, false_or, ite_self, n_method_url, n_method_headers, n_method_body,
        n_url_method, n_url_headers, n_url_body, n_headers_method, n_headers_url, n_headers_body,
        n_body_method, n_body_url, n_body_headers, MsgVal.asBin]

theorem entries_wf_Response (r : Response) (hr : Response.wf r) :
    ∀ e ∈ Response.entries r, e.1.length < 4294967296 ∧ MsgVal.wf e.2 = true := by
  obtain ⟨hc, hs, hh, hb⟩ := hr
  intro e he
  simp only [Response.entries, List.mem_cons, List.mem_singleton, List.not_mem_nil, or_false] at he
  rcases he with rfl | rfl | rfl | rfl
  · refine ⟨?_, ?_⟩
    · show List.length (str "statusCode") < 4294967296
      decide
    · simp only [MsgVal.wf, decide_eq_true_eq]
      omega
  · refine ⟨?_, ?_⟩
    · show List.length (str "status") < 4294967296
      decide
    · simpa [MsgVal.wf] using hs
  · refine ⟨?_, ?_⟩
    · show List.length (str "header") < 4294967296
      decide
    · exact wf_toMsg _ hh
  · refine ⟨?_, ?_⟩
    · show List.length (str "body") < 4294967296
      decide
    · simpa [MsgVal.wf] using hb

theorem foldPut_entries_Response (r : Response) (hr : Response.wf r) :
    ∀ (es : WireEntries) (o : Response), (∀ e ∈ es, e ∈ Response.entries r) →
      foldPut Response.put o es = some
        { StatusCode := if str "statusCode" ∈ es.map Prod.fst then r.StatusCode else o.StatusCode,
          Status := if str "status" ∈ es.map Prod.fst then r.Status else o.Status,
          Header := if str "header" ∈ es.map Prod.fst then some (entriesOf r.Header) else o.Header,
          Body := if str "body" ∈ es.map Prod.fst then some (bytesOf r.Body) else o.Body } := by
  obtain ⟨hc, hs, hh, hb⟩ := hr
  have n_statusCode_status : ¬ str "statusCode" = str "status" := by decide
  have n_statusCode_header : ¬ str "statusCode" = str "header" := by decide
  have n_statusCode_body : ¬ str "statusCode" = str "body" := by decide
  have n_status_statusCode : ¬ str "status" = str "statusCode" := by decide
  have n_status_header : ¬ str "status" = str "header" := by decide
  have n_status_body : ¬ str "status" = str "body" := by decide
  have n_header_statusCode : ¬ str "header" = str "statusCode" := by decide
  have n_header_status : ¬ str "header" = str "status" := by decide
  have n_header_body : ¬ str "header" = str "body" := by decide
  have n_body_statusCode : ¬ str "body" = str "statusCode" := by decide
  have n_body_status : ¬ str "body" = str "status" := by decide
  have n_body_header : ¬ str "body" = str "header" := by decide
  intro es
  induction es with
  | nil => intro o _; simp [foldPut]
  | cons e es ih =>
    intro o h
    have he := h e (List.mem_cons_self _ _)
    have ih2 := fun o1 => ih o1 (fun x hx => h x (List.mem_cons_of_mem _ hx))
    simp only [Response.entries, List.mem_cons, List.mem_singleton, List.not_mem_nil,
      or_false] at he
    rcases he with rfl | rfl | rfl | rfl
    · simp only [foldPut, Response.put, if_true, if_false, Option.map_some', ih2, List.map_cons,
        List.mem_cons, true_or, false_or, ite_self, n_statusCode_status, n_statusCode_header,
        n_statusCode_body, n_status_statusCode, n_status_header, n_status_body,
        n_header_statusCode, n_header_status, n_header_body, n_body_statusCode, n_body_status,
        n_body_header, MsgVal.asUint32, if_pos hc]
    · simp only [foldPut, Response.put, if_true, if_false, Option.map_some', ih2, List.map_cons,
        List.mem_cons, true_or, false_or, ite_self, n_statusCode_status, n_statusCode_header,
        n_statusCode_body, n_status_statusCode, n_status_header, n_status_body,
        n_header_statusCode, n_header_status, n_header_body, n_body_statusCode, n_body_status,
        n_body_header, MsgVal.asStr]
    · simp only [foldPut, Response.put, if_true, if_false, Option.map_some', ih2, List.map_cons,
        List.mem_cons, true_or, false_or, ite_self, n_statusCode_status, n_statusCode_header,
        n_statusCode_body, n_status_statusCode, n_status_header, n_status_body,
        n_header_statusCode, n_header_status, n_header_body, n_body_statusCode, n_body_status,
        n_body_header, asStrMap_toMsg _ hh]
    · simp only [foldPut, Response.put, if_true, if_false, Option.map_some', ih2, List.map_cons,
        List.mem_cons, true_or, false_or, ite_self, n_statusCode_status, n_statusCode_header,
        n_statusCode_body, n_status_statusCode, n_status_header, n_status_body,
        n_header_statusCode, n_header_status, n_header_body, n_body_statusCode, n_body_status,
        n_body_header, MsgVal.asBin]

theorem Decode_subset_CapabilityConfiguration (r : CapabilityConfiguration)
    (hr : CapabilityConfiguration.wf r) (es : WireEntries)
    (o : CapabilityConfiguration) (d : Decoder) (hsub : ∀ e ∈ es, e ∈ CapabilityConfiguration.entries r)
    (hl : es.length < 4294967296) :
    CapabilityConfiguration.Decode o (WireEntries.encode es ++ d) =
      ({ Module := if str "module" ∈ es.map Prod.fst then r.Module else o.Module,
          Values := if str "values" ∈ es.map Prod.fst then some (entriesOf r.Values) else o.Values }, .ok d) := by
  have := Decode_foldPut_CapabilityConfiguration es o d
    (WireEntries.wf_of_forall es (fun e he => entries_wf_CapabilityConfiguration r hr e (hsub e he))) hl
  rw [foldPut_entries_CapabilityConfiguration r hr es o hsub, Agrees_some] at this
  exact this

theorem Decode_subset_HealthCheckRequest (r : HealthCheckRequest) (es : WireEntries)
    (o : HealthCheckRequest) (d : Decoder) (hsub : ∀ e ∈ es, e ∈ HealthCheckRequest.entries r)
    (hl : es.length < 4294967296) :
    HealthCheckRequest.Decode o (WireEntries.encode es ++ d) =
      ({ Placeholder := if str "placeholder" ∈ es.map Prod.fst then r.Placeholder else o.Placeholder }, .ok d) := by
  have := Decode_foldPut_HealthCheckRequest es o d
    (WireEntries.wf_of_forall es (fun e he => entries_wf_HealthCheckRequest r e (hsub e he))) hl
  rw [foldPut_entries_HealthCheckRequest r es o hsub, Agrees_some] at this
  exact this

theorem Decode_subset_HealthCheckResponse (r : HealthCheckResponse) (hr : HealthCheckResponse.wf r)
    (es : WireEntries)
    (o : HealthCheckResponse) (d : Decoder) (hsub : ∀ e ∈ es, e ∈ HealthCheckResponse.entries r)
    (hl : es.length < 4294967296) :
    HealthCheckResponse.Decode o (WireEntries.encode es ++ d) =
      ({ Healthy := if str "healthy" ∈ es.map Prod.fst then r.Healthy else o.Healthy,
          Message := if str "message" ∈ es.map Prod.fst then r.Message else o.Message }, .ok d) := by
  have := Decode_foldPut_HealthCheckResponse es o d
    (WireEntries.wf_of_forall es (fun e he => entries_wf_HealthCheckResponse r hr e (hsub e he))) hl
  rw [foldPut_entries_HealthCheckResponse r es o hsub, Agrees_some] at this
  exact this

theorem Decode_subset_RequestArgs (r : RequestArgs) (hr : RequestArgs.wf r) (es : WireEntries)
    (o : RequestArgs) (d : Decoder) (hsub : ∀ e ∈ es, e ∈ RequestArgs.entries r)
    (hl : es.length < 4294967296) :
    RequestArgs.Decode o (WireEntries.encode es ++ d) =
      ({ Method := if str "method" ∈ es.map Prod.fst then r.Method else o.Method,
          Url := if str "url" ∈ es.map Prod.fst then r.Url else o.Url,
          Headers := if str "headers" ∈ es.map Prod.fst then some (entriesOf r.Headers) else o.Headers,
          Body := if str "body" ∈ es.map Prod.fst then some (bytesOf r.Body) else o.Body }, .ok d) := by
  have := Decode_foldPut_RequestArgs es o d
    (WireEntries.wf_of_forall es (fun e he => entries_wf_RequestArgs r hr e (hsub e he))) hl
  rw [foldPut_entries_RequestArgs r hr es o hsub, Agrees_some] at this
  exact this

theorem Decode_subset_Response (r : Response) (hr : Response.wf r) (es : WireEntries)
    (o : Response) (d : Decoder) (hsub : ∀ e ∈ es, e ∈ Response.entries r)
    (hl : es.length < 4294967296) :
    Response.Decode o (WireEntries.encode es ++ d) =
      ({ StatusCode := if str "statusCode" ∈ es.map Prod.fst then r.StatusCode else o.StatusCode,
          Status := if str "status" ∈ es.map Prod.fst then r.Status else o.Status,
          Header := if str "header" ∈ es.map Prod.fst then some (entriesOf r.Header) else o.Header,
          Body := if str "body" ∈ es.map Prod.fst then some (bytesOf r.Body) else o.Body }, .ok d) := by
  have := Decode_foldPut_Response es o d
    (WireEntries.wf_of_forall es (fun e he => entries_wf_Response r hr e (hsub e he))) hl
  rw [foldPut_entries_Response r hr es o hsub, Agrees_some] at this
  exact this

theorem Decode_Encode_CapabilityConfiguration (r : CapabilityConfiguration)
    (hr : CapabilityConfiguration.wf r) (d : Decoder) :
    CapabilityConfiguration.Decode {} (CapabilityConfiguration.Encode (some r) [] ++ d)
      = (CapabilityConfiguration.norm r, .ok d) := by
  have := Decode_subset_CapabilityConfiguration r hr (CapabilityConfiguration.entries r) {} d
    (fun _ h => h) (by simp [CapabilityConfiguration.entries])
  rw [Encode_entries_CapabilityConfiguration r [] hr]
  simpa [CapabilityConfiguration.entries, CapabilityConfiguration.norm] using this

theorem Decode_Encode_HealthCheckRequest (r : HealthCheckRequest) (d : Decoder) :
    HealthCheckRequest.Decode {} (HealthCheckRequest.Encode (some r) [] ++ d) = (r, .ok d) := by
  have := Decode_subset_HealthCheckRequest r (HealthCheckRequest.entries r) {} d
    (fun _ h => h) (by simp [HealthCheckRequest.entries])
  rw [Encode_entries_HealthCheckRequest r []]
  simpa [HealthCheckRequest.entries] using this

theorem Decode_Encode_HealthCheckResponse (r : HealthCheckResponse)
    (hr : HealthCheckResponse.wf r) (d : Decoder) :
    HealthCheckResponse.Decode {} (HealthCheckResponse.Encode (some r) [] ++ d)
      = (r, .ok d) := by
  have := Decode_subset_HealthCheckResponse r hr (HealthCheckResponse.entries r) {} d
    (fun _ h => h) (by simp [HealthCheckResponse.entries])
  rw [Encode_entries_HealthCheckResponse r [] hr]
  simpa [HealthCheckResponse.entries] using this

theorem Decode_Encode_RequestArgs (r : RequestArgs) (hr : RequestArgs.wf r) (d : Decoder) :
    RequestArgs.Decode {} (RequestArgs.Encode (some r) [] ++ d)
      = (RequestArgs.norm r, .ok d) := by
  have := Decode_subset_RequestArgs r hr (RequestArgs.entries r) {} d
    (fun _ h => h) (by simp [RequestArgs.entries])
  rw [Encode_entries_RequestArgs r [] hr]
  simpa [RequestArgs.entries, RequestArgs.norm] using this

theorem Decode_Encode_Response (r : Response) (hr : Response.wf r) (d : Decoder) :
    Response.Decode {} (Response.Encode (some r) [] ++ d) = (Response.norm r, .ok d) := by
  have := Decode_subset_Response r hr (Response.entries r) {} d
    (fun _ h => h) (by simp [Response.entries])
  rw [Encode_entries_Response r [] hr]
  simpa [Response.entries, Response.norm] using this

/-! ## Round trip -/

/-- C1: for each of the five record types and every record the codec can carry
(lengths within 32 bits, a `uint32` status code, distinct map keys), decoding
the bytes that `Encode` writes returns no error, consumes all the bytes, and
returns the record itself, a nil map or blob being counted as the empty
one. -/
theorem decode_encode_roundtrip (a : CapabilityConfiguration) (b : HealthCheckRequest)
    (c : HealthCheckResponse) (q : RequestArgs) (p : Response)
    (ha : CapabilityConfiguration.wf a) (hc : HealthCheckResponse.wf c)
    (hq : RequestArgs.wf q) (hp : Response.wf p) :
    DecodeCapabilityConfiguration (NewDecoder (CapabilityConfiguration.Encode (some a) []))
        = (CapabilityConfiguration.norm a, .ok []) ∧
      DecodeHealthCheckRequest (NewDecoder (HealthCheckRequest.Encode (some b) []))
        = (b, .ok []) ∧
      DecodeHealthCheckResponse (NewDecoder (HealthCheckResponse.Encode (some c) []))
        = (c, .ok []) ∧
      DecodeRequestArgs (NewDecoder (RequestArgs.Encode (some q) []))
        = (RequestArgs.norm q, .ok []) ∧
      DecodeResponse (NewDecoder (Response.Encode (some p) []))
        = (Response.norm p, .ok []) := by
  refine ⟨?_, ?_, ?_, ?_, ?_⟩
  · simpa [DecodeCapabilityConfiguration, NewDecoder]
      using Decode_Encode_CapabilityConfiguration a ha []
  · simpa [DecodeHealthCheckRequest, NewDecoder] using Decode_Encode_HealthCheckRequest b []
  · simpa [DecodeHealthCheckResponse, NewDecoder]
      using Decode_Encode_HealthCheckResponse c hc []
  · simpa [DecodeRequestArgs, NewDecoder] using Decode_Encode_RequestArgs q hq []
  · simpa [DecodeResponse, NewDecoder] using Decode_Encode_Response p hp []

/-- Witness of C1: a configuration with one map entry, a request, a response
with a message, request arguments with a nil map and an empty blob, and a
response with a three-byte status code and a nil blob. -/
theorem decode_encode_roundtrip_witness :
    DecodeCapabilityConfiguration (NewDecoder (CapabilityConfiguration.Encode
        (some { Module := [109], Values := some [([107], [118])] }) []))
        = (CapabilityConfiguration.norm { Module := [109], Values := some [([107], [118])] },
            .ok []) ∧
      DecodeHealthCheckRequest (NewDecoder (HealthCheckRequest.Encode
        (some { Placeholder := true }) [])) = ({ Placeholder := true }, .ok []) ∧
      DecodeHealthCheckResponse (NewDecoder (HealthCheckResponse.Encode
        (some { Healthy := true, Message := [111, 107] }) []))
        = ({ Healthy := true, Message := [111, 107] }, .ok []) ∧
      DecodeRequestArgs (NewDecoder (RequestArgs.Encode
        (some { Method := [71, 69, 84], Url := [120], Headers := none, Body := some [] }) []))
        = (RequestArgs.norm
            { Method := [71, 69, 84], Url := [120], Headers := none, Body := some [] }, .ok []) ∧
      DecodeResponse (NewDecoder (Response.Encode
        (some { StatusCode := 70000, Status := [79, 75], Header := some [], Body := none }) []))
        = (Response.norm
            { StatusCode := 70000, Status := [79, 75], Header := some [], Body := none },
            .ok []) :=
  decode_encode_roundtrip _ _ _ _ _ (by decide) (by decide) (by decide) (by decide)

/-! ## Call wrappers and decode errors -/

/-- C2, evaluated on the code: on the empty payload `Decode` of the argument
record fails with a short read, and yet `HealthRequestWrapper` invokes the
handler, with the zero-valued request, and returns the handler's response with
a nil error.  `RequestWrapper` does the same on a payload that announces two
fields and stops after the first: the handler is invoked with the fields read
before the error. -/
theorem wrappers_drop_decode_error :
    (HealthCheckRequest.Decode {} (NewDecoder [])).2 = .error .shortRead ∧
      HealthRequestWrapper (fun _ => ({ Healthy := true, Message := [111, 107] }, none)) []
        = { bytes := some (HealthCheckResponse.Encode
              (some { Healthy := true, Message := [111, 107] }) []),
            err := none, calls := [{ Placeholder := false }] } ∧
      (RequestArgs.Decode {}
          (NewDecoder [0x82, 0xa6, 109, 101, 116, 104, 111, 100, 0xa3, 71, 69, 84])).2
        = .error .shortRead ∧
      RequestWrapper (fun _ => ({ StatusCode := 200 }, none))
          [0x82, 0xa6, 109, 101, 116, 104, 111, 100, 0xa3, 71, 69, 84]
        = { bytes := some (Response.Encode (some { StatusCode := 200 }) []),
            err := none,
            calls := [{ method := [71, 69, 84], url := [], headers := none, body := none }] } := by
  refine ⟨?_, ?_, ?_, ?_⟩ <;> decide

/-! ## Unknown fields -/

theorem foldPut_known {α : Type} (put : α → Bytes → MsgVal → Option α) (names : List Bytes)
    (h : ∀ o k v, k ∉ names → put o k v = some o) :
    ∀ (es : WireEntries) (o : α),
      foldPut put o (WireEntries.known names es) = foldPut put o es := by
  intro es
  induction es with
  | nil => intro o; rfl
  | cons e es ih =>
    intro o
    obtain ⟨k, v⟩ := e
    by_cases hk : k ∈ names
    · simp only [WireEntries.known, List.filter_cons, hk, decide_True, if_true, foldPut]
      cases put o k v with
      | none => rfl
      | some o1 => exact ih o1
    · simp only [WireEntries.known, List.filter_cons, hk, decide_False, foldPut, h o k v hk]
      exact ih o

theorem wf_known (names : List Bytes) (es : WireEntries) (h : WireEntries.wf es = true) :
    WireEntries.wf (WireEntries.known names es) = true := by
  induction es with
  | nil => rfl
  | cons e es ih =>
    obtain ⟨k, v⟩ := e
    simp only [WireEntries.wf, Bool.and_eq_true, decide_eq_true_eq] at h
    by_cases hk : k ∈ names
    · simp only [WireEntries.known, List.filter_cons, hk, decide_True, if_true, WireEntries.wf,
        Bool.and_eq_true, decide_eq_true_eq]
      exact ⟨h.1, h.2.1, ih h.2.2⟩
    · simp only [WireEntries.known, List.filter_cons, hk, decide_False]
      exact ih h.2.2

theorem length_known (names : List Bytes) (es : WireEntries) :
    (WireEntries.known names es).length ≤ es.length :=
  List.length_filter_le _ _

theorem Agrees_ok {α : Type} (x : Option α) (r : α) (d : Decoder)
    (h : Agrees x (r, .ok d) d) : x = some r := by
  cases x with
  | none => simp [Agrees] at h
  | some o1 =>
    simp only [Agrees, Prod.mk.injEq, and_true] at h
    rw [h]

/-- Dropping the entries with undeclared keys does not change a successful
decode. -/
theorem decode_known {α : Type} (dec : α → Decoder → Decoded α)
    (put : α → Bytes → MsgVal → Option α) (names : List Bytes)
    (hdec : ∀ es o d, WireEntries.wf es = true → es.length < 4294967296 →
      Agrees (foldPut put o es) (dec o (WireEntries.encode es ++ d)) d)
    (hput : ∀ o k v, k ∉ names → put o k v = some o)
    (es : WireEntries) (o r : α) (d : Decoder) (hw : WireEntries.wf es = true)
    (hl : es.length < 4294967296)
    (h : dec o (WireEntries.encode (WireEntries.known names es) ++ d) = (r, .ok d)) :
    dec o (WireEntries.encode es ++ d) = (r, .ok d) := by
  have h1 := hdec (WireEntries.known names es) o d (wf_known names es hw)
    (Nat.lt_of_le_of_lt (length_known names es) hl)
  rw [h] at h1
  have h2 := Agrees_ok _ r d h1
  rw [foldPut_known put names hput es o] at h2
  have h3 := hdec es o d hw hl
  rw [h2, Agrees_some] at h3
  exact h3

theorem put_unknown_CapabilityConfiguration (o : CapabilityConfiguration) (k : Bytes)
    (v : MsgVal) (h : k ∉ CapabilityConfiguration.names) :
    CapabilityConfiguration.put o k v = some o := by
  simp only [CapabilityConfiguration.names, List.mem_cons, List.mem_singleton,
    List.not_mem_nil, or_false, not_or] at h
  simp [CapabilityConfiguration.put, h]

theorem put_unknown_HealthCheckRequest (o : HealthCheckRequest) (k : Bytes)
    (v : MsgVal) (h : k ∉ HealthCheckRequest.names) :
    HealthCheckRequest.put o k v = some o := by
  simp only [HealthCheckRequest.names, List.mem_cons, List.mem_singleton,
    List.not_mem_nil, or_false, not_or] at h
  simp [HealthCheckRequest.put, h]

theorem put_unknown_HealthCheckResponse (o : HealthCheckResponse) (k : Bytes)
    (v : MsgVal) (h : k ∉ HealthCheckResponse.names) :
    HealthCheckResponse.put o k v = some o := by
  simp only [HealthCheckResponse.names, List.mem_cons, List.mem_singleton,
    List.not_mem_nil, or_false, not_or] at h
  simp [HealthCheckResponse.put, h]

theorem put_unknown_RequestArgs (o : RequestArgs) (k : Bytes)
    (v : MsgVal) (h : k ∉ RequestArgs.names) : RequestArgs.put o k v = some o := by
  simp only [RequestArgs.names, List.mem_cons, List.mem_singleton,
    List.not_mem_nil, or_false, not_or] at h
  simp [RequestArgs.put, h]

theorem put_unknown_Response (o : Response) (k : Bytes)
    (v : MsgVal) (h : k ∉ Response.names) : Response.put o k v = some o := by
  simp only [Response.names, List.mem_cons, List.mem_singleton,
    List.not_mem_nil, or_false, not_or] at h
  simp [Response.put, h]

theorem known_eq_nil (names : List Bytes) (es : WireEntries) (h : ∀ e ∈ es, e.1 ∉ names) :
    WireEntries.known names es = [] := by
  simp only [WireEntries.known, List.filter_eq_nil_iff, decide_eq_true_eq]
  exact h

/-- C3: take any wire map with string keys and well-formed MessagePack values
(scalars, strings, blobs, nested arrays and maps), and the same map without
the entries whose key is not a declared field name.  For each record type,
when `Decode` of the map without the extra entries returns a record and no
error, `Decode` of the whole map returns the same record and no error, and
stops at the same place.  In particular a map that carries only undeclared
keys decodes to the all-default record. -/
theorem unknown_fields_tolerated (es : WireEntries) (d : Decoder)
    (hw : WireEntries.wf es = true) (hl : es.length < 4294967296) :
    (∀ r, DecodeCapabilityConfiguration
          (WireEntries.encode (WireEntries.known CapabilityConfiguration.names es) ++ d)
          = (r, .ok d) →
        DecodeCapabilityConfiguration (WireEntries.encode es ++ d) = (r, .ok d)) ∧
      (∀ r, DecodeHealthCheckRequest
          (WireEntries.encode (WireEntries.known HealthCheckRequest.names es) ++ d)
          = (r, .ok d) →
        DecodeHealthCheckRequest (WireEntries.encode es ++ d) = (r, .ok d)) ∧
      (∀ r, DecodeHealthCheckResponse
          (WireEntries.encode (WireEntries.known HealthCheckResponse.names es) ++ d)
          = (r, .ok d) →
        DecodeHealthCheckResponse (WireEntries.encode es ++ d) = (r, .ok d)) ∧
      (∀ r, DecodeRequestArgs
          (WireEntries.encode (WireEntries.known RequestArgs.names es) ++ d) = (r, .ok d) →
        DecodeRequestArgs (WireEntries.encode es ++ d) = (r, .ok d)) ∧
      (∀ r, DecodeResponse
          (WireEntries.encode (WireEntries.known Response.names es) ++ d) = (r, .ok d) →
        DecodeResponse (WireEntries.encode es ++ d) = (r, .ok d)) ∧
      ((∀ e ∈ es, e.1 ∉ CapabilityConfiguration.names) →
        DecodeCapabilityConfiguration (WireEntries.encode es ++ d) = ({}, .ok d)) ∧
      ((∀ e ∈ es, e.1 ∉ HealthCheckRequest.names) →
        DecodeHealthCheckRequest (WireEntries.encode es ++ d) = ({}, .ok d)) ∧
      ((∀ e ∈ es, e.1 ∉ HealthCheckResponse.names) →
        DecodeHealthCheckResponse (WireEntries.encode es ++ d) = ({}, .ok d)) ∧
      ((∀ e ∈ es, e.1 ∉ RequestArgs.names) →
        DecodeRequestArgs (WireEntries.encode es ++ d) = ({}, .ok d)) ∧
      ((∀ e ∈ es, e.1 ∉ Response.names) →
        DecodeResponse (WireEntries.encode es ++ d) = ({}, .ok d)) := by
  have a := fun r => decode_known CapabilityConfiguration.Decode CapabilityConfiguration.put
    CapabilityConfiguration.names (fun es o d hw hl => Decode_foldPut_CapabilityConfiguration es o d hw hl)
    put_unknown_CapabilityConfiguration es {} r d hw hl
  have b := fun r => decode_known HealthCheckRequest.Decode HealthCheckRequest.put
    HealthCheckRequest.names (fun es o d hw hl => Decode_foldPut_HealthCheckRequest es o d hw hl)
    put_unknown_HealthCheckRequest es {} r d hw hl
  have c := fun r => decode_known HealthCheckResponse.Decode HealthCheckResponse.put
    HealthCheckResponse.names (fun es o d hw hl => Decode_foldPut_HealthCheckResponse es o d hw hl)
    put_unknown_HealthCheckResponse es {} r d hw hl
  have q := fun r => decode_known RequestArgs.Decode RequestArgs.put
    RequestArgs.names (fun es o d hw hl => Decode_foldPut_RequestArgs es o d hw hl)
    put_unknown_RequestArgs es {} r d hw hl
  have p := fun r => decode_known Response.Decode Response.put
    Response.names (fun es o d hw hl => Decode_foldPut_Response es o d hw hl)
    put_unknown_Response es {} r d hw hl
  refine ⟨a, b, c, q, p, ?_, ?_, ?_, ?_, ?_⟩
  · intro h
    apply a
    rw [known_eq_nil _ es h]
    rfl
  · intro h
    apply b
    rw [known_eq_nil _ es h]
    rfl
  · intro h
    apply c
    rw [known_eq_nil _ es h]
    rfl
  · intro h
    apply q
    rw [known_eq_nil _ es h]
    rfl
  · intro h
    apply p
    rw [known_eq_nil _ es h]
    rfl

/-- Witness of C3: a `CapabilityConfiguration` map of three entries, the
declared `module` between an undeclared key with a nested array-in-map value
and an undeclared key with a blob; the decode returns the record of the map
with `module` alone. -/
theorem unknown_fields_tolerated_witness :
    DecodeCapabilityConfiguration (WireEntries.encode
        [([120], .map [(.str [97], .arr [.uint 1, .nil, .arr [.bool true]])]),
         (str "module", .str [109]),
         ([121, 121], .bin [1, 2, 3])] ++ [])
      = ({ Module := [109], Values := none }, .ok []) :=
  (unknown_fields_tolerated
    [([120], .map [(.str [97], .arr [.uint 1, .nil, .arr [.bool true]])]),
     (str "module", .str [109]),
     ([121, 121], .bin [1, 2, 3])] [] (by decide) (by decide)).1
    { Module := [109], Values := none } (by decide)

/-! ## Truncated payloads -/

theorem take_fails {α : Type} (dec : Decoder → Decoded α)
    (hst : ∀ p t o1 rest, dec p = (o1, .ok rest) → dec (p ++ t) = (o1, .ok (rest ++ t)))
    (full : Bytes) (o : α) (hfull : dec full = (o, .ok [])) (n : Nat) (hn : n < full.length) :
    ∃ e, (dec (full.take n)).2 = .error e := by
  refine prefix_fails dec hst full o hfull (full.take n) (full.drop n)
    (List.take_append_drop n full).symm ?_
  intro h
  have := congrArg List.length h
  simp at this
  omega

/-- C4: for every record type, every record the codec can carry and every
strict prefix of the bytes `Encode` writes for it (the first `n` bytes, `n`
smaller than the length; `n = 0` is the empty buffer), the `Decode` function
of the type returns an error. -/
theorem truncated_payload_rejected (a : CapabilityConfiguration) (b : HealthCheckRequest)
    (c : HealthCheckResponse) (q : RequestArgs) (p : Response)
    (ha : CapabilityConfiguration.wf a) (hc : HealthCheckResponse.wf c)
    (hq : RequestArgs.wf q) (hp : Response.wf p) :
    (∀ n, n < (CapabilityConfiguration.Encode (some a) []).length →
        ∃ e, (DecodeCapabilityConfiguration
          (NewDecoder ((CapabilityConfiguration.Encode (some a) []).take n))).2 = .error e) ∧
      (∀ n, n < (HealthCheckRequest.Encode (some b) []).length →
        ∃ e, (DecodeHealthCheckRequest
          (NewDecoder ((HealthCheckRequest.Encode (some b) []).take n))).2 = .error e) ∧
      (∀ n, n < (HealthCheckResponse.Encode (some c) []).length →
        ∃ e, (DecodeHealthCheckResponse
          (NewDecoder ((HealthCheckResponse.Encode (some c) []).take n))).2 = .error e) ∧
      (∀ n, n < (RequestArgs.Encode (some q) []).length →
        ∃ e, (DecodeRequestArgs
          (NewDecoder ((RequestArgs.Encode (some q) []).take n))).2 = .error e) ∧
      (∀ n, n < (Response.Encode (some p) []).length →
        ∃ e, (DecodeResponse
          (NewDecoder ((Response.Encode (some p) []).take n))).2 = .error e) := by
  refine ⟨?_, ?_, ?_, ?_, ?_⟩
  · exact take_fails (CapabilityConfiguration.Decode {})
      (fun p t o1 rest h => Decode_stable_CapabilityConfiguration {} o1 p t rest h) _ _
      (by simpa using Decode_Encode_CapabilityConfiguration a ha [])
  · exact take_fails (HealthCheckRequest.Decode {})
      (fun p t o1 rest h => Decode_stable_HealthCheckRequest {} o1 p t rest h) _ _
      (by simpa using Decode_Encode_HealthCheckRequest b [])
  · exact take_fails (HealthCheckResponse.Decode {})
      (fun p t o1 rest h => Decode_stable_HealthCheckResponse {} o1 p t rest h) _ _
      (by simpa using Decode_Encode_HealthCheckResponse c hc [])
  · exact take_fails (RequestArgs.Decode {})
      (fun p t o1 rest h => Decode_stable_RequestArgs {} o1 p t rest h) _ _
      (by simpa using Decode_Encode_RequestArgs q hq [])
  · exact take_fails (Response.Decode {})
      (fun p t o1 rest h => Decode_stable_Response {} o1 p t rest h) _ _
      (by simpa using Decode_Encode_Response p hp [])

/-- Witness of C4: the encoding of a response with a status code, a status, one
header and a body, cut after 20 bytes (inside the `header` entry), is
rejected. -/
theorem truncated_payload_rejected_witness :
    ∃ e, (DecodeResponse (NewDecoder ((Response.Encode
      (some { StatusCode := 200, Status := [79, 75], Header := some [([97], [98])],
              Body := some [1, 2] }) []).take 20))).2 = .error e :=
  (truncated_payload_rejected { Module := [109], Values := some [([107], [118])] }
    { Placeholder := true } { Healthy := true, Message := [111, 107] }
    { Method := [71, 69, 84], Url := [120], Headers := none, Body := some [] }
    { StatusCode := 200, Status := [79, 75], Header := some [([97], [98])], Body := some [1, 2] }
    (by decide) (by decide) (by decide) (by decide)).2.2.2.2 20 (by decide)

/-! ## Nullable records -/

theorem IsNextNil_encode (es : WireEntries) (d : Decoder) :
    IsNextNil (WireEntries.encode es ++ d) = .ok (false, WireEntries.encode es ++ d) := by
  obtain ⟨b, tl, h1, h2⟩ := byteKind_mapHeader es.length (WireEntries.body es ++ d)
  have e : WireEntries.encode es ++ d = b :: tl := by
    simpa [WireEntries.encode, List.append_assoc] using h1
  rw [e]
  have hb : b ≠ 0xc0 := by
    intro hc
    subst hc
    exact absurd h2 (by decide)
  simp [IsNextNil, hb]

/-- C5: for every record type, (1) `Encode` on a nil receiver writes the single
byte `0xc0`, the encoding of the MessagePack nil value, and nothing else;
(2) the nullable decode of those bytes returns absent and no error; (3) for every
present record the codec can carry, the nullable decode of the bytes `Encode`
writes returns no error and the record as a present value (a nil map or blob
read back as the empty one), so the all-default record is not confused with
absent. -/
theorem nullable_semantics (a : CapabilityConfiguration) (b : HealthCheckRequest)
    (c : HealthCheckResponse) (q : RequestArgs) (p : Response)
    (ha : CapabilityConfiguration.wf a) (hc : HealthCheckResponse.wf c)
    (hq : RequestArgs.wf q) (hp : Response.wf p) :
    (CapabilityConfiguration.Encode none [] = MsgVal.encode .nil ∧
      HealthCheckRequest.Encode none [] = MsgVal.encode .nil ∧
      HealthCheckResponse.Encode none [] = MsgVal.encode .nil ∧
      RequestArgs.Encode none [] = MsgVal.encode .nil ∧
      Response.Encode none [] = MsgVal.encode .nil ∧
      MsgVal.encode .nil = [0xc0]) ∧
    (DecodeCapabilityConfigurationNullable
        (NewDecoder (CapabilityConfiguration.Encode none [])) = (none, .ok []) ∧
      DecodeHealthCheckRequestNullable
        (NewDecoder (HealthCheckRequest.Encode none [])) = (none, .ok []) ∧
      DecodeHealthCheckResponseNullable
        (NewDecoder (HealthCheckResponse.Encode none [])) = (none, .ok []) ∧
      DecodeRequestArgsNullable (NewDecoder (RequestArgs.Encode none [])) = (none, .ok []) ∧
      DecodeResponseNullable (NewDecoder (Response.Encode none [])) = (none, .ok [])) ∧
    (DecodeCapabilityConfigurationNullable
        (NewDecoder (CapabilityConfiguration.Encode (some a) []))
        = (some (CapabilityConfiguration.norm a), .ok []) ∧
      DecodeHealthCheckRequestNullable (NewDecoder (HealthCheckRequest.Encode (some b) []))
        = (some b, .ok []) ∧
      DecodeHealthCheckResponseNullable (NewDecoder (HealthCheckResponse.Encode (some c) []))
        = (some c, .ok []) ∧
      DecodeRequestArgsNullable (NewDecoder (RequestArgs.Encode (some q) []))
        = (some (RequestArgs.norm q), .ok []) ∧
      DecodeResponseNullable (NewDecoder (Response.Encode (some p) []))
        = (some (Response.norm p), .ok [])) := by
  refine ⟨⟨rfl, rfl, rfl, rfl, rfl, rfl⟩, ⟨rfl, rfl, rfl, rfl, rfl⟩, ?_, ?_, ?_, ?_, ?_⟩
  · have h1 := Decode_Encode_CapabilityConfiguration a ha []
    rw [Encode_entries_CapabilityConfiguration a [] ha] at h1 ⊢
    simp only [List.nil_append, List.append_nil] at h1 ⊢
    have h2 := IsNextNil_encode (CapabilityConfiguration.entries a) []
    simp only [List.append_nil] at h2
    simp only [DecodeCapabilityConfigurationNullable, NewDecoder, h2,
      DecodeCapabilityConfiguration, h1]
  · have h1 := Decode_Encode_HealthCheckRequest b []
    rw [Encode_entries_HealthCheckRequest b []] at h1 ⊢
    simp only [List.nil_append, List.append_nil] at h1 ⊢
    have h2 := IsNextNil_encode (HealthCheckRequest.entries b) []
    simp only [List.append_nil] at h2
    simp only [DecodeHealthCheckRequestNullable, NewDecoder, h2, DecodeHealthCheckRequest, h1]
  · have h1 := Decode_Encode_HealthCheckResponse c hc []
    rw [Encode_entries_HealthCheckResponse c [] hc] at h1 ⊢
    simp only [List.nil_append, List.append_nil] at h1 ⊢
    have h2 := IsNextNil_encode (HealthCheckResponse.entries c) []
    simp only [List.append_nil] at h2
    simp only [DecodeHealthCheckResponseNullable, NewDecoder, h2, DecodeHealthCheckResponse, h1]
  · have h1 := Decode_Encode_RequestArgs q hq []
    rw [Encode_entries_RequestArgs q [] hq] at h1 ⊢
    simp only [List.nil_append, List.append_nil] at h1 ⊢
    have h2 := IsNextNil_encode (RequestArgs.entries q) []
    simp only [List.append_nil] at h2
    simp only [DecodeRequestArgsNullable, NewDecoder, h2, DecodeRequestArgs, h1]
  · have h1 := Decode_Encode_Response p hp []
    rw [Encode_entries_Response p [] hp] at h1 ⊢
    simp only [List.nil_append, List.append_nil] at h1 ⊢
    have h2 := IsNextNil_encode (Response.entries p) []
    simp only [List.append_nil] at h2
    simp only [DecodeResponseNullable, NewDecoder, h2, DecodeResponse, h1]

/-- Witness of C5: the all-default `HealthCheckResponse` is decoded as present,
and the all-default `Response` as present with an empty map and blob. -/
theorem nullable_semantics_witness :
    DecodeHealthCheckResponseNullable (NewDecoder (HealthCheckResponse.Encode (some {}) []))
        = (some {}, .ok []) ∧
      DecodeResponseNullable (NewDecoder (Response.Encode (some {}) []))
        = (some { StatusCode := 0, Status := [], Header := some [], Body := some [] },
            .ok []) :=
  have h := (nullable_semantics {} {} {} {} {} (by decide) (by decide) (by decide)
    (by decide)).2.2
  ⟨h.2.2.1, h.2.2.2.2⟩

/-! ## Layout of an encoding -/

/-- C6: for every record type and every present record the codec can carry,
`Encode` appends to the writer a map header with the number of declared fields
(2, 1, 2, 4, 4) and then, in schema order, each field name as a string
followed by the field value (string, boolean, unsigned integer, blob, or map
of strings); a nil map or blob is written as the empty one, no field is left
out. -/
theorem encode_layout (a : CapabilityConfiguration) (b : HealthCheckRequest)
    (c : HealthCheckResponse) (q : RequestArgs) (p : Response) (enc : Encoder)
    (ha : CapabilityConfiguration.wf a) (hc : HealthCheckResponse.wf c)
    (hq : RequestArgs.wf q) (hp : Response.wf p) :
    CapabilityConfiguration.Encode (some a) enc = enc ++ (mapHeader 2 ++ WireEntries.body
        [(str "module", .str a.Module), (str "values", GoMap.toMsg (entriesOf a.Values))]) ∧
      HealthCheckRequest.Encode (some b) enc = enc ++ (mapHeader 1 ++ WireEntries.body
        [(str "placeholder", .bool b.Placeholder)]) ∧
      HealthCheckResponse.Encode (some c) enc = enc ++ (mapHeader 2 ++ WireEntries.body
        [(str "healthy", .bool c.Healthy), (str "message", .str c.Message)]) ∧
      RequestArgs.Encode (some q) enc = enc ++ (mapHeader 4 ++ WireEntries.body
        [(str "method", .str q.Method), (str "url", .str q.Url),
         (str "headers", GoMap.toMsg (entriesOf q.Headers)),
         (str "body", .bin (bytesOf q.Body))]) ∧
      Response.Encode (some p) enc = enc ++ (mapHeader 4 ++ WireEntries.body
        [(str "statusCode", .uint p.StatusCode), (str "status", .str p.Status),
         (str "header", GoMap.toMsg (entriesOf p.Header)),
         (str "body", .bin (bytesOf p.Body))]) :=
  ⟨Encode_entries_CapabilityConfiguration a enc ha, Encode_entries_HealthCheckRequest b enc,
    Encode_entries_HealthCheckResponse c enc hc, Encode_entries_RequestArgs q enc hq,
    Encode_entries_Response p enc hp⟩

/-- Witness of C6: the bytes of a `HealthCheckResponse` and of a `Response`
with a nil map and a nil blob. -/
theorem encode_layout_witness :
    HealthCheckResponse.Encode (some { Healthy := true, Message := [111, 107] }) []
        = [] ++ (mapHeader 2 ++ WireEntries.body
            [(str "healthy", .bool true), (str "message", .str [111, 107])]) ∧
      Response.Encode (some { StatusCode := 200, Status := [79, 75] }) []
        = [] ++ (mapHeader 4 ++ WireEntries.body
            [(str "statusCode", .uint 200), (str "status", .str [79, 75]),
             (str "header", GoMap.toMsg (entriesOf none)), (str "body", .bin (bytesOf none))]) :=
  have h := encode_layout {} {} { Healthy := true, Message := [111, 107] } {}
    { StatusCode := 200, Status := [79, 75] } [] (by decide) (by decide) (by decide) (by decide)
  ⟨h.2.2.1, h.2.2.2.2⟩

/-! ## Nil maps -/

/-- C7: a record whose map field is nil is encoded, without any failure, to the
same bytes as the record with an initialized empty map; in those bytes the
field name is followed by the map header of count zero (`0x80`) and by no key
or value: the next bytes are the name of the next field, or the end. -/
theorem nil_map_encoded_as_empty (enc : Encoder) (module method url : Bytes)
    (statusCode : Nat) (status : Bytes) (body : Option Bytes) :
    (CapabilityConfiguration.Encode (some { Module := module, Values := none }) enc
        = CapabilityConfiguration.Encode (some { Module := module, Values := some [] }) enc ∧
      CapabilityConfiguration.Encode (some { Module := module, Values := none }) enc
        = WriteString module (WriteString (str "module") (WriteMapSize 2 enc))
            ++ (MsgVal.encode (.str (str "values")) ++ [0x80])) ∧
    (RequestArgs.Encode (some { Method := method, Url := url, Headers := none, Body := body }) enc
        = RequestArgs.Encode
            (some { Method := method, Url := url, Headers := some [], Body := body }) enc ∧
      RequestArgs.Encode (some { Method := method, Url := url, Headers := none, Body := body }) enc
        = WriteByteArray body (WriteString (str "body")
            (WriteString url (WriteString (str "url") (WriteString method
              (WriteString (str "method") (WriteMapSize 4 enc))))
              ++ (MsgVal.encode (.str (str "headers")) ++ [0x80])))) ∧
    (Response.Encode
        (some { StatusCode := statusCode, Status := status, Header := none, Body := body }) enc
        = Response.Encode
            (some { StatusCode := statusCode, Status := status, Header := some [],
                    Body := body }) enc ∧
      Response.Encode
        (some { StatusCode := statusCode, Status := status, Header := none, Body := body }) enc
        = WriteByteArray body (WriteString (str "body")
            (WriteString status (WriteString (str "status") (WriteUint32 statusCode
              (WriteString (str "statusCode") (WriteMapSize 4 enc))))
              ++ (MsgVal.encode (.str (str "header")) ++ [0x80])))) := by
  have e1 : (str "values").length = 6 := rfl
  have e2 : (str "headers").length = 7 := rfl
  have e3 : (str "header").length = 6 := rfl
  refine ⟨⟨rfl, ?_⟩, ⟨rfl, ?_⟩, ⟨rfl, ?_⟩⟩
  · simp [CapabilityConfiguration.Encode, writeMapEntries, mapLen, WriteMapSize, WriteString,
      MsgVal.encode, mapHeader, e1]
  · simp [RequestArgs.Encode, writeMapEntries, mapLen, WriteMapSize, WriteString,
      MsgVal.encode, mapHeader, e2]
  · simp [Response.Encode, writeMapEntries, mapLen, WriteMapSize, WriteString,
      MsgVal.encode, mapHeader, e3]

/-! ## Order of the entries -/

/-- C8: for every record type and every record the codec can carry, `Decode`
of the map header followed by the (field name, value) entries of the record's
encoding in any order returns no error and the same record as for the schema
order. -/
theorem decode_any_field_order (a : CapabilityConfiguration) (b : HealthCheckRequest)
    (c : HealthCheckResponse) (q : RequestArgs) (p : Response)
    (ha : CapabilityConfiguration.wf a) (hc : HealthCheckResponse.wf c)
    (hq : RequestArgs.wf q) (hp : Response.wf p) :
    (∀ es : WireEntries, es.Perm (CapabilityConfiguration.entries a) →
        DecodeCapabilityConfiguration (NewDecoder (mapHeader 2 ++ WireEntries.body es))
          = (CapabilityConfiguration.norm a, .ok [])) ∧
      (∀ es : WireEntries, es.Perm (HealthCheckRequest.entries b) →
        DecodeHealthCheckRequest (NewDecoder (mapHeader 1 ++ WireEntries.body es))
          = (b, .ok [])) ∧
      (∀ es : WireEntries, es.Perm (HealthCheckResponse.entries c) →
        DecodeHealthCheckResponse (NewDecoder (mapHeader 2 ++ WireEntries.body es))
          = (c, .ok [])) ∧
      (∀ es : WireEntries, es.Perm (RequestArgs.entries q) →
        DecodeRequestArgs (NewDecoder (mapHeader 4 ++ WireEntries.body es))
          = (RequestArgs.norm q, .ok [])) ∧
      (∀ es : WireEntries, es.Perm (Response.entries p) →
        DecodeResponse (NewDecoder (mapHeader 4 ++ WireEntries.body es))
          = (Response.norm p, .ok [])) := by
  refine ⟨?_, ?_, ?_, ?_, ?_⟩
  · intro es hperm
    have hlen : es.length = 2 := by simpa [CapabilityConfiguration.entries] using hperm.length_eq
    have m0 : str "module" ∈ es.map Prod.fst :=
      (hperm.map Prod.fst).mem_iff.2 (by simp [CapabilityConfiguration.entries])
    have m1 : str "values" ∈ es.map Prod.fst :=
      (hperm.map Prod.fst).mem_iff.2 (by simp [CapabilityConfiguration.entries])
    have := Decode_subset_CapabilityConfiguration a ha es {} [] (fun e he => hperm.subset he)
      (by omega)
    simpa [DecodeCapabilityConfiguration, NewDecoder, WireEntries.encode, hlen, m0, m1,
      CapabilityConfiguration.norm] using this
  · intro es hperm
    have hlen : es.length = 1 := by simpa [HealthCheckRequest.entries] using hperm.length_eq
    have m0 : str "placeholder" ∈ es.map Prod.fst :=
      (hperm.map Prod.fst).mem_iff.2 (by simp [HealthCheckRequest.entries])
    have := Decode_subset_HealthCheckRequest b es {} [] (fun e he => hperm.subset he)
      (by omega)
    simpa [DecodeHealthCheckRequest, NewDecoder, WireEntries.encode, hlen, m0] using this
  · intro es hperm
    have hlen : es.length = 2 := by simpa [HealthCheckResponse.entries] using hperm.length_eq
    have m0 : str "healthy" ∈ es.map Prod.fst :=
      (hperm.map Prod.fst).mem_iff.2 (by simp [HealthCheckResponse.entries])
    have m1 : str "message" ∈ es.map Prod.fst :=
      (hperm.map Prod.fst).mem_iff.2 (by simp [HealthCheckResponse.entries])
    have := Decode_subset_HealthCheckResponse c hc es {} [] (fun e he => hperm.subset he)
      (by omega)
    simpa [DecodeHealthCheckResponse, NewDecoder, WireEntries.encode, hlen, m0, m1] using this
  · intro es hperm
    have hlen : es.length = 4 := by simpa [RequestArgs.entries] using hperm.length_eq
    have m0 : str "method" ∈ es.map Prod.fst :=
      (hperm.map Prod.fst).mem_iff.2 (by simp [RequestArgs.entries])
    have m1 : str "url" ∈ es.map Prod.fst :=
      (hperm.map Prod.fst).mem_iff.2 (by simp [RequestArgs.entries])
    have m2 : str "headers" ∈ es.map Prod.fst :=
      (hperm.map Prod.fst).mem_iff.2 (by simp [RequestArgs.entries])
    have m3 : str "body" ∈ es.map Prod.fst :=
      (hperm.map Prod.fst).mem_iff.2 (by simp [RequestArgs.entries])
    have := Decode_subset_RequestArgs q hq es {} [] (fun e he => hperm.subset he)
      (by omega)
    simpa [DecodeRequestArgs, NewDecoder, WireEntries.encode, hlen, m0, m1, m2, m3,
      RequestArgs.norm] using this
  · intro es hperm
    have hlen : es.length = 4 := by simpa [Response.entries] using hperm.length_eq
    have m0 : str "statusCode" ∈ es.map Prod.fst :=
      (hperm.map Prod.fst).mem_iff.2 (by simp [Response.entries])
    have m1 : str "status" ∈ es.map Prod.fst :=
      (hperm.map Prod.fst).mem_iff.2 (by simp [Response.entries])
    have m2 : str "header" ∈ es.map Prod.fst :=
      (hperm.map Prod.fst).mem_iff.2 (by simp [Response.entries])
    have m3 : str "body" ∈ es.map Prod.fst :=
      (hperm.map Prod.fst).mem_iff.2 (by simp [Response.entries])
    have := Decode_subset_Response p hp es {} [] (fun e he => hperm.subset he)
      (by omega)
    simpa [DecodeResponse, NewDecoder, WireEntries.encode, hlen, m0, m1, m2, m3,
      Response.norm] using this

/-- Witness of C8: the entries of a `Response` in the order body, header,
status, statusCode. -/
theorem decode_any_field_order_witness :
    DecodeResponse (NewDecoder (mapHeader 4 ++ WireEntries.body
        [(str "body", .bin [1, 2]), (str "header", GoMap.toMsg [([97], [98])]),
         (str "status", .str [79, 75]), (str "statusCode", .uint 200)]))
      = ({ StatusCode := 200, Status := [79, 75], Header := some [([97], [98])],
           Body := some [1, 2] }, .ok []) :=
  (decode_any_field_order {} {} {} {}
    { StatusCode := 200, Status := [79, 75], Header := some [([97], [98])], Body := some [1, 2] }
    (by decide) (by decide) (by decide) (by decide)).2.2.2.2 _
    (List.reverse_perm (Response.entries
      { StatusCode := 200, Status := [79, 75], Header := some [([97], [98])],
        Body := some [1, 2] }))

/-! ## Absent fields -/

/-- C9: for every record type, take the entries of a record the codec can carry
and keep any of them, each at most once, in any order (none at all is the map
of count 0).  The `Decode` function of the type returns no error on that map;
every field whose name is on the wire has its wire value, every other declared
field has its zero value (false, the empty string, 0, the nil map, the nil
blob). -/
theorem absent_fields_stay_zero (a : CapabilityConfiguration) (b : HealthCheckRequest)
    (c : HealthCheckResponse) (q : RequestArgs) (p : Response)
    (ha : CapabilityConfiguration.wf a) (hc : HealthCheckResponse.wf c)
    (hq : RequestArgs.wf q) (hp : Response.wf p) :
    (∀ es : WireEntries, (es.map Prod.fst).Nodup → (∀ e ∈ es, e ∈ CapabilityConfiguration.entries a) →
        DecodeCapabilityConfiguration (NewDecoder (WireEntries.encode es))
          = ({ Module := (if str "module" ∈ es.map Prod.fst then a.Module else []),
               Values := (if str "values" ∈ es.map Prod.fst then some (entriesOf a.Values) else none) }, .ok [])) ∧
      (∀ es : WireEntries, (es.map Prod.fst).Nodup → (∀ e ∈ es, e ∈ HealthCheckRequest.entries b) →
        DecodeHealthCheckRequest (NewDecoder (WireEntries.encode es))
          = ({ Placeholder := (if str "placeholder" ∈ es.map Prod.fst then b.Placeholder else false) }, .ok [])) ∧
      (∀ es : WireEntries, (es.map Prod.fst).Nodup → (∀ e ∈ es, e ∈ HealthCheckResponse.entries c) →
        DecodeHealthCheckResponse (NewDecoder (WireEntries.encode es))
          = ({ Healthy := (if str "healthy" ∈ es.map Prod.fst then c.Healthy else false),
               Message := (if str "message" ∈ es.map Prod.fst then c.Message else []) }, .ok [])) ∧
      (∀ es : WireEntries, (es.map Prod.fst).Nodup → (∀ e ∈ es, e ∈ RequestArgs.entries q) →
        DecodeRequestArgs (NewDecoder (WireEntries.encode es))
          = ({ Method := (if str "method" ∈ es.map Prod.fst then q.Method else []),
               Url := (if str "url" ∈ es.map Prod.fst then q.Url else []),
               Headers := (if str "headers" ∈ es.map Prod.fst then some (entriesOf q.Headers) else none),
               Body := (if str "body" ∈ es.map Prod.fst then some (bytesOf q.Body) else none) }, .ok [])) ∧
      (∀ es : WireEntries, (es.map Prod.fst).Nodup → (∀ e ∈ es, e ∈ Response.entries p) →
        DecodeResponse (NewDecoder (WireEntries.encode es))
          = ({ StatusCode := (if str "statusCode" ∈ es.map Prod.fst then p.StatusCode else 0),
               Status := (if str "status" ∈ es.map Prod.fst then p.Status else []),
               Header := (if str "header" ∈ es.map Prod.fst then some (entriesOf p.Header) else none),
               Body := (if str "body" ∈ es.map Prod.fst then some (bytesOf p.Body) else none) }, .ok [])) := by
  refine ⟨?_, ?_, ?_, ?_, ?_⟩
  · intro es hnd hsub
    have hlen : es.length ≤ 2 := by
      have h1 : es.map Prod.fst ⊆ (CapabilityConfiguration.entries a).map Prod.fst := by
        intro k hk
        obtain ⟨e, he, rfl⟩ := List.mem_map.1 hk
        exact List.mem_map.2 ⟨e, hsub e he, rfl⟩
      have := (List.subperm_of_subset hnd h1).length_le
      simpa [CapabilityConfiguration.entries] using this
    have := Decode_subset_CapabilityConfiguration a ha es {} [] hsub (by omega)
    simpa [DecodeCapabilityConfiguration, NewDecoder] using this
  · intro es hnd hsub
    have hlen : es.length ≤ 1 := by
      have h1 : es.map Prod.fst ⊆ (HealthCheckRequest.entries b).map Prod.fst := by
        intro k hk
        obtain ⟨e, he, rfl⟩ := List.mem_map.1 hk
        exact List.mem_map.2 ⟨e, hsub e he, rfl⟩
      have := (List.subperm_of_subset hnd h1).length_le
      simpa [HealthCheckRequest.entries] using this
    have := Decode_subset_HealthCheckRequest b es {} [] hsub (by omega)
    simpa [DecodeHealthCheckRequest, NewDecoder] using this
  · intro es hnd hsub
    have hlen : es.length ≤ 2 := by
      have h1 : es.map Prod.fst ⊆ (HealthCheckResponse.entries c).map Prod.fst := by
        intro k hk
        obtain ⟨e, he, rfl⟩ := List.mem_map.1 hk
        exact List.mem_map.2 ⟨e, hsub e he, rfl⟩
      have := (List.subperm_of_subset hnd h1).length_le
      simpa [HealthCheckResponse.entries] using this
    have := Decode_subset_HealthCheckResponse c hc es {} [] hsub (by omega)
    simpa [DecodeHealthCheckResponse, NewDecoder] using this
  · intro es hnd hsub
    have hlen : es.length ≤ 4 := by
      have h1 : es.map Prod.fst ⊆ (RequestArgs.entries q).map Prod.fst := by
        intro k hk
        obtain ⟨e, he, rfl⟩ := List.mem_map.1 hk
        exact List.mem_map.2 ⟨e, hsub e he, rfl⟩
      have := (List.subperm_of_subset hnd h1).length_le
      simpa [RequestArgs.entries] using this
    have := Decode_subset_RequestArgs q hq es {} [] hsub (by omega)
    simpa [DecodeRequestArgs, NewDecoder] using this
  · intro es hnd hsub
    have hlen : es.length ≤ 4 := by
      have h1 : es.map Prod.fst ⊆ (Response.entries p).map Prod.fst := by
        intro k hk
        obtain ⟨e, he, rfl⟩ := List.mem_map.1 hk
        exact List.mem_map.2 ⟨e, hsub e he, rfl⟩
      have := (List.subperm_of_subset hnd h1).length_le
      simpa [Response.entries] using this
    have := Decode_subset_Response p hp es {} [] hsub (by omega)
    simpa [DecodeResponse, NewDecoder] using this

/-- Witness of C9: a `Response` map that carries `status` alone, and the
`HealthCheckResponse` map of count 0. -/
theorem absent_fields_stay_zero_witness :
    DecodeResponse (NewDecoder (WireEntries.encode [(str "status", .str [79, 75])]))
        = ({ StatusCode := 0, Status := [79, 75], Header := none, Body := none }, .ok []) ∧
      DecodeHealthCheckResponse (NewDecoder (WireEntries.encode []))
        = ({ Healthy := false, Message := [] }, .ok []) :=
  have h := absent_fields_stay_zero {} {} {} {}
    { StatusCode := 200, Status := [79, 75], Header := some [([97], [98])], Body := some [1, 2] }
    (by decide) (by decide) (by decide) (by decide)
  have h1 := h.2.2.2.2 [(str "status", .str [79, 75])] (by decide) (by simp [Response.entries])
  have h2 := h.2.2.1 [] (by decide) (by simp)
  ⟨by simpa using h1, by simpa using h2⟩

/-! ## Kind mismatches -/

theorem strPairs_eq_none (kvs : List (MsgVal × MsgVal))
    (h : ∃ kv ∈ kvs, MsgVal.kind kv.1 ≠ Kind.str ∨ MsgVal.kind kv.2 ≠ Kind.str) :
    MsgVal.strPairs kvs = none := by
  induction kvs with
  | nil => simp at h
  | cons e es ih =>
    obtain ⟨k, v⟩ := e
    obtain ⟨kv, hmem, hkv⟩ := h
    simp only [MsgVal.strPairs]
    rcases List.mem_cons.1 hmem with rfl | hmem
    · rcases hkv with hk | hv
      · rw [(asStr_eq_none _).2 hk]
      · rw [(asStr_eq_none _).2 hv]
        cases MsgVal.asStr k <;> rfl
    · rw [ih ⟨kv, hmem, hkv⟩]
      cases MsgVal.asStr k <;> cases MsgVal.asStr v <;> rfl

theorem asStrMap_notStrMap (v : MsgVal) (h : MsgVal.notStrMap v) :
    MsgVal.asStrMap v = none := by
  rcases h with h | ⟨kvs, rfl, h⟩
  · exact asStrMap_of_kind v h
  · simp [MsgVal.asStrMap, strPairs_eq_none kvs h]

theorem foldPut_eq_none {α : Type} (put : α → Bytes → MsgVal → Option α)
    (bad : Bytes × MsgVal → Prop) (hbad : ∀ o e, bad e → put o e.1 e.2 = none) :
    ∀ (es : WireEntries) (o : α), (∃ e ∈ es, bad e) → foldPut put o es = none := by
  intro es
  induction es with
  | nil => intro o h; simp at h
  | cons e es ih =>
    intro o h
    obtain ⟨k, v⟩ := e
    obtain ⟨x, hmem, hx⟩ := h
    simp only [foldPut]
    rcases List.mem_cons.1 hmem with rfl | hmem
    · rw [hbad o _ hx]
    · cases put o k v with
      | none => rfl
      | some o1 => exact ih o1 ⟨x, hmem, hx⟩

theorem put_mismatch_CapabilityConfiguration (o : CapabilityConfiguration)
    (e : Bytes × MsgVal) (h : CapabilityConfiguration.mismatch e) :
    CapabilityConfiguration.put o e.1 e.2 = none := by
  have n1 : ¬ str "values" = str "module" := by decide
  rcases h with ⟨hk, hv⟩ | ⟨hk, hv⟩
  · simp [CapabilityConfiguration.put, hk, (asStr_eq_none _).2 hv]
  · simp [CapabilityConfiguration.put, hk, n1, asStrMap_notStrMap _ hv]

theorem put_mismatch_HealthCheckRequest (o : HealthCheckRequest)
    (e : Bytes × MsgVal) (h : HealthCheckRequest.mismatch e) :
    HealthCheckRequest.put o e.1 e.2 = none := by
  obtain ⟨hk, hv⟩ := h
  simp [HealthCheckRequest.put, hk, (asBool_eq_none _).2 hv]

theorem put_mismatch_HealthCheckResponse (o : HealthCheckResponse)
    (e : Bytes × MsgVal) (h : HealthCheckResponse.mismatch e) :
    HealthCheckResponse.put o e.1 e.2 = none := by
  have n1 : ¬ str "message" = str "healthy" := by decide
  rcases h with ⟨hk, hv⟩ | ⟨hk, hv⟩
  · simp [HealthCheckResponse.put, hk, (asBool_eq_none _).2 hv]
  · simp [HealthCheckResponse.put, hk, n1, (asStr_eq_none _).2 hv]

theorem put_mismatch_RequestArgs (o : RequestArgs)
    (e : Bytes × MsgVal) (h : RequestArgs.mismatch e) :
    RequestArgs.put o e.1 e.2 = none := by
  have n1 : ¬ str "url" = str "method" := by decide
  have n2 : ¬ str "headers" = str "method" := by decide
  have n3 : ¬ str "headers" = str "url" := by decide
  have n4 : ¬ str "body" = str "method" := by decide
  have n5 : ¬ str "body" = str "url" := by decide
  have n6 : ¬ str "body" = str "headers" := by decide
  rcases h with ⟨hk, hv⟩ | ⟨hk, hv⟩ | ⟨hk, hv⟩ | ⟨hk, hv⟩
  · simp [RequestArgs.put, hk, (asStr_eq_none _).2 hv]
  · simp [RequestArgs.put, hk, n1, (asStr_eq_none _).2 hv]
  · simp [RequestArgs.put, hk, n2, n3, asStrMap_notStrMap _ hv]
  · simp [RequestArgs.put, hk, n4, n5, n6, (asBin_eq_none _).2 hv]

theorem put_mismatch_Response (o : Response)
    (e : Bytes × MsgVal) (h : Response.mismatch e) :
    Response.put o e.1 e.2 = none := by
  have n1 : ¬ str "status" = str "statusCode" := by decide
  have n2 : ¬ str "header" = str "statusCode" := by decide
  have n3 : ¬ str "header" = str "status" := by decide
  have n4 : ¬ str "body" = str "statusCode" := by decide
  have n5 : ¬ str "body" = str "status" := by decide
  have n6 : ¬ str "body" = str "header" := by decide
  rcases h with ⟨hk, hv⟩ | ⟨hk, hv⟩ | ⟨hk, hv⟩ | ⟨hk, hv⟩
  · simp [Response.put, hk, asUint32_of_kind _ hv]
  · simp [Response.put, hk, n1, (asStr_eq_none _).2 hv]
  · simp [Response.put, hk, n2, n3, asStrMap_notStrMap _ hv]
  · simp [Response.put, hk, n4, n5, n6, (asBin_eq_none _).2 hv]

/-- C10: for every record type, `Decode` returns the kind-mismatch error
(a) on any buffer that starts with a value that is not a map, for instance a
string, an integer or an array; and on any wire map (string keys, well-formed
values) one of whose entries has (b) a declared field name followed by a
value of another kind than the declared one, or (c) the name of a
string-to-string map field followed by a map one of whose keys or values is
not a string. -/
theorem kind_mismatch_fails (v : MsgVal) (es : WireEntries) (d : Decoder)
    (hv : MsgVal.kind v ≠ Kind.map) (hw : WireEntries.wf es = true)
    (hl : es.length < 4294967296) :
    ((DecodeCapabilityConfiguration (NewDecoder (MsgVal.encode v ++ d))).2
          = .error .typeMismatch ∧
        (DecodeHealthCheckRequest (NewDecoder (MsgVal.encode v ++ d))).2
          = .error .typeMismatch ∧
        (DecodeHealthCheckResponse (NewDecoder (MsgVal.encode v ++ d))).2
          = .error .typeMismatch ∧
        (DecodeRequestArgs (NewDecoder (MsgVal.encode v ++ d))).2 = .error .typeMismatch ∧
        (DecodeResponse (NewDecoder (MsgVal.encode v ++ d))).2 = .error .typeMismatch) ∧
      ((∃ e ∈ es, CapabilityConfiguration.mismatch e) →
        (DecodeCapabilityConfiguration (NewDecoder (WireEntries.encode es ++ d))).2
          = .error .typeMismatch) ∧
      ((∃ e ∈ es, HealthCheckRequest.mismatch e) →
        (DecodeHealthCheckRequest (NewDecoder (WireEntries.encode es ++ d))).2
          = .error .typeMismatch) ∧
      ((∃ e ∈ es, HealthCheckResponse.mismatch e) →
        (DecodeHealthCheckResponse (NewDecoder (WireEntries.encode es ++ d))).2
          = .error .typeMismatch) ∧
      ((∃ e ∈ es, RequestArgs.mismatch e) →
        (DecodeRequestArgs (NewDecoder (WireEntries.encode es ++ d))).2
          = .error .typeMismatch) ∧
      ((∃ e ∈ es, Response.mismatch e) →
        (DecodeResponse (NewDecoder (WireEntries.encode es ++ d))).2
          = .error .typeMismatch) := by
  have hm := ReadMapSize_kind v d hv
  refine ⟨⟨?_, ?_, ?_, ?_, ?_⟩, ?_, ?_, ?_, ?_, ?_⟩
  · simp [DecodeCapabilityConfiguration, NewDecoder, CapabilityConfiguration.Decode, hm]
  · simp [DecodeHealthCheckRequest, NewDecoder, HealthCheckRequest.Decode, hm]
  · simp [DecodeHealthCheckResponse, NewDecoder, HealthCheckResponse.Decode, hm]
  · simp [DecodeRequestArgs, NewDecoder, RequestArgs.Decode, hm]
  · simp [DecodeResponse, NewDecoder, Response.Decode, hm]
  · intro h
    have h1 := Decode_foldPut_CapabilityConfiguration es {} d hw hl
    rw [foldPut_eq_none _ _ put_mismatch_CapabilityConfiguration es {} h, Agrees_none] at h1
    exact h1
  · intro h
    have h1 := Decode_foldPut_HealthCheckRequest es {} d hw hl
    rw [foldPut_eq_none _ _ put_mismatch_HealthCheckRequest es {} h, Agrees_none] at h1
    exact h1
  · intro h
    have h1 := Decode_foldPut_HealthCheckResponse es {} d hw hl
    rw [foldPut_eq_none _ _ put_mismatch_HealthCheckResponse es {} h, Agrees_none] at h1
    exact h1
  · intro h
    have h1 := Decode_foldPut_RequestArgs es {} d hw hl
    rw [foldPut_eq_none _ _ put_mismatch_RequestArgs es {} h, Agrees_none] at h1
    exact h1
  · intro h
    have h1 := Decode_foldPut_Response es {} d hw hl
    rw [foldPut_eq_none _ _ put_mismatch_Response es {} h, Agrees_none] at h1
    exact h1

/-- Witness of C10: a buffer that starts with a string; and a `Response` map
whose `statusCode` is in order and whose `header` map has an integer as a
value. -/
theorem kind_mismatch_fails_witness :
    (DecodeResponse (NewDecoder (MsgVal.encode (.str [120]) ++ []))).2
        = .error .typeMismatch ∧
      (DecodeResponse (NewDecoder (WireEntries.encode
          [(str "statusCode", .uint 200),
           (str "header", .map [(.str [97], .uint 1)])] ++ []))).2
        = .error .typeMismatch :=
  have h := kind_mismatch_fails (.str [120])
    [(str "statusCode", .uint 200), (str "header", .map [(.str [97], .uint 1)])] []
    (by decide) (by decide) (by decide)
  ⟨h.1.2.2.2.2, h.2.2.2.2.2 ⟨(str "header", .map [(.str [97], .uint 1)]),
    by simp, Or.inr (Or.inr (Or.inl ⟨rfl, Or.inr ⟨_, rfl, (.str [97], .uint 1),
      by simp, Or.inr (by decide)⟩⟩))⟩⟩

/-! ## Call wrappers: success and handler errors -/

/-- C11: on a payload that is the encoding of the argument record, each wrapper
invokes the handler exactly once, `HealthRequestWrapper` with the decoded
request and `RequestWrapper` with its method, url, headers and body (nil
headers or body arrive as empty ones); when the handler returns a result and
no error, the wrapper returns no error and exactly the bytes `Encode` writes
for the result. -/
theorem dispatcher_success_path (a : HealthCheckRequest) (q : RequestArgs)
    (healthHandler : HealthCheckRequest → HealthCheckResponse × Option GoError)
    (requestHandler : RequestCall → Response × Option GoError)
    (res1 : HealthCheckResponse) (res2 : Response) (hq : RequestArgs.wf q)
    (h1 : healthHandler a = (res1, none))
    (h2 : requestHandler
        { method := q.Method, url := q.Url, headers := some (entriesOf q.Headers),
          body := some (bytesOf q.Body) } = (res2, none)) :
    HealthRequestWrapper healthHandler (HealthCheckRequest.Encode (some a) [])
        = { bytes := some (HealthCheckResponse.Encode (some res1) []), err := none,
            calls := [a] } ∧
      RequestWrapper requestHandler (RequestArgs.Encode (some q) [])
        = { bytes := some (Response.Encode (some res2) []), err := none,
            calls := [{ method := q.Method, url := q.Url,
                        headers := some (entriesOf q.Headers),
                        body := some (bytesOf q.Body) }] } := by
  have d1 := Decode_Encode_HealthCheckRequest a []
  have d2 := Decode_Encode_RequestArgs q hq []
  simp only [List.append_nil] at d1 d2
  constructor
  · simp only [HealthRequestWrapper, NewDecoder, d1, h1, ToBytes]
  · simp only [RequestWrapper, NewDecoder, d2, RequestArgs.norm, h2, ToBytes]

/-- Witness of C11: the payload is the encoding of `HealthCheckRequest{}` and
the handler returns `{healthy: true, message: "ok"}`; for `RequestWrapper`, a
GET request with nil headers and a handler that returns status code 200. -/
theorem dispatcher_success_path_witness :
    HealthRequestWrapper (fun _ => ({ Healthy := true, Message := str "ok" }, none))
        (HealthCheckRequest.Encode (some {}) [])
        = { bytes := some (HealthCheckResponse.Encode
              (some { Healthy := true, Message := str "ok" }) []),
            err := none, calls := [{}] } ∧
      RequestWrapper (fun _ => ({ StatusCode := 200 }, none))
        (RequestArgs.Encode (some { Method := str "GET", Url := str "http://x" }) [])
        = { bytes := some (Response.Encode (some { StatusCode := 200 }) []), err := none,
            calls := [{ method := str "GET", url := str "http://x",
                        headers := some (entriesOf none), body := some (bytesOf none) }] } :=
  dispatcher_success_path {} { Method := str "GET", Url := str "http://x" }
    (fun _ => ({ Healthy := true, Message := str "ok" }, none))
    (fun _ => ({ StatusCode := 200 }, none)) _ _ (by decide) rfl rfl

/-- C12: for every payload, when the handler returns a non-nil error on the
arguments the wrapper read from the payload (whatever result record comes with
it), the wrapper returns that very error and nil bytes; no result record is
encoded. -/
theorem handler_error_passes_through (payload : Bytes)
    (healthHandler : HealthCheckRequest → HealthCheckResponse × Option GoError)
    (requestHandler : RequestCall → Response × Option GoError) (e1 e2 : GoError)
    (h1 : (healthHandler (HealthCheckRequest.Decode {} (NewDecoder payload)).1).2 = some e1)
    (h2 : (requestHandler
        { method := (RequestArgs.Decode {} (NewDecoder payload)).1.Method,
          url := (RequestArgs.Decode {} (NewDecoder payload)).1.Url,
          headers := (RequestArgs.Decode {} (NewDecoder payload)).1.Headers,
          body := (RequestArgs.Decode {} (NewDecoder payload)).1.Body }).2 = some e2) :
    HealthRequestWrapper healthHandler payload
        = { bytes := none, err := some e1,
            calls := [(HealthCheckRequest.Decode {} (NewDecoder payload)).1] } ∧
      RequestWrapper requestHandler payload
        = { bytes := none, err := some e2,
            calls := [{ method := (RequestArgs.Decode {} (NewDecoder payload)).1.Method,
                        url := (RequestArgs.Decode {} (NewDecoder payload)).1.Url,
                        headers := (RequestArgs.Decode {} (NewDecoder payload)).1.Headers,
                        body := (RequestArgs.Decode {} (NewDecoder payload)).1.Body }] } := by
  constructor
  · cases hx : healthHandler (HealthCheckRequest.Decode {} (NewDecoder payload)).1 with
    | mk res err =>
      rw [hx] at h1
      simp only at h1
      subst h1
      simp only [HealthRequestWrapper, hx]
  · cases hx : requestHandler
        { method := (RequestArgs.Decode {} (NewDecoder payload)).1.Method,
          url := (RequestArgs.Decode {} (NewDecoder payload)).1.Url,
          headers := (RequestArgs.Decode {} (NewDecoder payload)).1.Headers,
          body := (RequestArgs.Decode {} (NewDecoder payload)).1.Body } with
    | mk res err =>
      rw [hx] at h2
      simp only at h2
      subst h2
      simp only [RequestWrapper, hx]

/-- Witness of C12: handlers that fail with the errors 7 and 9, the first
together with a result record, on the encoding of a health request. -/
theorem handler_error_passes_through_witness :
    HealthRequestWrapper (fun _ => ({ Healthy := true, Message := str "ok" }, some (.app 7)))
        (HealthCheckRequest.Encode (some {}) [])
        = { bytes := none, err := some (.app 7),
            calls := [(HealthCheckRequest.Decode {}
              (NewDecoder (HealthCheckRequest.Encode (some {}) []))).1] } ∧
      RequestWrapper (fun _ => ({}, some (.app 9))) (HealthCheckRequest.Encode (some {}) [])
        = { bytes := none, err := some (.app 9),
            calls := [{ method := (RequestArgs.Decode {}
                          (NewDecoder (HealthCheckRequest.Encode (some {}) []))).1.Method,
                        url := (RequestArgs.Decode {}
                          (NewDecoder (HealthCheckRequest.Encode (some {}) []))).1.Url,
                        headers := (RequestArgs.Decode {}
                          (NewDecoder (HealthCheckRequest.Encode (some {}) []))).1.Headers,
                        body := (RequestArgs.Decode {}
                          (NewDecoder (HealthCheckRequest.Encode (some {}) []))).1.Body }] } :=
  handler_error_passes_through (HealthCheckRequest.Encode (some {}) [])
    (fun _ => ({ Healthy := true, Message := str "ok" }, some (.app 7)))
    (fun _ => ({}, some (.app 9))) (.app 7) (.app 9) rfl rfl

/-! ## Invoker -/

theorem Request_unfold (b method url : Bytes) (headers : Option GoMap) (body : Option Bytes)
    (hostCall : HostCallArgs → Bytes × Option GoError) :
    (NewHost b).Request hostCall method url headers body =
      match hostCall
        { binding := b, nspace := str "wasmcloud:httpclient", operation := str "Request",
          payload := RequestArgs.Encode (some ⟨method, url, headers, body⟩) [] } with
      | (_, some err) =>
        { response := {}, err := some err,
          hostCalls :=
            [{ binding := b, nspace := str "wasmcloud:httpclient", operation := str "Request",
               payload := RequestArgs.Encode (some ⟨method, url, headers, body⟩) [] }] }
      | (payload, none) =>
        { response := (DecodeResponse (NewDecoder payload)).1,
          err := errorOf (DecodeResponse (NewDecoder payload)).2,
          hostCalls :=
            [{ binding := b, nspace := str "wasmcloud:httpclient", operation := str "Request",
               payload := RequestArgs.Encode (some ⟨method, url, headers, body⟩) [] }] } := by
  simp only [Host.Request, NewHost, ToBytes, bytesOf, Option.getD_some]

/-- C13: `Request` on the host made by `NewHost b` issues exactly one boundary
call, with the binding `b`, the namespace "wasmcloud:httpclient", the
operation "Request" and, as payload, the bytes `RequestArgs.Encode` writes for
the record of the four arguments.  When that call returns a payload `p` and no
error, the response and the error of `Request` are those of `DecodeResponse`
on `p`; so when `p` is the encoding of a response, `Request` returns that
response (same status code) and no error. -/
theorem invoker_request_shape (b method url : Bytes) (headers : Option GoMap)
    (body : Option Bytes) (hostCall : HostCallArgs → Bytes × Option GoError) (p : Bytes)
    (res : Response) (hres : Response.wf res) :
    ((NewHost b).Request hostCall method url headers body).hostCalls =
        [{ binding := b, nspace := str "wasmcloud:httpclient", operation := str "Request",
           payload := RequestArgs.Encode (some ⟨method, url, headers, body⟩) [] }] ∧
      (hostCall
          { binding := b, nspace := str "wasmcloud:httpclient", operation := str "Request",
            payload := RequestArgs.Encode (some ⟨method, url, headers, body⟩) [] }
          = (p, none) →
        ((NewHost b).Request hostCall method url headers body).response
            = (DecodeResponse (NewDecoder p)).1 ∧
          ((NewHost b).Request hostCall method url headers body).err
            = errorOf (DecodeResponse (NewDecoder p)).2) ∧
      (hostCall
          { binding := b, nspace := str "wasmcloud:httpclient", operation := str "Request",
            payload := RequestArgs.Encode (some ⟨method, url, headers, body⟩) [] }
          = (Response.Encode (some res) [], none) →
        ((NewHost b).Request hostCall method url headers body).response = Response.norm res ∧
          ((NewHost b).Request hostCall method url headers body).response.StatusCode
            = res.StatusCode ∧
          ((NewHost b).Request hostCall method url headers body).err = none) := by
  rw [Request_unfold]
  refine ⟨?_, ?_, ?_⟩
  · cases hostCall
        { binding := b, nspace := str "wasmcloud:httpclient", operation := str "Request",
          payload := RequestArgs.Encode (some ⟨method, url, headers, body⟩) [] } with
    | mk payload err => cases err <;> rfl
  · intro h
    rw [h]
    exact ⟨rfl, rfl⟩
  · intro h
    rw [h]
    have d := Decode_Encode_Response res hres []
    simp only [List.append_nil] at d
    simp only [DecodeResponse, NewDecoder, d, errorOf, Response.norm, and_self]

/-- Witness of C13: a GET request with empty headers and an empty body on the
binding "default", and a transport that answers with the encoding of a
response of status code 200. -/
theorem invoker_request_shape_witness :
    ((NewHost (str "default")).Request
        (fun _ => (Response.Encode (some { StatusCode := 200, Status := str "OK" }) [], none))
        (str "GET") (str "http://x") (some []) (some [])).hostCalls =
        [{ binding := str "default", nspace := str "wasmcloud:httpclient", operation := str "Request",
           payload := RequestArgs.Encode (some ⟨str "GET", str "http://x", some [], some []⟩) [] }] ∧
      ((NewHost (str "default")).Request
        (fun _ => (Response.Encode (some { StatusCode := 200, Status := str "OK" }) [], none))
        (str "GET") (str "http://x") (some []) (some [])).response.StatusCode = 200 ∧
      ((NewHost (str "default")).Request
        (fun _ => (Response.Encode (some { StatusCode := 200, Status := str "OK" }) [], none))
        (str "GET") (str "http://x") (some []) (some [])).err = none :=
  have h := invoker_request_shape (str "default") (str "GET") (str "http://x") (some [])
    (some [])
    (fun _ => (Response.Encode (some { StatusCode := 200, Status := str "OK" }) [], none))
    [] { StatusCode := 200, Status := str "OK" } (by decide)
  ⟨h.1, (h.2.2 rfl).2.1, (h.2.2 rfl).2.2⟩

/-- C14: when the boundary call fails with a transport error, `Request` returns
that very error with the zero response, after the one boundary call.  When
the boundary call succeeds with a payload that is malformed for a response,
`Request` returns a decode error: for a strict prefix of the encoding of a
response, for a payload whose first value is not a map, and for a map with a
declared field name followed by a value of another kind. -/
theorem invoker_error_propagation (b method url : Bytes) (headers : Option GoMap)
    (body : Option Bytes) (hostCall : HostCallArgs → Bytes × Option GoError)
    (p : Bytes) (e : GoError) (res : Response) (n : Nat) (v : MsgVal) (es : WireEntries)
    (d : Bytes) (hres : Response.wf res) (hn : n < (Response.Encode (some res) []).length)
    (hv : MsgVal.kind v ≠ Kind.map) (hw : WireEntries.wf es = true)
    (hl : es.length < 4294967296) (hes : ∃ x ∈ es, Response.mismatch x) :
    (hostCall
          { binding := b, nspace := str "wasmcloud:httpclient", operation := str "Request",
            payload := RequestArgs.Encode (some ⟨method, url, headers, body⟩) [] }
          = (p, some e) →
        (NewHost b).Request hostCall method url headers body =
          { response := {}, err := some e,
            hostCalls :=
              [{ binding := b, nspace := str "wasmcloud:httpclient", operation := str "Request",
                 payload := RequestArgs.Encode (some ⟨method, url, headers, body⟩) [] }] }) ∧
      (hostCall
          { binding := b, nspace := str "wasmcloud:httpclient", operation := str "Request",
            payload := RequestArgs.Encode (some ⟨method, url, headers, body⟩) [] }
          = ((Response.Encode (some res) []).take n, none) →
        ∃ de, ((NewHost b).Request hostCall method url headers body).err
          = some (.decode de)) ∧
      (hostCall
          { binding := b, nspace := str "wasmcloud:httpclient", operation := str "Request",
            payload := RequestArgs.Encode (some ⟨method, url, headers, body⟩) [] }
          = (MsgVal.encode v ++ d, none) →
        ((NewHost b).Request hostCall method url headers body).err
          = some (.decode .typeMismatch)) ∧
      (hostCall
          { binding := b, nspace := str "wasmcloud:httpclient", operation := str "Request",
            payload := RequestArgs.Encode (some ⟨method, url, headers, body⟩) [] }
          = (WireEntries.encode es ++ d, none) →
        ((NewHost b).Request hostCall method url headers body).err
          = some (.decode .typeMismatch)) := by
  rw [Request_unfold]
  refine ⟨?_, ?_, ?_, ?_⟩
  · intro h
    rw [h]
  · intro h
    rw [h]
    obtain ⟨de, hde⟩ := take_fails (Response.Decode {})
      (fun p t o1 rest h => Decode_stable_Response {} o1 p t rest h) _ _
      (by simpa using Decode_Encode_Response res hres []) n hn
    exact ⟨de, by simp only [DecodeResponse, NewDecoder, hde, errorOf]⟩
  · intro h
    rw [h]
    have hm := ReadMapSize_kind v d hv
    simp only [DecodeResponse, NewDecoder, Response.Decode, hm, errorOf]
  · intro h
    rw [h]
    have h1 := Decode_foldPut_Response es {} d hw hl
    rw [foldPut_eq_none _ _ put_mismatch_Response es {} hes, Agrees_none] at h1
    simp only [DecodeResponse, NewDecoder, h1, errorOf]

/-- Witness of C14: a transport that returns the first 20 bytes of the
encoding of a response. -/
theorem invoker_error_propagation_witness :
    ∃ de, ((NewHost (str "default")).Request
        (fun _ => ((Response.Encode (some ⟨200, str "OK", some [(str "a", str "b")],
          some [1, 2]⟩) []).take 20, none))
        (str "GET") (str "http://x") none none).err = some (.decode de) :=
  (invoker_error_propagation (str "default") (str "GET") (str "http://x") none none
    (fun _ => ((Response.Encode (some ⟨200, str "OK", some [(str "a", str "b")],
      some [1, 2]⟩) []).take 20, none))
    [] (.app 1) ⟨200, str "OK", some [(str "a", str "b")], some [1, 2]⟩
    20 (.str (str "x")) [(str "status", .uint 1)] [] (by decide) (by decide) (by decide)
    (by decide) (by decide)
    ⟨(str "status", .uint 1), by simp, Or.inr (Or.inl ⟨rfl, by decide⟩)⟩).2.1 rfl

/-! ## Registration -/

theorem lookup_Register_same (name : Bytes) (fn : WrapperFn) (table : FunctionTable) :
    lookupFunction name (RegisterFunction name fn table) = some fn := by
  induction table with
  | nil => simp [RegisterFunction, lookupFunction]
  | cons e table ih =>
    obtain ⟨n0, f0⟩ := e
    by_cases h : n0 = name
    · simp [RegisterFunction, lookupFunction, h]
    · simp [RegisterFunction, lookupFunction, h, ih]

theorem lookup_Register_other (name other : Bytes) (fn : WrapperFn) (table : FunctionTable)
    (h : other ≠ name) :
    lookupFunction other (RegisterFunction name fn table) = lookupFunction other table := by
  have h1 : ¬ name = other := fun e => h e.symm
  induction table with
  | nil => simp [RegisterFunction, lookupFunction, h1]
  | cons e table ih =>
    obtain ⟨n0, f0⟩ := e
    by_cases h0 : n0 = name
    · subst h0
      simp [RegisterFunction, lookupFunction, h1]
    · by_cases h2 : n0 = other
      · subst h2
        simp [RegisterFunction, lookupFunction, h]
      · simp [RegisterFunction, lookupFunction, h0, h2, ih]

/-- C15: `Register` with a non-nil handler stores it in the package variable
(`HealthRequestHandler`, `RequestHandler`) and registers the wrapper of the
package under the operation name ("HealthRequest", "Request"); the variable of
the other package and the entries under other names are left as they were.
After a registration with `h1` and then one with `h2` the variable holds
`h2`, and a call dispatched under the name runs the wrapper with `h2`: its
outcome is that of the wrapper on `h2` alone, whatever `h1` was. -/
theorem registration_overwrites (g : Guest)
    (h1 h2 : HealthCheckRequest → HealthCheckResponse × Option GoError)
    (r1 r2 : RequestCall → Response × Option GoError) (other payload : Bytes) :
    ((actorcore.Handlers.Register ⟨some h1⟩ g).HealthRequestHandler = some h1 ∧
      lookupFunction (str "HealthRequest") (actorcore.Handlers.Register ⟨some h1⟩ g).functions
        = some .HealthRequestWrapper ∧
      (actorcore.Handlers.Register ⟨some h1⟩ g).RequestHandler = g.RequestHandler ∧
      (other ≠ str "HealthRequest" →
        lookupFunction other (actorcore.Handlers.Register ⟨some h1⟩ g).functions
          = lookupFunction other g.functions)) ∧
    ((httpclient.Handlers.Register ⟨some r1⟩ g).RequestHandler = some r1 ∧
      lookupFunction (str "Request") (httpclient.Handlers.Register ⟨some r1⟩ g).functions
        = some .RequestWrapper ∧
      (httpclient.Handlers.Register ⟨some r1⟩ g).HealthRequestHandler
        = g.HealthRequestHandler ∧
      (other ≠ str "Request" →
        lookupFunction other (httpclient.Handlers.Register ⟨some r1⟩ g).functions
          = lookupFunction other g.functions)) ∧
    ((actorcore.Handlers.Register ⟨some h2⟩
        (actorcore.Handlers.Register ⟨some h1⟩ g)).HealthRequestHandler = some h2 ∧
      (actorcore.Handlers.Register ⟨some h2⟩
        (actorcore.Handlers.Register ⟨some h1⟩ g)).handle (str "HealthRequest") payload
        = .healthRequest (HealthRequestWrapper h2 payload)) ∧
    ((httpclient.Handlers.Register ⟨some r2⟩
        (httpclient.Handlers.Register ⟨some r1⟩ g)).RequestHandler = some r2 ∧
      (httpclient.Handlers.Register ⟨some r2⟩
        (httpclient.Handlers.Register ⟨some r1⟩ g)).handle (str "Request") payload
        = .request (RequestWrapper r2 payload)) := by
  refine ⟨⟨rfl, ?_, rfl, ?_⟩, ⟨rfl, ?_, rfl, ?_⟩, ⟨rfl, ?_⟩, ⟨rfl, ?_⟩⟩
  · exact lookup_Register_same _ _ _
  · intro h
    exact lookup_Register_other _ _ _ _ h
  · exact lookup_Register_same _ _ _
  · intro h
    exact lookup_Register_other _ _ _ _ h
  · simp only [Guest.handle, actorcore.Handlers.Register, lookup_Register_same]
  · simp only [Guest.handle, httpclient.Handlers.Register, lookup_Register_same]

/-- Every entry of the registration table is one of the two wrappers under its
own name, and the package variable the wrapper reads is not nil. -/
theorem registered_has_handler (calls : List RegisterCall) :
    ∀ g : Guest,
      (∀ name w, lookupFunction name g.functions = some w →
        (name = str "HealthRequest" ∧ w = .HealthRequestWrapper ∧
            g.HealthRequestHandler ≠ none) ∨
          (name = str "Request" ∧ w = .RequestWrapper ∧ g.RequestHandler ≠ none)) →
      ∀ name w, lookupFunction name (calls.foldl (fun g c => c.run g) g).functions = some w →
        (name = str "HealthRequest" ∧ w = .HealthRequestWrapper ∧
            (calls.foldl (fun g c => c.run g) g).HealthRequestHandler ≠ none) ∨
          (name = str "Request" ∧ w = .RequestWrapper ∧
            (calls.foldl (fun g c => c.run g) g).RequestHandler ≠ none) := by
  induction calls with
  | nil => intro g hg; exact hg
  | cons c calls ih =>
    intro g hg
    simp only [List.foldl_cons]
    apply ih
    intro name w hw
    cases c with
    | actorcore h =>
      obtain ⟨handler⟩ := h
      cases handler with
      | none => exact hg name w hw
      | some f =>
        simp only [RegisterCall.run, actorcore.Handlers.Register] at hw ⊢
        by_cases hn : name = str "HealthRequest"
        · subst hn
          rw [lookup_Register_same] at hw
          exact Or.inl ⟨rfl, (Option.some.inj hw).symm, by simp⟩
        · rw [lookup_Register_other _ _ _ _ hn] at hw
          rcases hg name w hw with ⟨h1, _⟩ | ⟨h1, h2, h3⟩
          · exact absurd h1 hn
          · exact Or.inr ⟨h1, h2, h3⟩
    | httpclient h =>
      obtain ⟨handler⟩ := h
      cases handler with
      | none => exact hg name w hw
      | some f =>
        simp only [RegisterCall.run, httpclient.Handlers.Register] at hw ⊢
        by_cases hn : name = str "Request"
        · subst hn
          rw [lookup_Register_same] at hw
          exact Or.inr ⟨rfl, (Option.some.inj hw).symm, by simp⟩
        · rw [lookup_Register_other _ _ _ _ hn] at hw
          rcases hg name w hw with ⟨h1, h2, h3⟩ | ⟨h1, _⟩
          · exact Or.inl ⟨h1, h2, h3⟩
          · exact absurd h1 hn

/-- C18: `Register` with a nil handler field leaves the whole state as it is
(package variables and registration table).  In every state reached from the
initial one by a sequence of `Register` calls of either package, an entry
under "HealthRequest" is `HealthRequestWrapper` and `HealthRequestHandler` is
then not nil, an entry under "Request" is `RequestWrapper` and
`RequestHandler` is then not nil; so no dispatched call, whatever the
operation name and the payload, ends in the call of a nil handler. -/
theorem registration_invariant (calls : List RegisterCall) (g : Guest)
    (operation payload : Bytes) :
    (actorcore.Handlers.Register ⟨none⟩ g = g ∧ httpclient.Handlers.Register ⟨none⟩ g = g) ∧
      (∀ w, lookupFunction (str "HealthRequest") (Guest.after calls).functions = some w →
        w = .HealthRequestWrapper ∧ (Guest.after calls).HealthRequestHandler ≠ none) ∧
      (∀ w, lookupFunction (str "Request") (Guest.after calls).functions = some w →
        w = .RequestWrapper ∧ (Guest.after calls).RequestHandler ≠ none) ∧
      (Guest.after calls).handle operation payload ≠ .nilHandler := by
  have hne : str "HealthRequest" ≠ str "Request" := by decide
  have inv := registered_has_handler calls Guest.initial
    (by intro name w h; simp [Guest.initial, lookupFunction] at h)
  refine ⟨⟨rfl, rfl⟩, ?_, ?_, ?_⟩
  · intro w hw
    rcases inv _ w hw with ⟨_, h2, h3⟩ | ⟨h1, _⟩
    · exact ⟨h2, h3⟩
    · exact absurd h1 hne
  · intro w hw
    rcases inv _ w hw with ⟨h1, _⟩ | ⟨_, h2, h3⟩
    · exact absurd h1.symm hne
    · exact ⟨h2, h3⟩
  · unfold Guest.handle
    cases hl : lookupFunction operation (Guest.after calls).functions with
    | none => simp
    | some w =>
      rcases inv operation w hl with ⟨_, h2, h3⟩ | ⟨_, h2, h3⟩
      · subst h2
        cases hh : (Guest.after calls).HealthRequestHandler with
        | none => exact absurd hh h3
        | some f => simp
      · subst h2
        cases hh : (Guest.after calls).RequestHandler with
        | none => exact absurd hh h3
        | some f => simp

/-! ## Repeated keys -/

theorem foldPut_concat {α : Type} (put : α → Bytes → MsgVal → Option α) (k : Bytes)
    (v : MsgVal) :
    ∀ (es : WireEntries) (o : α),
      foldPut put o (es ++ [(k, v)]) = (foldPut put o es).bind (fun o1 => put o1 k v) := by
  intro es
  induction es with
  | nil =>
    intro o
    simp only [List.nil_append, foldPut, Option.some_bind]
    cases put o k v <;> rfl
  | cons e es ih =>
    intro o
    obtain ⟨k0, v0⟩ := e
    simp only [List.cons_append, foldPut]
    cases put o k0 v0 with
    | none => rfl
    | some o1 => exact ih o1

theorem lastValue_concat (name k : Bytes) (v : MsgVal) (es : WireEntries) :
    WireEntries.lastValue name (es ++ [(k, v)])
      = if k = name then some v else WireEntries.lastValue name es := by
  by_cases h : k = name
  · simp [WireEntries.lastValue, List.filter_append, List.filter_cons, h]
  · simp [WireEntries.lastValue, List.filter_append, List.filter_cons, h]

theorem foldPut_last_CapabilityConfiguration (es : WireEntries)
    (hk : ∀ e ∈ es, CapabilityConfiguration.wellKinded e) :
    foldPut CapabilityConfiguration.put {} es = some
      { Module := ((WireEntries.lastValue (str "module") es).bind MsgVal.asStr).getD [],
        Values := (WireEntries.lastValue (str "values") es).bind MsgVal.asStrMap } := by
  have n_module_values : ¬ str "module" = str "values" := by decide
  have n_values_module : ¬ str "values" = str "module" := by decide
  induction es using List.reverseRecOn with
  | nil => rfl
  | append_singleton es e ih =>
    obtain ⟨k, v⟩ := e
    have hk1 := hk (k, v) (by simp)
    have ih1 := ih (fun x hx => hk x (by simp [hx]))
    rw [foldPut_concat, ih1]
    simp only [Option.some_bind]
    by_cases c0 : k = str "module"
    · subst c0
      obtain ⟨x, hx⟩ := Option.isSome_iff_exists.1 (hk1.1 rfl)
      simp [CapabilityConfiguration.put, lastValue_concat, hx, n_module_values, n_values_module]
    by_cases c1 : k = str "values"
    · subst c1
      obtain ⟨x, hx⟩ := Option.isSome_iff_exists.1 (hk1.2 rfl)
      simp [CapabilityConfiguration.put, lastValue_concat, hx, n_module_values, n_values_module]
    simp [CapabilityConfiguration.put, lastValue_concat, c0, c1]

theorem foldPut_last_HealthCheckRequest (es : WireEntries)
    (hk : ∀ e ∈ es, HealthCheckRequest.wellKinded e) :
    foldPut HealthCheckRequest.put {} es = some
      { Placeholder := ((WireEntries.lastValue (str "placeholder") es).bind MsgVal.asBool).getD false } := by
  induction es using List.reverseRecOn with
  | nil => rfl
  | append_singleton es e ih =>
    obtain ⟨k, v⟩ := e
    have hk1 := hk (k, v) (by simp)
    have ih1 := ih (fun x hx => hk x (by simp [hx]))
    rw [foldPut_concat, ih1]
    simp only [Option.some_bind]
    by_cases c0 : k = str "placeholder"
    · subst c0
      obtain ⟨x, hx⟩ := Option.isSome_iff_exists.1 (hk1 rfl)
      simp [HealthCheckRequest.put, lastValue_concat, hx]
    simp [HealthCheckRequest.put, lastValue_concat, c0]

theorem foldPut_last_HealthCheckResponse (es : WireEntries)
    (hk : ∀ e ∈ es, HealthCheckResponse.wellKinded e) :
    foldPut HealthCheckResponse.put {} es = some
      { Healthy := ((WireEntries.lastValue (str "healthy") es).bind MsgVal.asBool).getD false,
        Message := ((WireEntries.lastValue (str "message") es).bind MsgVal.asStr).getD [] } := by
  have n_healthy_message : ¬ str "healthy" = str "message" := by decide
  have n_message_healthy : ¬ str "message" = str "healthy" := by decide
  induction es using List.reverseRecOn with
  | nil => rfl
  | append_singleton es e ih =>
    obtain ⟨k, v⟩ := e
    have hk1 := hk (k, v) (by simp)
    have ih1 := ih (fun x hx => hk x (by simp [hx]))
    rw [foldPut_concat, ih1]
    simp only [Option.some_bind]
    by_cases c0 : k = str "healthy"
    · subst c0
      obtain ⟨x, hx⟩ := Option.isSome_iff_exists.1 (hk1.1 rfl)
      simp [HealthCheckResponse.put, lastValue_concat, hx, n_healthy_message, n_message_healthy]
    by_cases c1 : k = str "message"
    · subst c1
      obtain ⟨x, hx⟩ := Option.isSome_iff_exists.1 (hk1.2 rfl)
      simp [HealthCheckResponse.put, lastValue_concat, hx, n_healthy_message, n_message_healthy]
    simp [HealthCheckResponse.put, lastValue_concat, c0, c1]

theorem foldPut_last_RequestArgs (es : WireEntries)
    (hk : ∀ e ∈ es, RequestArgs.wellKinded e) :
    foldPut RequestArgs.put {} es = some
      { Method := ((WireEntries.lastValue (str "method") es).bind MsgVal.asStr).getD [],
        Url := ((WireEntries.lastValue (str "url") es).bind MsgVal.asStr).getD [],
        Headers := (WireEntries.lastValue (str "headers") es).bind MsgVal.asStrMap,
        Body := (WireEntries.lastValue (str "body") es).bind MsgVal.asBin } := by
  have n_method_url : ¬ str "method" = str "url" := by decide
  have n_method_headers : ¬ str "method" = str "headers" := by decide
  have n_method_body : ¬ str "method" = str "body" := by decide
  have n_url_method : ¬ str "url" = str "method" := by decide
  have n_url_headers : ¬ str "url" = str "headers" := by decide
  have n_url_body : ¬ str "url" = str "body" := by decide
  have n_headers_method : ¬ str "headers" = str "method" := by decide
  have n_headers_url : ¬ str "headers" = str "url" := by decide
  have n_headers_body : ¬ str "headers" = str "body" := by decide
  have n_body_method : ¬ str "body" = str "method" := by decide
  have n_body_url : ¬ str "body" = str "url" := by decide
  have n_body_headers : ¬ str "body" = str "headers" := by decide
  induction es using List.reverseRecOn with
  | nil => rfl
  | append_singleton es e ih =>
    obtain ⟨k, v⟩ := e
    have hk1 := hk (k, v) (by simp)
    have ih1 := ih (fun x hx => hk x (by simp [hx]))
    rw [foldPut_concat, ih1]
    simp only [Option.some_bind]
    by_cases c0 : k = str "method"
    · subst c0
      obtain ⟨x, hx⟩ := Option.isSome_iff_exists.1 (hk1.1 rfl)
      simp [RequestArgs.put, lastValue_concat, hx, n_method_url, n_method_headers, n_method_body,
        n_url_method, n_url_headers, n_url_body, n_headers_method, n_headers_url, n_headers_body,
        n_body_method, n_body_url, n_body_headers]
    by_cases c1 : k = str "url"
    · subst c1
      obtain ⟨x, hx⟩ := Option.isSome_iff_exists.1 (hk1.2.1 rfl)
      simp [RequestArgs.put, lastValue_concat, hx, n_method_url, n_method_headers, n_method_body,
        n_url_method, n_url_headers, n_url_body, n_headers_method, n_headers_url, n_headers_body,
        n_body_method, n_body_url, n_body_headers]
    by_cases c2 : k = str "headers"
    · subst c2
      obtain ⟨x, hx⟩ := Option.isSome_iff_exists.1 (hk1.2.2.1 rfl)
      simp [RequestArgs.put, lastValue_concat, hx, n_method_url, n_method_headers, n_method_body,
        n_url_method, n_url_headers, n_url_body, n_headers_method, n_headers_url, n_headers_body,
        n_body_method, n_body_url, n_body_headers]
    by_cases c3 : k = str "body"
    · subst c3
      obtain ⟨x, hx⟩ := Option.isSome_iff_exists.1 (hk1.2.2.2 rfl)
      simp [RequestArgs.put, lastValue_concat, hx, n_method_url, n_method_headers, n_method_body,
        n_url_method, n_url_headers, n_url_body, n_headers_method, n_headers_url, n_headers_body,
        n_body_method, n_body_url, n_body_headers]
    simp [RequestArgs.put, lastValue_concat, c0, c1, c2, c3]

theorem foldPut_last_Response (es : WireEntries)
    (hk : ∀ e ∈ es, Response.wellKinded e) :
    foldPut Response.put {} es = some
      { StatusCode := ((WireEntries.lastValue (str "statusCode") es).bind MsgVal.asUint32).getD 0,
        Status := ((WireEntries.lastValue (str "status") es).bind MsgVal.asStr).getD [],
        Header := (WireEntries.lastValue (str "header") es).bind MsgVal.asStrMap,
        Body := (WireEntries.lastValue (str "body") es).bind MsgVal.asBin } := by
  have n_statusCode_status : ¬ str "statusCode" = str "status" := by decide
  have n_statusCode_header : ¬ str "statusCode" = str "header" := by decide
  have n_statusCode_body : ¬ str "statusCode" = str "body" := by decide
  have n_status_statusCode : ¬ str "status" = str "statusCode" := by decide
  have n_status_header : ¬ str "status" = str "header" := by decide
  have n_status_body : ¬ str "status" = str "body" := by decide
  have n_header_statusCode : ¬ str "header" = str "statusCode" := by decide
  have n_header_status : ¬ str "header" = str "status" := by decide
  have n_header_body : ¬ str "header" = str "body" := by decide
  have n_body_statusCode : ¬ str "body" = str "statusCode" := by decide
  have n_body_status : ¬ str "body" = str "status" := by decide
  have n_body_header : ¬ str "body" = str "header" := by decide
  induction es using List.reverseRecOn with
  | nil => rfl
  | append_singleton es e ih =>
    obtain ⟨k, v⟩ := e
    have hk1 := hk (k, v) (by simp)
    have ih1 := ih (fun x hx => hk x (by simp [hx]))
    rw [foldPut_concat, ih1]
    simp only [Option.some_bind]
    by_cases c0 : k = str "statusCode"
    · subst c0
      obtain ⟨x, hx⟩ := Option.isSome_iff_exists.1 (hk1.1 rfl)
      simp [Response.put, lastValue_concat, hx, n_statusCode_status, n_statusCode_header,
        n_statusCode_body, n_status_statusCode, n_status_header, n_status_body,
        n_header_statusCode, n_header_status, n_header_body, n_body_statusCode, n_body_status,
        n_body_header]
    by_cases c1 : k = str "status"
    · subst c1
      obtain ⟨x, hx⟩ := Option.isSome_iff_exists.1 (hk1.2.1 rfl)
      simp [Response.put, lastValue_concat, hx, n_statusCode_status, n_statusCode_header,
        n_statusCode_body, n_status_statusCode, n_status_header, n_status_body,
        n_header_statusCode, n_header_status, n_header_body, n_body_statusCode, n_body_status,
        n_body_header]
    by_cases c2 : k = str "header"
    · subst c2
      obtain ⟨x, hx⟩ := Option.isSome_iff_exists.1 (hk1.2.2.1 rfl)
      simp [Response.put, lastValue_concat, hx, n_statusCode_status, n_statusCode_header,
        n_statusCode_body, n_status_statusCode, n_status_header, n_status_body,
        n_header_statusCode, n_header_status, n_header_body, n_body_statusCode, n_body_status,
        n_body_header]
    by_cases c3 : k = str "body"
    · subst c3
      obtain ⟨x, hx⟩ := Option.isSome_iff_exists.1 (hk1.2.2.2 rfl)
      simp [Response.put, lastValue_concat, hx, n_statusCode_status, n_statusCode_header,
        n_statusCode_body, n_status_statusCode, n_status_header, n_status_body,
        n_header_statusCode, n_header_status, n_header_body, n_body_statusCode, n_body_status,
        n_body_header]
    simp [Response.put, lastValue_concat, c0, c1, c2, c3]

theorem get_set (m : GoMap) (k v k1 : Bytes) :
    GoMap.get (GoMap.set m k v) k1 = if k = k1 then some v else GoMap.get m k1 := by
  induction m with
  | nil => by_cases h : k = k1 <;> simp [GoMap.set, GoMap.get, List.find?, h]
  | cons e m ih =>
    obtain ⟨k0, v0⟩ := e
    simp only [GoMap.get] at ih
    by_cases h0 : k0 = k
    · subst h0
      by_cases h1 : k0 = k1 <;> simp [GoMap.set, GoMap.get, List.find?, h1]
    · by_cases h1 : k0 = k1
      · subst h1
        have h2 : ¬ k = k0 := fun e => h0 e.symm
        simp [GoMap.set, GoMap.get, List.find?, h0, h2]
      · simp [GoMap.set, GoMap.get, List.find?, h0, h1, ih]

theorem lastOf_concat (k k1 v1 : Bytes) (m : List (Bytes × Bytes)) :
    lastOf k (m ++ [(k1, v1)]) = if k1 = k then some v1 else lastOf k m := by
  by_cases h : k1 = k
  · simp [lastOf, List.filter_append, List.filter_cons, h]
  · simp [lastOf, List.filter_append, List.filter_cons, h]

theorem get_insertAll (m : List (Bytes × Bytes)) (k : Bytes) :
    GoMap.get (GoMap.insertAll [] m) k = lastOf k m := by
  induction m using List.reverseRecOn with
  | nil => rfl
  | append_singleton m e ih =>
    obtain ⟨k1, v1⟩ := e
    simp only [GoMap.insertAll, List.foldl_append, List.foldl_cons, List.foldl_nil] at ih ⊢
    rw [get_set, lastOf_concat, ih]

theorem asStrMap_pairs (m : List (Bytes × Bytes)) :
    MsgVal.asStrMap (.map (m.map (fun kv => (MsgVal.str kv.1, MsgVal.str kv.2))))
      = some (GoMap.insertAll [] m) := by
  simp [MsgVal.asStrMap, strPairs_map]

/-! ## One record at a time -/

/-- C16: for every record type, every record the codec can carry and every
sequence of bytes `s`, `Decode` on the bytes `Encode` writes for the record
followed by `s` returns the record and no error, and the decoder it leaves
is exactly at `s`.  The same holds for any wire map whose entries with
declared keys are those of the record, whatever well-formed values (nested
arrays and maps included) its undeclared keys carry. -/
theorem decode_consumes_one_record (a : CapabilityConfiguration) (b : HealthCheckRequest)
    (c : HealthCheckResponse) (q : RequestArgs) (p : Response) (s : Bytes)
    (ha : CapabilityConfiguration.wf a) (hc : HealthCheckResponse.wf c)
    (hq : RequestArgs.wf q) (hp : Response.wf p) :
    CapabilityConfiguration.Decode {} (NewDecoder (CapabilityConfiguration.Encode (some a) [] ++ s))
        = (CapabilityConfiguration.norm a, .ok s) ∧
      HealthCheckRequest.Decode {} (NewDecoder (HealthCheckRequest.Encode (some b) [] ++ s))
        = (b, .ok s) ∧
      HealthCheckResponse.Decode {} (NewDecoder (HealthCheckResponse.Encode (some c) [] ++ s))
        = (c, .ok s) ∧
      RequestArgs.Decode {} (NewDecoder (RequestArgs.Encode (some q) [] ++ s))
        = (RequestArgs.norm q, .ok s) ∧
      Response.Decode {} (NewDecoder (Response.Encode (some p) [] ++ s))
        = (Response.norm p, .ok s) ∧
      (∀ es : WireEntries, WireEntries.wf es = true → es.length < 4294967296 →
        WireEntries.known CapabilityConfiguration.names es = CapabilityConfiguration.entries a →
        CapabilityConfiguration.Decode {} (NewDecoder (WireEntries.encode es ++ s))
          = (CapabilityConfiguration.norm a, .ok s)) ∧
      (∀ es : WireEntries, WireEntries.wf es = true → es.length < 4294967296 →
        WireEntries.known HealthCheckRequest.names es = HealthCheckRequest.entries b →
        HealthCheckRequest.Decode {} (NewDecoder (WireEntries.encode es ++ s))
          = (b, .ok s)) ∧
      (∀ es : WireEntries, WireEntries.wf es = true → es.length < 4294967296 →
        WireEntries.known HealthCheckResponse.names es = HealthCheckResponse.entries c →
        HealthCheckResponse.Decode {} (NewDecoder (WireEntries.encode es ++ s))
          = (c, .ok s)) ∧
      (∀ es : WireEntries, WireEntries.wf es = true → es.length < 4294967296 →
        WireEntries.known RequestArgs.names es = RequestArgs.entries q →
        RequestArgs.Decode {} (NewDecoder (WireEntries.encode es ++ s))
          = (RequestArgs.norm q, .ok s)) ∧
      (∀ es : WireEntries, WireEntries.wf es = true → es.length < 4294967296 →
        WireEntries.known Response.names es = Response.entries p →
        Response.Decode {} (NewDecoder (WireEntries.encode es ++ s))
          = (Response.norm p, .ok s)) := by
  refine ⟨?_, ?_, ?_, ?_, ?_, ?_, ?_, ?_, ?_, ?_⟩
  · exact Decode_Encode_CapabilityConfiguration a ha s
  · exact Decode_Encode_HealthCheckRequest b s
  · exact Decode_Encode_HealthCheckResponse c hc s
  · exact Decode_Encode_RequestArgs q hq s
  · exact Decode_Encode_Response p hp s
  · intro es hw hl hkn
    refine decode_known CapabilityConfiguration.Decode CapabilityConfiguration.put CapabilityConfiguration.names
      (fun es o d hw hl => Decode_foldPut_CapabilityConfiguration es o d hw hl) put_unknown_CapabilityConfiguration
      es {} _ s hw hl ?_
    have h := Decode_Encode_CapabilityConfiguration a ha s
    rw [Encode_entries_CapabilityConfiguration a [] ha] at h
    rw [hkn]
    simpa using h
  · intro es hw hl hkn
    refine decode_known HealthCheckRequest.Decode HealthCheckRequest.put HealthCheckRequest.names
      (fun es o d hw hl => Decode_foldPut_HealthCheckRequest es o d hw hl) put_unknown_HealthCheckRequest
      es {} _ s hw hl ?_
    have h := Decode_Encode_HealthCheckRequest b s
    rw [Encode_entries_HealthCheckRequest b []] at h
    rw [hkn]
    simpa using h
  · intro es hw hl hkn
    refine decode_known HealthCheckResponse.Decode HealthCheckResponse.put HealthCheckResponse.names
      (fun es o d hw hl => Decode_foldPut_HealthCheckResponse es o d hw hl) put_unknown_HealthCheckResponse
      es {} _ s hw hl ?_
    have h := Decode_Encode_HealthCheckResponse c hc s
    rw [Encode_entries_HealthCheckResponse c [] hc] at h
    rw [hkn]
    simpa using h
  · intro es hw hl hkn
    refine decode_known RequestArgs.Decode RequestArgs.put RequestArgs.names
      (fun es o d hw hl => Decode_foldPut_RequestArgs es o d hw hl) put_unknown_RequestArgs
      es {} _ s hw hl ?_
    have h := Decode_Encode_RequestArgs q hq s
    rw [Encode_entries_RequestArgs q [] hq] at h
    rw [hkn]
    simpa using h
  · intro es hw hl hkn
    refine decode_known Response.Decode Response.put Response.names
      (fun es o d hw hl => Decode_foldPut_Response es o d hw hl) put_unknown_Response
      es {} _ s hw hl ?_
    have h := Decode_Encode_Response p hp s
    rw [Encode_entries_Response p [] hp] at h
    rw [hkn]
    simpa using h

/-- Witness of C16: two responses written one after the other are read back
one after the other, the first decode leaving the decoder at the second
encoding; and a `HealthCheckResponse` map with an undeclared key that carries
a map with a nested array, followed by three more bytes. -/
theorem decode_consumes_one_record_witness :
    Response.Decode {} (NewDecoder (Response.Encode (some { StatusCode := 200 }) []
        ++ Response.Encode (some { StatusCode := 404 }) []))
        = (Response.norm { StatusCode := 200 },
            .ok (Response.Encode (some { StatusCode := 404 }) [])) ∧
      Response.Decode {} (NewDecoder (Response.Encode (some { StatusCode := 404 }) [] ++ []))
        = (Response.norm { StatusCode := 404 }, .ok []) ∧
      HealthCheckResponse.Decode {} (NewDecoder (WireEntries.encode
          [(str "healthy", .bool true),
           (str "x", .map [(.str (str "k"), .arr [.uint 1, .arr [.nil]])]),
           (str "message", .str (str "ok"))] ++ [1, 2, 3]))
        = ({ Healthy := true, Message := str "ok" }, .ok [1, 2, 3]) :=
  ⟨(decode_consumes_one_record {} {} {} {} { StatusCode := 200 }
      (Response.Encode (some { StatusCode := 404 }) [])
      (by decide) (by decide) (by decide) (by decide)).2.2.2.2.1,
    (decode_consumes_one_record {} {} {} {} { StatusCode := 404 } []
      (by decide) (by decide) (by decide) (by decide)).2.2.2.2.1,
    (decode_consumes_one_record {} {} { Healthy := true, Message := str "ok" } {} {}
      [1, 2, 3] (by decide) (by decide) (by decide) (by decide)).2.2.2.2.2.2.2.1 _
      (by decide) (by decide) rfl⟩

/-! ## Last occurrence -/

/-- C17: for every record type and every wire map (string keys, well-formed
values) whose declared keys carry values of their declared kind, however often
a key occurs, `Decode` returns no error and every field holds what the last
entry with its name carries, or its zero value when there is none.  A map
field holds the map built from the last entry alone, earlier entries of the
same name contribute nothing; and the map built from the pairs of one entry
holds, under each key, the value of the last pair with that key. -/
theorem last_occurrence_wins (es : WireEntries) (d : Decoder)
    (kvs : List (Bytes × Bytes)) (k : Bytes)
    (hw : WireEntries.wf es = true) (hl : es.length < 4294967296) :
    ((∀ e ∈ es, CapabilityConfiguration.wellKinded e) →
        DecodeCapabilityConfiguration (NewDecoder (WireEntries.encode es ++ d)) =
          ({ Module := ((WireEntries.lastValue (str "module") es).bind MsgVal.asStr).getD [],
             Values := (WireEntries.lastValue (str "values") es).bind MsgVal.asStrMap },
            .ok d)) ∧
      ((∀ e ∈ es, HealthCheckRequest.wellKinded e) →
        DecodeHealthCheckRequest (NewDecoder (WireEntries.encode es ++ d)) =
          ({ Placeholder := ((WireEntries.lastValue (str "placeholder") es).bind MsgVal.asBool).getD false },
            .ok d)) ∧
      ((∀ e ∈ es, HealthCheckResponse.wellKinded e) →
        DecodeHealthCheckResponse (NewDecoder (WireEntries.encode es ++ d)) =
          ({ Healthy := ((WireEntries.lastValue (str "healthy") es).bind MsgVal.asBool).getD false,
             Message := ((WireEntries.lastValue (str "message") es).bind MsgVal.asStr).getD [] },
            .ok d)) ∧
      ((∀ e ∈ es, RequestArgs.wellKinded e) →
        DecodeRequestArgs (NewDecoder (WireEntries.encode es ++ d)) =
          ({ Method := ((WireEntries.lastValue (str "method") es).bind MsgVal.asStr).getD [],
             Url := ((WireEntries.lastValue (str "url") es).bind MsgVal.asStr).getD [],
             Headers := (WireEntries.lastValue (str "headers") es).bind MsgVal.asStrMap,
             Body := (WireEntries.lastValue (str "body") es).bind MsgVal.asBin },
            .ok d)) ∧
      ((∀ e ∈ es, Response.wellKinded e) →
        DecodeResponse (NewDecoder (WireEntries.encode es ++ d)) =
          ({ StatusCode := ((WireEntries.lastValue (str "statusCode") es).bind MsgVal.asUint32).getD 0,
             Status := ((WireEntries.lastValue (str "status") es).bind MsgVal.asStr).getD [],
             Header := (WireEntries.lastValue (str "header") es).bind MsgVal.asStrMap,
             Body := (WireEntries.lastValue (str "body") es).bind MsgVal.asBin },
            .ok d)) ∧
      MsgVal.asStrMap (.map (kvs.map (fun kv => (MsgVal.str kv.1, MsgVal.str kv.2))))
        = some (GoMap.insertAll [] kvs) ∧
      GoMap.get (GoMap.insertAll [] kvs) k = lastOf k kvs := by
  refine ⟨?_, ?_, ?_, ?_, ?_, ?_, ?_⟩
  · intro hk
    have h := Decode_foldPut_CapabilityConfiguration es {} d hw hl
    rw [foldPut_last_CapabilityConfiguration es hk, Agrees_some] at h
    exact h
  · intro hk
    have h := Decode_foldPut_HealthCheckRequest es {} d hw hl
    rw [foldPut_last_HealthCheckRequest es hk, Agrees_some] at h
    exact h
  · intro hk
    have h := Decode_foldPut_HealthCheckResponse es {} d hw hl
    rw [foldPut_last_HealthCheckResponse es hk, Agrees_some] at h
    exact h
  · intro hk
    have h := Decode_foldPut_RequestArgs es {} d hw hl
    rw [foldPut_last_RequestArgs es hk, Agrees_some] at h
    exact h
  · intro hk
    have h := Decode_foldPut_Response es {} d hw hl
    rw [foldPut_last_Response es hk, Agrees_some] at h
    exact h
  · exact asStrMap_pairs kvs
  · exact get_insertAll kvs k

/-- Witness of C17: a `CapabilityConfiguration` map with `module` twice and
`values` twice; the second `values` map has the key "a" twice.  The record
holds the second module and the map of the second `values` alone, with the
last value of "a". -/
theorem last_occurrence_wins_witness :
    DecodeCapabilityConfiguration (NewDecoder (WireEntries.encode
        [(str "module", .str (str "m1")),
         (str "values", .map [(.str (str "z"), .str (str "0"))]),
         (str "module", .str (str "m2")),
         (str "values", .map [(.str (str "a"), .str (str "1")),
                               (.str (str "a"), .str (str "2"))])] ++ []))
      = ({ Module := str "m2", Values := some [(str "a", str "2")] }, .ok []) :=
  (last_occurrence_wins
    [(str "module", .str (str "m1")),
     (str "values", .map [(.str (str "z"), .str (str "0"))]),
     (str "module", .str (str "m2")),
     (str "values", .map [(.str (str "a"), .str (str "1")),
                           (.str (str "a"), .str (str "2"))])] [] [] []
    (by decide) (by decide)).1 (by decide)

end ActorInterfaces
